import Mathlib

/-!
# vtkPolyDataContactFilter: a shallow embedding

The contact filter of vtkbool (`src/vtkPolyDataContactFilter.cxx`) computes the
line segments along which the faces of two polygonal meshes intersect.

Conventions of the embedding:

* `double` is an ordered field `K` with exact arithmetic (the concrete runs below use `ℚ`);
  the decimal literals of the source (`1e-4`, `1e-6`, `1e-12`, `1e5`) are the exact
  fractions. `std::sqrt` is a parameter `sqrt : K → K`.
* `vtkIdType` is `Int`. A `long` has 64 bits: `std::lround` delivers the nearest integer
  only when it lies in the range of a `long`.
* A C++ function that appends to an output vector returns the appended list.
* `assert` is modelled by `Option`: `none` is an aborted run.
* Declarations of this repository that are not part of the listed sources
  (`InterPt`, `InterPt::Merge`, `NOTSET`, `ComputeNormal`) are parameters or are modelled
  from the specification, as marked.
* Of the visibility library (`src/libs/vp/VisPoly.cxx`) the function `GetArea` is embedded, on
  points given by their two coordinates. It takes the rounding of the operations on doubles
  as a parameter `fl : K → K`; `id` is exact arithmetic and `roundDouble` on `ℚ` the rounding
  to the nearest double.
-/

namespace ContactFilter

/-! ## vtkMath -/

/-- A `double[3]`. -/
structure Vec3 (K : Type) where
  x : K
  y : K
  z : K
deriving DecidableEq, Repr

section Defs

variable {K : Type} [LinearOrderedField K]

/-- Component `v[i]` of a `double[3]` (index 0, 1 or 2). -/
def Vec3.get (v : Vec3 K) (i : Nat) : K :=
  if i = 0 then v.x else if i = 1 then v.y else v.z

/-- Assignment `v[i] = a`. -/
def Vec3.set (v : Vec3 K) (i : Nat) (a : K) : Vec3 K :=
  if i = 0 then { v with x := a } else if i = 1 then { v with y := a } else { v with z := a }

/-- The function `vtkMath::Add(a, b, c)`: the sum `c = a + b`. -/
def Add (a b : Vec3 K) : Vec3 K := ⟨a.x + b.x, a.y + b.y, a.z + b.z⟩

/-- The function `vtkMath::Subtract(a, b, c)`: the difference `c = a - b`. -/
def Subtract (a b : Vec3 K) : Vec3 K := ⟨a.x - b.x, a.y - b.y, a.z - b.z⟩

/-- The function `vtkMath::Dot(a, b)`. -/
def Dot (a b : Vec3 K) : K := a.x * b.x + a.y * b.y + a.z * b.z

/-- The function `vtkMath::Cross(a, b, c)`: the cross product `c = a × b`. -/
def Cross (a b : Vec3 K) : Vec3 K :=
  ⟨a.y * b.z - a.z * b.y, a.z * b.x - a.x * b.z, a.x * b.y - a.y * b.x⟩

/-- The function `vtkMath::Norm(v)`: the square root of the sum of the squared components. -/
def Norm (sqrt : K → K) (v : Vec3 K) : K := sqrt (v.x * v.x + v.y * v.y + v.z * v.z)

/-- The function `vtkMath::Normalize(v)`: divides `v` by its norm unless the norm is zero, and returns
the norm. The result is the pair (normalised vector, norm). -/
def Normalize (sqrt : K → K) (v : Vec3 K) : Vec3 K × K :=
  let den := Norm sqrt v
  if den ≠ 0 then (⟨v.x / den, v.y / den, v.z / den⟩, den) else (v, den)

/-- The function `vtkMath::Determinant3x3(c1, c2, c3)`: the determinant of the matrix with columns
`c1`, `c2`, `c3`. -/
def Determinant3x3 (c1 c2 c3 : Vec3 K) : K :=
  c1.x * c2.y * c3.z + c2.x * c3.y * c1.z + c3.x * c1.y * c2.z
    - c1.x * c3.y * c2.z - c2.x * c1.y * c3.z - c3.x * c2.y * c1.z

/-- The point `ptA + t*r`, written componentwise in the source as
`ptA[0]+t*r[0], ptA[1]+t*r[1], ptA[2]+t*r[2]`. -/
def lineAt (ptA r : Vec3 K) (t : K) : Vec3 K :=
  ⟨ptA.x + t * r.x, ptA.y + t * r.y, ptA.z + t * r.z⟩

end Defs

/-! ## Intersection points -/

/-- Modelled from the spec: the sentinel for "none" of the id fields; the constant `NOTSET`
is declared in `Utilities.h`, which is not among the sources. -/
def NOTSET : Int := -1

/-- The tag `Src` of the mesh a point comes from. -/
inductive Src where
  | A
  | B
deriving DecidableEq, Repr

/-- Modelled from the spec: the class `InterPt` is declared in `vtkPolyDataContactFilter.h`,
which is not among the sources. The fields are the ones the source reads and writes:
the line parameter `t`, the coordinates `pt`, the flag `onEdge`, the ordered local-vertex
pair `edge`, the touches-vertex marker `end`, the mesh tag `src` and the merged vertex
sources `srcA`, `srcB`. -/
structure InterPt (K : Type) where
  t : K
  pt : Vec3 K
  onEdge : Bool
  edge : Int × Int
  end_ : Int
  src : Src
  srcA : Int
  srcB : Int
deriving DecidableEq, Repr

/-- Modelled from the spec: the constructor `InterPt(t, end, x, y, z)` used by
`emplace_back` in `InterEdgeLine`. It records the parameter, the marker and the coordinates
and marks the point as lying on an edge; `edge` and `src` are assigned by `InterPolyLine`
before they are read, the merged sources start as the sentinel. -/
def InterPt.new {K : Type} (t : K) (end_ : Int) (pt : Vec3 K) : InterPt K :=
  { t := t, pt := pt, onEdge := true, edge := (NOTSET, NOTSET), end_ := end_,
    src := Src.A, srcA := NOTSET, srcB := NOTSET }

section Defs

variable {K : Type} [LinearOrderedField K]

/-! ## InterEdgeLine -/

/-- The function `vtkPolyDataContactFilter::InterEdgeLine`: the intersection points of the edge
`(eA, eB)` with the line through `ptA` with direction `r`; the list returned is what the
source appends to `interPts`. -/
def InterEdgeLine (sqrt : K → K) (eA eB r ptA : Vec3 K) : List (InterPt K) :=
  let ptB := Add ptA r
  let el := Normalize sqrt (Subtract eB eA)
  let e := el.1
  let l := el.2
  let p := Subtract eA ptA
  let w := |Determinant3x3 r e p|
  if w < 1 / 10000 then
    let v := Cross r e
    let n := Norm sqrt v
    if n > 1 / 10000 then
      let s := Determinant3x3 p r v / (n * n)
      if s > -(1 / 1000000) ∧ s < l + 1 / 1000000 then
        let t := Determinant3x3 p e v / (n * n)
        let end_ : Int :=
          if s > -(1 / 1000000) ∧ s < 1 / 1000000 then 0
          else if s > l - 1 / 1000000 ∧ s < l + 1 / 1000000 then 1
          else NOTSET
        [InterPt.new t end_ (lineAt ptA r t)]
      else []
    else
      let vA := Subtract eA ptA
      let vB := Subtract eA ptB
      let cA := Cross vA vB
      let dotA := Dot vA r
      let vA2 := Subtract eB ptA
      let vB2 := Subtract eB ptB
      let cB := Cross vA2 vB2
      let dotB := Dot vA2 r
      let dA := Norm sqrt cA
      let dB := Norm sqrt cB
      if dA < 1 / 10000 ∨ dB < 1 / 10000 then
        [InterPt.new dotA 0 (lineAt ptA r dotA), InterPt.new dotB 1 (lineAt ptA r dotB)]
      else []
  else []

end Defs

/-! ## Meshes -/

/-- A cell of a `vtkPolyData`: its VTK cell type and its point ids. -/
structure Cell where
  type : Nat
  pts : List Int
deriving DecidableEq, Repr

/-- The part of a `vtkPolyData` the filter uses: the point coordinates, the cells and the
cell-data array `OrigCellIds` (empty when the array is absent). -/
structure PolyData (K : Type) where
  points : List (Vec3 K)
  cells : List Cell
  origCellIds : List Int
deriving DecidableEq, Repr

/-- Element `poly[i]` of a point-id array. -/
def polyAt (poly : List Int) (i : Int) : Int := poly.getD i.toNat 0

section Defs

variable {K : Type} [LinearOrderedField K]

/-- The call `pd->GetPoint(id, x)`: the coordinates of point `id`. -/
def PolyData.GetPoint (pd : PolyData K) (id : Int) : Vec3 K :=
  pd.points.getD id.toNat ⟨0, 0, 0⟩

/-! ## InterPolyLine -/

/-- The nearest integer of `x`, halves rounded away from zero. -/
def roundAway [FloorRing K] (x : K) : Int :=
  if 0 ≤ x then ⌊x + 1 / 2⌋ else -⌊-x + 1 / 2⌋

/-- The function `std::lround` with its result in a `long` of 64 bits, as `Cmp` stores it: the
nearest integer, halves rounded away from zero, when it lies between `-2^63` and `2^63 - 1`
(`2^63 = 9223372036854775808`). For a value outside this range C leaves the result
unspecified; the conversion of the x86-64 library returns the smallest `long`, `-2^63`, for
every such argument, which is the value taken here. -/
@[irreducible] def lround [FloorRing K] (x : K) : Int :=
  if -9223372036854775808 ≤ roundAway x ∧ roundAway x < 9223372036854775808 then roundAway x
  else -9223372036854775808

/-- The statement `paired[p.t].push_back(p)` on the `std::map<double, InterPtsType, Cmp>` of
`InterPolyLine`, kept as the list of its entries in key order. `Cmp` compares the keys by
`lround(key*1e5)`: a key equivalent to `p.t` receives the point, otherwise a new entry
with key `p.t` is inserted at its place. -/
def pairedInsert [FloorRing K] (p : InterPt K) :
    List (K × List (InterPt K)) → List (K × List (InterPt K))
  | [] => [(p.t, [p])]
  | (k, g) :: rest =>
    if lround (p.t * 100000) < lround (k * 100000) then (p.t, [p]) :: (k, g) :: rest
    else if lround (k * 100000) < lround (p.t * 100000) then (k, g) :: pairedInsert p rest
    else (k, g ++ [p]) :: rest

/-- The first loop of `InterPolyLine` for edge `i`: the points of `InterEdgeLine` on the
edge from `poly[i]` to `poly[j]`, tagged with `src`, the edge `(i, j)` and the touched
vertex, as pushed to `interPtsA`. -/
def edgePoints (sqrt : K → K) (pd : PolyData K) (poly : List Int) (r pt : Vec3 K)
    (src : Src) (i : Nat) : List (InterPt K) :=
  let j : Nat := if i = poly.length - 1 then 0 else i + 1
  let ptA := pd.GetPoint (polyAt poly i)
  let ptB := pd.GetPoint (polyAt poly j)
  (InterEdgeLine sqrt ptA ptB r pt).filterMap fun p0 =>
    let p := { p0 with src := src }
    if p.onEdge then
      some { p with
        edge := ((i : Int), (j : Int))
        end_ := if p.end_ ≠ NOTSET then (if p.end_ = 0 then (i : Int) else (j : Int))
                else p.end_ }
    else none

/-- The loop over `paired` that builds `_paired`: a group of one point that touches a
vertex gets a copy of that point. -/
def duplicateSingle (pts : List (InterPt K)) : List (InterPt K) :=
  match pts with
  | [q] => if q.end_ ≠ NOTSET then [q, q] else [q]
  | _ => pts

/-- The statement `if (pair.size() == 2) pair.pop_back();`. -/
def popIfTwo (g : List (InterPt K)) : List (InterPt K) :=
  if g.length = 2 then g.dropLast else g

/-- Applies `f` to the last element of a list (`_paired.back()`). -/
def onBack {α : Type} (f : α → α) : List α → List α
  | [] => []
  | [a] => [f a]
  | a :: b :: rest => a :: onBack f (b :: rest)

/-- Applies `f` to the first element of a list (`_paired.front()`). -/
def onFront {α : Type} (f : α → α) : List α → List α
  | [] => []
  | a :: rest => f a :: rest

/-- The "trivial" step: the first group and then the last group of `_paired` lose their
second point when they have exactly two. -/
def trimEnds (groups : List (List (InterPt K))) : List (List (InterPt K)) :=
  onBack popIfTwo (onFront popIfTwo groups)

/-- The statement `ends.emplace(key, t)` on the `std::map<vtkIdType, double>`: an existing key keeps its
value. -/
def endsEmplace (ends : List (Int × K)) (key : Int) (t : K) : List (Int × K) :=
  if (ends.lookup key).isSome then ends else ends ++ [(key, t)]

/-- The loop that fills `ends` from the last point of every group. -/
def collectEnds (groups : List (List (InterPt K))) : List (Int × K) :=
  groups.foldl (fun ends p =>
    match p.getLast? with
    | some b => if b.end_ ≠ NOTSET then endsEmplace ends b.end_ b.t else ends
    | none => ends) []

/-- The statement `ends.count(key)`. -/
def endsCount (ends : List (Int × K)) (key : Int) : Nat :=
  if (ends.lookup key).isSome then 1 else 0

/-- The statement `ends[key]` for a key that is present. -/
def endsAt (ends : List (Int × K)) (key : Int) : K := (ends.lookup key).getD 0

/-- The function `std::signbit` on exact numbers: the number is negative. -/
def signbit (a : K) : Bool := decide (a < 0)

/-- The index `before` of the resolution loop: the vertex before `end` in a polygon of
`num` vertices, `end == 0 ? num-1 : end-1`. -/
def vertexBefore (num end_ : Int) : Int := if end_ = 0 then num - 1 else end_ - 1

/-- The index `after` of the resolution loop: the vertex after `end`,
`end == num-1 ? 0 : end+1`. -/
def vertexAfter (num end_ : Int) : Int := if end_ = num - 1 then 0 else end_ + 1

/-- The body of the resolution loop of `InterPolyLine` for one group `p` of `_paired`;
the result is the group as the loop leaves it. -/
def resolveGroup (pd : PolyData K) (poly : List Int) (r pt m : Vec3 K) (d : K)
    (ends : List (Int × K)) (p : List (InterPt K)) : List (InterPt K) :=
  match p.getLast? with
  | none => p
  | some dupl =>
    if dupl.end_ ≠ NOTSET then
      let num : Int := (poly.length : Int)
      let before : Int := vertexBefore num dupl.end_
      let after : Int := vertexAfter num dupl.end_
      if p.length = 2 ∧ endsCount ends after = 0 ∧ endsCount ends before = 1 then
        let q := pd.GetPoint (polyAt poly after)
        let e := Dot m q - d
        let t := endsAt ends before
        if (dupl.t > t ∧ e > 0) ∨ (dupl.t < t ∧ e < 0) then p.dropLast else p
      else if p.length = 2 ∧ endsCount ends before = 0 ∧ endsCount ends after = 1 then
        let q := pd.GetPoint (polyAt poly before)
        let e := Dot m q - d
        let t := endsAt ends after
        if (dupl.t > t ∧ e < 0) ∨ (dupl.t < t ∧ e > 0) then p.dropLast else p
      else if endsCount ends before = 0 ∧ endsCount ends after = 0 then
        let ptA := pd.GetPoint (polyAt poly after)
        let ptB := pd.GetPoint (polyAt poly before)
        let dA := Dot m ptA - d
        let dB := Dot m ptB - d
        if signbit dA ≠ signbit dB then
          (if p.length = 2 then p.dropLast else p)
        else
          let tA := Dot (Subtract ptA pt) r
          let tB := Dot (Subtract ptB pt) r
          if decide (tB > tA) = signbit dA then [] else p
      else p
    else p

/-- The function `vtkPolyDataContactFilter::InterPolyLine`: the accepted intersection points of the
polygon `poly` of `pd` with the line through `pt` with direction `r`; `n` is the polygon
normal. The list returned is what the source appends to `interPts`. -/
def InterPolyLine [FloorRing K] (sqrt : K → K) (pd : PolyData K) (poly : List Int)
    (r pt : Vec3 K) (src : Src) (n : Vec3 K) : List (InterPt K) :=
  let interPtsA := (List.range poly.length).flatMap (edgePoints sqrt pd poly r pt src)
  if interPtsA.isEmpty then []
  else
    let paired := interPtsA.foldl (fun mp p => pairedInsert p mp) []
    let groups := trimEnds (paired.map fun kg => duplicateSingle kg.2)
    let m := Cross n r
    let d := Dot m pt
    let ends := collectEnds groups
    (groups.map (resolveGroup pd poly r pt m d ends)).flatten

end Defs

/-! ## The filter object -/

/-- The VTK cell type `VTK_EMPTY_CELL`, the type of a deleted cell. -/
def VTK_EMPTY_CELL : Nat := 0

/-- The VTK cell type `VTK_LINE`. -/
def VTK_LINE : Nat := 3

/-- The VTK cell type `VTK_TRIANGLE`. -/
def VTK_TRIANGLE : Nat := 5

/-- The VTK cell type `VTK_TRIANGLE_STRIP`. -/
def VTK_TRIANGLE_STRIP : Nat := 6

/-- The VTK cell type `VTK_POLYGON`. -/
def VTK_POLYGON : Nat := 7

/-- The VTK cell type `VTK_QUAD`. -/
def VTK_QUAD : Nat := 9

/-- The call `pd->GetCellPoints(id, num, poly)`: the point ids of cell `id`. -/
def PolyData.GetCellPoints {K : Type} (pd : PolyData K) (id : Int) : List Int :=
  (pd.cells.getD id.toNat ⟨VTK_EMPTY_CELL, []⟩).pts

/-- The call `pd->GetNumberOfCells()`. -/
def PolyData.GetNumberOfCells {K : Type} (pd : PolyData K) : Nat := pd.cells.length

/-- The cell links built by `BuildLinks`: the ids of the cells that use point `p`, one
entry for every use, in cell order. -/
def cellLinks (cells : List Cell) (p : Int) : List Int :=
  (List.range cells.length).flatMap fun c =>
    ((cells.getD c ⟨VTK_EMPTY_CELL, []⟩).pts.filter (fun q => q = p)).map fun _ => (c : Int)

/-- The call `pd->GetCellEdgeNeighbors(cellId, p1, p2, neigs)` of `vtkPolyData`: the cells other than
`cellId` in the links of `p1` that also occur in the links of `p2`. -/
def PolyData.GetCellEdgeNeighbors {K : Type} (pd : PolyData K) (cellId p1 p2 : Int) :
    List Int :=
  (cellLinks pd.cells p1).filter fun c => c ≠ cellId ∧ c ∈ cellLinks pd.cells p2

/-- An element of `OverlapsType`, the tuple `(f, s, neigA, neigB)`: the two merged end
points of a contact segment and the neighbour ids of the two sides. -/
structure Overlap (K : Type) where
  f : InterPt K
  s : InterPt K
  neigA : Int
  neigB : Int
deriving DecidableEq, Repr

/-- The data members of `vtkPolyDataContactFilter`: the two prepared meshes, their
non-manifold edge sets, the points and line cells of `contLines`, the six attribute arrays
and the two invalidity flags. -/
structure Filter (K : Type) where
  pdA : PolyData K
  pdB : PolyData K
  edgesA : List (Int × Int)
  edgesB : List (Int × Int)
  contPts : List (Vec3 K)
  contLines : List Cell
  contA : List Int
  contB : List Int
  sourcesA : List (Int × Int)
  sourcesB : List (Int × Int)
  neigsA : List Int
  neigsB : List Int
  invalidA : Bool
  invalidB : Bool
deriving DecidableEq, Repr

/-- The object after the constructor: empty accumulators, both flags false. -/
def Filter.new {K : Type} : Filter K :=
  { pdA := ⟨[], [], []⟩, pdB := ⟨[], [], []⟩, edgesA := [], edgesB := [], contPts := [],
    contLines := [], contA := [], contB := [], sourcesA := [], sourcesB := [],
    neigsA := [], neigsB := [], invalidA := false, invalidB := false }

/-- The three containers `OverlapLines` works on: `intersA` and `intersB`, whose elements
`Merge` modifies in place, and the output `ols`. -/
structure OverlapState (K : Type) where
  intersA : List (InterPt K)
  intersB : List (InterPt K)
  ols : List (Overlap K)
deriving DecidableEq, Repr

section Defs

variable {K : Type} [LinearOrderedField K]

/-! ## OverlapLines -/

/-- Element `k` of a vector of intersection points (`*itr`, `*(itr+1)`). -/
def ptAt (l : List (InterPt K)) (k : Nat) : InterPt K :=
  l.getD k (InterPt.new 0 NOTSET ⟨0, 0, 0⟩)

/-- The lambda `GetNeig` of `OverlapLines`: when both points lie on the same edge, the
single neighbour of cell `polyId` across that edge; `none` is the failed
`assert(neigs->GetNumberOfIds() == 1)`. -/
def GetNeig (pA pB : InterPt K) (pd : PolyData K) (poly : List Int) (polyId : Int) :
    Option Int :=
  if pA.edge.1 = pB.edge.1 ∧ pA.edge.2 = pB.edge.2 then
    let neigs := pd.GetCellEdgeNeighbors polyId (polyAt poly pA.edge.1) (polyAt poly pA.edge.2)
    if neigs.length = 1 then some (neigs.getD 0 0) else none
  else some NOTSET

/-- The body of the inner loop of `OverlapLines` for the intervals starting at index `ia`
of `intersA` and `ib` of `intersB`. The lambda `Add(a, b, c, d, neigA, neigB)` is inlined:
it performs `a.Merge(c)` and `b.Merge(d)` on the referenced vector elements and pushes the
tuple of the merged `a` and `b`. `merge a c` is `a` after `a.Merge(c)`. -/
def overlapPair (merge : InterPt K → InterPt K → InterPt K) (pdB : PolyData K)
    (polyB : List Int) (idB : Int) (neigA : Int) (ia ib : Nat) (st : OverlapState K) :
    Option (OverlapState K) :=
  let a0 := ptAt st.intersA ia
  let a1 := ptAt st.intersA (ia + 1)
  let b0 := ptAt st.intersB ib
  let b1 := ptAt st.intersB (ib + 1)
  match GetNeig b0 b1 pdB polyB idB with
  | none => none
  | some neigB =>
    if a0.t ≤ b0.t ∧ a1.t > b0.t then
      if b1.t < a1.t then
        let f := merge b0 a0
        let s := merge b1 a1
        some { st with
          intersB := (st.intersB.set ib f).set (ib + 1) s
          ols := st.ols ++ [⟨f, s, neigA, neigB⟩] }
      else
        let f := merge b0 a0
        let s := merge a1 b1
        some { intersA := st.intersA.set (ia + 1) s
               intersB := st.intersB.set ib f
               ols := st.ols ++ [⟨f, s, neigA, neigB⟩] }
    else if b0.t ≤ a0.t ∧ b1.t > a0.t then
      if a1.t < b1.t then
        let f := merge a0 b0
        let s := merge a1 b1
        some { st with
          intersA := (st.intersA.set ia f).set (ia + 1) s
          ols := st.ols ++ [⟨f, s, neigA, neigB⟩] }
      else
        let f := merge a0 b0
        let s := merge b1 a1
        some { intersA := st.intersA.set ia f
               intersB := st.intersB.set (ib + 1) s
               ols := st.ols ++ [⟨f, s, neigA, neigB⟩] }
    else some st

/-- One pass of the outer loop of `OverlapLines`: `neigA` for interval `i` of `intersA`,
then the inner loop over the intervals of `intersB`. -/
def overlapRow (merge : InterPt K → InterPt K → InterPt K) (pdA pdB : PolyData K)
    (polyA polyB : List Int) (idA idB : Int) (st : OverlapState K) (i : Nat) :
    Option (OverlapState K) :=
  match GetNeig (ptAt st.intersA (2 * i)) (ptAt st.intersA (2 * i + 1)) pdA polyA idA with
  | none => none
  | some neigA =>
    (List.range (st.intersB.length / 2)).foldlM
      (fun s j => overlapPair merge pdB polyB idB neigA (2 * i) (2 * j) s) st

/-- The function `vtkPolyDataContactFilter::OverlapLines`: both vectors are walked two elements at a
time (they have even length at the only call). The result holds the overlaps pushed to
`ols` and the two vectors as `Merge` left them; `none` is a failed assertion. -/
def OverlapLines (merge : InterPt K → InterPt K → InterPt K) (pdA pdB : PolyData K)
    (intersA intersB : List (InterPt K)) (polyA polyB : List Int) (idA idB : Int) :
    Option (OverlapState K) :=
  (List.range (intersA.length / 2)).foldlM
    (overlapRow merge pdA pdB polyA polyB idA idB) ⟨intersA, intersB, []⟩

/-! ## AddContactLines -/

/-- The pair `{poly[p.edge[0]], poly[p.edge[1]]}` looked up in a non-manifold edge set. -/
def edgeKey (poly : List Int) (p : InterPt K) : Int × Int :=
  (polyAt poly p.edge.1, polyAt poly p.edge.2)

/-- The body of the loop of `AddContactLines` for one overlap. -/
def addContactLine (polyA polyB : List Int) (idA idB : Int) (self : Filter K)
    (o : Overlap K) : Filter K :=
  let f := o.f
  let s := o.s
  let hitA : Bool :=
    (decide (f.src = Src.A) && decide (edgeKey polyA f ∈ self.edgesA))
      || (decide (s.src = Src.A) && decide (edgeKey polyA s ∈ self.edgesA))
  let hitB : Bool :=
    (decide (f.src = Src.B) && decide (edgeKey polyB f ∈ self.edgesB))
      || (decide (s.src = Src.B) && decide (edgeKey polyB s ∈ self.edgesB))
  let idF : Int := (self.contPts.length : Int)
  let idS : Int := (self.contPts.length : Int) + 1
  { self with
    invalidA := if hitA then true else self.invalidA
    invalidB := if hitB then true else self.invalidB
    contPts := self.contPts ++ [f.pt, s.pt]
    contLines := self.contLines ++ [⟨VTK_LINE, [idF, idS]⟩]
    sourcesA := self.sourcesA ++ [(f.srcA, s.srcA)]
    sourcesB := self.sourcesB ++ [(f.srcB, s.srcB)]
    contA := self.contA ++ [idA]
    contB := self.contB ++ [idB]
    neigsA := self.neigsA ++ [o.neigA]
    neigsB := self.neigsB ++ [o.neigB] }

/-- The function `vtkPolyDataContactFilter::AddContactLines`; `none` is a failed assertion of
`OverlapLines`. -/
def AddContactLines (merge : InterPt K → InterPt K → InterPt K) (self : Filter K)
    (intersA intersB : List (InterPt K)) (polyA polyB : List Int) (idA idB : Int) :
    Option (Filter K) :=
  match OverlapLines merge self.pdA self.pdB intersA intersB polyA polyB idA idB with
  | none => none
  | some st => some (st.ols.foldl (addContactLine polyA polyB idA idB) self)

/-! ## InterPolys -/

/-- The index `i` of the component of `r` of largest magnitude, as found by the loop
`for (int j = 1; j < 3; j++) if (std::abs(r[j]) > std::abs(r[i])) i = j;`. -/
def largestAxis (r : Vec3 K) : Nat :=
  let i1 : Nat := if |r.get 1| > |r.get 0| then 1 else 0
  if |r.get 2| > |r.get i1| then 2 else i1

/-- The array `inds` of the two other axes. -/
def otherAxes (i : Nat) : Nat × Nat :=
  if i = 1 then (0, 2) else if i = 2 then (0, 1) else (1, 2)

/-- The determinant `det = nA[inds[0]]*nB[inds[1]]-nB[inds[0]]*nA[inds[1]]`. -/
def planeDet (nA nB : Vec3 K) (i : Nat) : K :=
  nA.get (otherAxes i).1 * nB.get (otherAxes i).2 - nB.get (otherAxes i).1 * nA.get (otherAxes i).2

/-- The point `s` on the intersection line of the planes `nA . x = dA` and `nB . x = dB`,
by Cramer's rule on the axes `inds`, with `s[i] = 0`. -/
def planePoint (nA nB : Vec3 K) (dA dB : K) (i : Nat) : Vec3 K :=
  let inds := otherAxes i
  let det := planeDet nA nB i
  let s0 : Vec3 K := ⟨0, 0, 0⟩
  let s1 := s0.set inds.1 ((dA * nB.get inds.2 - dB * nA.get inds.2) / det)
  let s2 := s1.set inds.2 ((nA.get inds.1 * dB - nB.get inds.1 * dA) / det)
  s2.set i 0

/-- The cutting line of a face pair in `InterPolys`: the direction `r` (the normalised
cross product of the normals) and the point `s`; `none` when the pair is skipped because
`std::abs(det) < 1e-12`. -/
def cuttingLine (sqrt : K → K) (nA nB : Vec3 K) (dA dB : K) : Option (Vec3 K × Vec3 K) :=
  let r := (Normalize sqrt (Cross nA nB)).1
  let i := largestAxis r
  if |planeDet nA nB i| < 1 / 1000000000000 then none
  else some (r, planePoint nA nB dA dB i)

/-- The function `vtkPolyDataContactFilter::InterPolys` for the cells `idA` of `pdA` and `idB` of `pdB`.
`computeNormal pts poly` stands for `ComputeNormal(pts, n, num, poly)` of `Utilities.h`,
which is not among the sources. `CheckInters` only prints and is left out. `none` is a
failed assertion. -/
def InterPolys [FloorRing K] (sqrt : K → K) (merge : InterPt K → InterPt K → InterPt K)
    (computeNormal : List (Vec3 K) → List Int → Vec3 K) (self : Filter K) (idA idB : Int) :
    Option (Filter K) :=
  let polyA := self.pdA.GetCellPoints idA
  let polyB := self.pdB.GetCellPoints idB
  let nA := computeNormal self.pdA.points polyA
  let nB := computeNormal self.pdB.points polyB
  let ptA := self.pdA.GetPoint (polyAt polyA 0)
  let ptB := self.pdB.GetPoint (polyAt polyB 0)
  let dA := Dot nA ptA
  let dB := Dot nB ptB
  match cuttingLine sqrt nA nB dA dB with
  | none => some self
  | some (r, s) =>
    let intersA := InterPolyLine sqrt self.pdA polyA r s Src.A nA
    let intersB := InterPolyLine sqrt self.pdB polyB r s Src.B nB
    if intersA.length ≠ 0 ∧ intersB.length ≠ 0
        ∧ intersA.length % 2 = 0 ∧ intersB.length % 2 = 0 then
      AddContactLines merge self intersA intersB polyA polyB idA idB
    else some self

/-- The function `vtkPolyDataContactFilter::InterOBBNodes` for the cell lists of two tree nodes:
`InterPolys` for every pair of cells. -/
def InterOBBNodes [FloorRing K] (sqrt : K → K) (merge : InterPt K → InterPt K → InterPt K)
    (computeNormal : List (Vec3 K) → List Int → Vec3 K) (self : Filter K)
    (cellsA cellsB : List Int) : Option (Filter K) :=
  cellsA.foldlM (fun s1 ci =>
    cellsB.foldlM (fun s2 cj => InterPolys sqrt merge computeNormal s2 ci cj) s1) self

end Defs

/-! ## PreparePolyData -/

/-- The function `vtkTriangleStrip::DecomposeStrip(npts, pts, cells)` of VTK: triangle `i` of the strip
is `(pts[i], pts[i+1], pts[i+2])`, with the first two ids exchanged for odd `i`. -/
def DecomposeStrip (pts : List Int) : List (List Int) :=
  (List.range (pts.length - 2)).map fun i =>
    if i % 2 = 1 then [polyAt pts ((i : Int) + 1), polyAt pts (i : Int), polyAt pts ((i : Int) + 2)]
    else [polyAt pts (i : Int), polyAt pts ((i : Int) + 1), polyAt pts ((i : Int) + 2)]

/-- The call `pd->DeleteCell(cellId)` on the cell list: the cell is marked with the empty type. -/
def deleteCell (cells : List Cell) (cellId : Nat) : List Cell :=
  cells.set cellId { cells.getD cellId ⟨VTK_EMPTY_CELL, []⟩ with type := VTK_EMPTY_CELL }

/-- The body of the second loop of `PreparePolyData` for the cell `cellId`; the state is
the cell list of `pd` and the array `cellIds`. -/
def prepareCell (st : List Cell × List Int) (cellId : Nat) : List Cell × List Int :=
  let c := st.1.getD cellId ⟨VTK_EMPTY_CELL, []⟩
  if c.type = VTK_QUAD then
    let newCellA : Cell := ⟨VTK_TRIANGLE, [polyAt c.pts 0, polyAt c.pts 1, polyAt c.pts 2]⟩
    let newCellB : Cell := ⟨VTK_TRIANGLE, [polyAt c.pts 0, polyAt c.pts 2, polyAt c.pts 3]⟩
    (deleteCell (st.1 ++ [newCellA, newCellB]) cellId, st.2 ++ [(cellId : Int), (cellId : Int)])
  else if c.type = VTK_TRIANGLE_STRIP then
    let tris := (DecomposeStrip c.pts).filter fun t =>
      polyAt t 0 ≠ polyAt t 1 ∧ polyAt t 1 ≠ polyAt t 2 ∧ polyAt t 2 ≠ polyAt t 0
    (deleteCell (st.1 ++ tris.map fun t => ⟨VTK_TRIANGLE, t⟩) cellId,
      st.2 ++ tris.map fun _ => (cellId : Int))
  else if c.type ≠ VTK_TRIANGLE ∧ c.type ≠ VTK_POLYGON then
    (deleteCell st.1 cellId, st.2)
  else st

/-- The array `cellIds` after the first loop of `PreparePolyData`: the id of every cell. -/
def initialCellIds (cells : List Cell) : List Int :=
  (List.range cells.length).map Int.ofNat

/-- The call `pd->RemoveDeletedCells()` on the cell list together with one cell-data array: the cells
of the empty type are dropped and the array keeps the entries of the remaining cells. -/
def removeDeletedCells {α : Type} (cells : List Cell) (data : List α) :
    List Cell × List α :=
  ((cells.zip data).filter fun cd => cd.1.type ≠ VTK_EMPTY_CELL).unzip

/-- The edges of a cell: the pairs of cyclically consecutive point ids. -/
def cellEdges (c : Cell) : List (Int × Int) :=
  (List.range c.pts.length).map fun i =>
    (polyAt c.pts (Int.ofNat i), polyAt c.pts (Int.ofNat ((i + 1) % c.pts.length)))

/-- Cell `c` has the edge between `u` and `v`, in either direction. -/
def usesEdge (c : Cell) (u v : Int) : Bool :=
  decide ((u, v) ∈ cellEdges c) || decide ((v, u) ∈ cellEdges c)

/-- The incident-face count of the edge between `u` and `v`: the number of cells that
have it. -/
def edgeUse (cells : List Cell) (u v : Int) : Nat :=
  (cells.filter fun c => usesEdge c u v).length

section Defs

variable {K : Type} [LinearOrderedField K]

/-- The output of `vtkFeatureEdges` of VTK as configured in `PreparePolyData`
(`BoundaryEdgesOff`, `FeatureEdgesOff`, `ManifoldEdgesOff`, `NonManifoldEdgesOn`), which is
library code: line cells, given by the coordinates of their two points. The filter visits
every cell and every edge `(p1, p2)` of it, the points `pts[i]` and `pts[(i+1) % npts]`, and
asks `GetCellEdgeNeighbors(cellId, p1, p2)` for the other cells that use both points. With
more than one such cell the edge is a non-manifold edge, and its line is created unless a
neighbour has a smaller id than the cell (the edge has then been created before). Edges with
no neighbour (boundary edges) and with one are not extracted. -/
def nonManifoldFeatureEdges (pd : PolyData K) : List (Vec3 K × Vec3 K) :=
  (List.range pd.cells.length).flatMap fun cellId =>
    ((cellEdges (pd.cells.getD cellId ⟨VTK_EMPTY_CELL, []⟩)).filter fun (e : Int × Int) =>
      decide (1 < (pd.GetCellEdgeNeighbors (cellId : Int) e.1 e.2).length)
        && (pd.GetCellEdgeNeighbors (cellId : Int) e.1 e.2).all fun n =>
          decide (¬ n < (cellId : Int))).map
      fun e => (pd.GetPoint e.1, pd.GetPoint e.2)

/-- The squared distance of two points. -/
def dist2 (a b : Vec3 K) : K := Dot (Subtract a b) (Subtract a b)

/-- The search of `FindPoint`: `best` is the index of the closest point seen so far and
`bestD` its squared distance; `idx` is the index of the head of the list. -/
def closestFrom (x : Vec3 K) : List (Vec3 K) → Nat → Nat → K → Nat
  | [], _, best, _ => best
  | q :: qs, idx, best, bestD =>
    if dist2 x q < bestD then closestFrom x qs (idx + 1) idx (dist2 x q)
    else closestFrom x qs (idx + 1) best bestD

/-- The call `pd->FindPoint(x)` of VTK: the id of the point of `pd` closest to `x` (the first one
among equally close points), `-1` for a mesh without points. -/
def PolyData.FindPoint (pd : PolyData K) (x : Vec3 K) : Int :=
  match pd.points with
  | [] => -1
  | q :: qs => (closestFrom x qs 1 0 (dist2 x q) : Int)

/-- The statement `edges.emplace(idA, idB); edges.emplace(idB, idA);` on the `std::set` of pairs. -/
def emplaceEdge (edges : List (Int × Int)) (idA idB : Int) : List (Int × Int) :=
  let e1 := if (idA, idB) ∈ edges then edges else edges ++ [(idA, idB)]
  if (idB, idA) ∈ e1 then e1 else e1 ++ [(idB, idA)]

/-- The function `vtkPolyDataContactFilter::PreparePolyData(pd, edges)`: the prepared mesh and the
non-manifold edge set. The traversal visits the cells present at its start: the cells it
appends are triangles, for which the loop body does nothing. -/
def PreparePolyData (pd : PolyData K) (edges : List (Int × Int)) :
    PolyData K × List (Int × Int) :=
  let st := (List.range pd.cells.length).foldl prepareCell (pd.cells, initialCellIds pd.cells)
  let kept := removeDeletedCells st.1 st.2
  let pd1 : PolyData K := { points := pd.points, cells := kept.1, origCellIds := kept.2 }
  let edges1 := (nonManifoldFeatureEdges pd1).foldl
    (fun es ab => emplaceEdge es (pd1.FindPoint ab.1) (pd1.FindPoint ab.2)) edges
  (pd1, edges1)

end Defs

/-! ## ProcessRequest -/

/-- The contact lines as a `vtkPolyData`: points, cells and the named cell-data arrays
(every array holds one tuple per cell). -/
structure ContactData (K : Type) where
  points : List (Vec3 K)
  cells : List Cell
  arrays : List (String × List (List Int))
deriving DecidableEq, Repr

/-- What a call of `ProcessRequest` leaves behind: the return value, the messages of
`vtkErrorMacro`, the three outputs (`none` for an output that was not written) and the
filter object. -/
structure RunResult (K : Type) where
  ret : Int
  errors : List String
  resultA : Option (ContactData K)
  resultB : Option (PolyData K)
  resultC : Option (PolyData K)
  self : Filter K
deriving DecidableEq, Repr

/-- The message of the check for empty inputs. -/
def errNoCells : String := "One of the inputs does not contain any supported cells."

/-- The message for a set flag `invalidA`. -/
def errInvalidA : String :=
  "First input has non-manifold edges which are involved in the intersection."

/-- The message for a set flag `invalidB`. -/
def errInvalidB : String :=
  "Second input has non-manifold edges which are involved in the intersection."

/-- The call `RemoveDeletedCells` on the contact lines: cells of the empty type are dropped
together with their tuples in every array. -/
def ContactData.RemoveDeletedCells {K : Type} (c : ContactData K) : ContactData K :=
  let keep := (List.range c.cells.length).filter fun i =>
    (c.cells.getD i ⟨VTK_EMPTY_CELL, []⟩).type ≠ VTK_EMPTY_CELL
  { points := c.points
    cells := keep.map fun i => c.cells.getD i ⟨VTK_EMPTY_CELL, []⟩
    arrays := c.arrays.map fun na => (na.1, keep.map fun i => na.2.getD i []) }

/-- The loop of `ProcessRequest` that deletes every cell that is not a line. -/
def ContactData.deleteNonLines {K : Type} (c : ContactData K) : ContactData K :=
  { c with cells := c.cells.map fun x =>
      if x.type ≠ VTK_LINE then { x with type := VTK_EMPTY_CELL } else x }

section Defs

variable {K : Type} [LinearOrderedField K]

/-- The function `vtkPolyDataContactFilter::ProcessRequest`. The traversal of the two OBB trees is
external: `obbPairs pdA pdB` lists the cell lists of the node pairs for which
`IntersectWithOBBTree` calls `InterOBBNodes`. `clean` is `vtkCleanPolyData` with absolute
tolerance `1e-5`. `hasRequestData` is `request->Has(REQUEST_DATA())`. `none` is a failed
assertion. -/
def ProcessRequest [FloorRing K] (sqrt : K → K)
    (merge : InterPt K → InterPt K → InterPt K)
    (computeNormal : List (Vec3 K) → List Int → Vec3 K)
    (obbPairs : PolyData K → PolyData K → List (List Int × List Int))
    (clean : ContactData K → ContactData K)
    (self : Filter K) (hasRequestData : Bool) (inA inB : PolyData K) :
    Option (RunResult K) :=
  if hasRequestData then
    let prepA := PreparePolyData { inA with origCellIds := [] } self.edgesA
    let prepB := PreparePolyData { inB with origCellIds := [] } self.edgesB
    let self1 : Filter K :=
      { self with pdA := prepA.1, pdB := prepB.1, edgesA := prepA.2, edgesB := prepB.2 }
    if prepA.1.GetNumberOfCells = 0 ∨ prepB.1.GetNumberOfCells = 0 then
      some ⟨1, [errNoCells], none, none, none, self1⟩
    else
      match (obbPairs prepA.1 prepB.1).foldlM
          (fun s pr => InterOBBNodes sqrt merge computeNormal s pr.1 pr.2) self1 with
      | none => none
      | some self2 =>
        if self2.invalidA then some ⟨1, [errInvalidA], none, none, none, self2⟩
        else if self2.invalidB then some ⟨1, [errInvalidB], none, none, none, self2⟩
        else
          let contLines : ContactData K :=
            { points := self2.contPts
              cells := self2.contLines
              arrays :=
                [("cA", self2.contA.map fun a => [a]),
                 ("cB", self2.contB.map fun a => [a]),
                 ("sourcesA", self2.sourcesA.map fun a => [a.1, a.2]),
                 ("sourcesB", self2.sourcesB.map fun a => [a.1, a.2])] }
          let cleaned := clean contLines.RemoveDeletedCells
          let resultA := cleaned.deleteNonLines.RemoveDeletedCells
          some ⟨1, [], some resultA, some prepA.1, some prepB.1, self2⟩
  else some ⟨1, [], none, none, none, self⟩

/-- Modelled from the spec: `InterPt::Merge` is declared in `vtkPolyDataContactFilter.h`,
which is not among the sources. The merge keeps the parameter, coordinates, edge, marker
and mesh tag of the point and records the source vertex of its own side (the touched
vertex, or the first vertex of the edge); when the other point has the same parameter up
to `1e-5` the source vertex of the other side is recorded from it as well. This instance
is used for the concrete runs; the theorems hold for every merge that keeps the fields
they name. -/
def Merge (a other : InterPt K) : InterPt K :=
  let own : Int := if a.end_ = NOTSET then a.edge.1 else a.end_
  let a1 : InterPt K :=
    match a.src with
    | Src.A => { a with srcA := own }
    | Src.B => { a with srcB := own }
  if |other.t - a.t| < 1 / 100000 then
    let oth : Int := if other.end_ = NOTSET then other.edge.1 else other.end_
    match other.src with
    | Src.A => { a1 with srcA := oth }
    | Src.B => { a1 with srcB := oth }
  else a1

/-- Modelled from the spec: `ComputeNormal` is declared in `Utilities.h`, which is not
among the sources; the polygon-normal estimator of the specification, here Newell's sum
over the edges, normalised. This instance is used for the concrete runs. -/
def newellNormal (sqrt : K → K) (pts : List (Vec3 K)) (poly : List Int) : Vec3 K :=
  let at_ : Nat → Vec3 K := fun i => pts.getD (polyAt poly (i : Int)).toNat ⟨0, 0, 0⟩
  let n := (List.range poly.length).foldl (fun (acc : Vec3 K) i =>
    let pA := at_ i
    let pB := at_ ((i + 1) % poly.length)
    ⟨acc.x + (pA.y - pB.y) * (pA.z + pB.z), acc.y + (pA.z - pB.z) * (pA.x + pB.x),
      acc.z + (pA.x - pB.x) * (pA.y + pB.y)⟩) ⟨0, 0, 0⟩
  (Normalize sqrt n).1

end Defs

/-- Integer square root by bisection on the bits `b-1, …, 0`. -/
def isqrtBits (n : Nat) : Nat → Nat → Nat
  | 0, r => r
  | b + 1, r =>
    if (r + 2 ^ b) * (r + 2 ^ b) ≤ n then isqrtBits n b (r + 2 ^ b) else isqrtBits n b r

/-- A square root on `ℚ` for the concrete runs: exact on squares of rationals whose
numerator and denominator are below `2^128`, and `0` on negative numbers. -/
def qsqrt (x : ℚ) : ℚ := (isqrtBits x.num.toNat 64 0 : ℚ) / (isqrtBits x.den 64 0 : ℚ)

/-! ## Concrete meshes -/

/-- Mesh A of the concrete runs: the triangle `(0, 1, 2)` in the plane `z = 0` with sides
4, 5 and 3, and two more triangles on its edge `(0, 1)`, which therefore has three incident
faces. -/
def exA : PolyData ℚ :=
  { points := [⟨0, 0, 0⟩, ⟨4, 0, 0⟩, ⟨0, 3, 0⟩, ⟨0, 0, 3⟩, ⟨0, 0, -3⟩]
    cells := [⟨VTK_TRIANGLE, [0, 1, 2]⟩, ⟨VTK_TRIANGLE, [0, 1, 3]⟩, ⟨VTK_TRIANGLE, [0, 1, 4]⟩]
    origCellIds := [] }

/-- A triangle in the plane `z = 1`, parallel to the first triangle of `exA`. -/
def exBpar : PolyData ℚ :=
  { points := [⟨0, 0, 1⟩, ⟨4, 0, 1⟩, ⟨0, 3, 1⟩]
    cells := [⟨VTK_TRIANGLE, [0, 1, 2]⟩]
    origCellIds := [] }

/-- The filter object after `PreparePolyData` on both inputs, before the first face pair. -/
def prepared (a b : PolyData ℚ) : Filter ℚ :=
  { (Filter.new : Filter ℚ) with
    pdA := (PreparePolyData a []).1, edgesA := (PreparePolyData a []).2
    pdB := (PreparePolyData b []).1, edgesB := (PreparePolyData b []).2 }

/-! ## Named parts of `InterEdgeLine` -/

section Defs

variable {K : Type} [LinearOrderedField K]

/-- The unit direction `e` of the edge in `InterEdgeLine`: `eB - eA`, normalised. -/
def edgeDir (sqrt : K → K) (eA eB : Vec3 K) : Vec3 K := (Normalize sqrt (Subtract eB eA)).1

/-- The length `l` of the edge in `InterEdgeLine`, the value returned by `Normalize`. -/
def edgeLen (sqrt : K → K) (eA eB : Vec3 K) : K := (Normalize sqrt (Subtract eB eA)).2

/-- The norm `n` of `v = r x e` in `InterEdgeLine`. -/
def crossNorm (sqrt : K → K) (eA eB r : Vec3 K) : K := Norm sqrt (Cross r (edgeDir sqrt eA eB))

/-- The edge parameter `s = det(p, r, v)/(n*n)` of `InterEdgeLine`. -/
def edgeParam (sqrt : K → K) (eA eB r ptA : Vec3 K) : K :=
  Determinant3x3 (Subtract eA ptA) r (Cross r (edgeDir sqrt eA eB))
    / (crossNorm sqrt eA eB r * crossNorm sqrt eA eB r)

/-- The line parameter `t = det(p, e, v)/(n*n)` of `InterEdgeLine`. -/
def lineParam (sqrt : K → K) (eA eB r ptA : Vec3 K) : K :=
  Determinant3x3 (Subtract eA ptA) (edgeDir sqrt eA eB) (Cross r (edgeDir sqrt eA eB))
    / (crossNorm sqrt eA eB r * crossNorm sqrt eA eB r)

/-- The marker `end` of `InterEdgeLine` for the edge parameter `s` and the edge length `l`:
`0` or `1` within `1e-6` of an end of the edge, the sentinel otherwise. -/
def endMarker (s l : K) : Int :=
  if s > -(1 / 1000000) ∧ s < 1 / 1000000 then 0
  else if s > l - 1 / 1000000 ∧ s < l + 1 / 1000000 then 1
  else NOTSET

end Defs

/-- A unit vector that encloses an angle of about `1e-4` with the x axis: `tiltDir.y` is
`40000/400000001`. -/
def tiltDir : Vec3 ℚ := ⟨399999999 / 400000001, 40000 / 400000001, 0⟩

/-! ## The stated behaviour of `OverlapLines` -/

section Defs

variable {K : Type} [LinearOrderedField K]

/-- The common part of the parameter ranges `[a0, a1]` and `[b0, b1]` as the claim states
it: the range from `max a0 b0` to `min a1 b1` when that is a proper range, nothing
otherwise. -/
def clipSpec (a0 a1 b0 b1 : K) : List (K × K) :=
  if max a0 b0 < min a1 b1 then [(max a0 b0, min a1 b1)] else []

/-- The stated output of `OverlapLines` for the vectors `A` and `B`: for every interval of
`A` and, within it, every interval of `B`, the common part of the two ranges. -/
def clipAll (A B : List (InterPt K)) : List (K × K) :=
  (List.range (A.length / 2)).flatMap fun i =>
    (List.range (B.length / 2)).flatMap fun j =>
      clipSpec (ptAt A (2 * i)).t (ptAt A (2 * i + 1)).t (ptAt B (2 * j)).t
        (ptAt B (2 * j + 1)).t

/-- The parameters of the two end points of an overlap. -/
def Overlap.range (o : Overlap K) : K × K := (o.f.t, o.s.t)

end Defs

/-- Mesh B of the first concrete run: a triangle in the plane `y = 1` with sides 3, 5 and 4.
It crosses the first triangle of `exA` along `y = 1`, away from the edge `(0, 1)` of
`exA`. -/
def exBy : PolyData ℚ :=
  { points := [⟨1, 1, -1⟩, ⟨1, 1, 2⟩, ⟨5, 1, -1⟩]
    cells := [⟨VTK_TRIANGLE, [0, 1, 2]⟩]
    origCellIds := [] }

/-- Mesh B of the second concrete run: a triangle in the plane `x = 1` with sides 3, 5 and
4. It crosses the first triangle of `exA` along `x = 1`, through the edge `(0, 1)` of
`exA`. -/
def exBx : PolyData ℚ :=
  { points := [⟨1, -1, -1⟩, ⟨1, -1, 2⟩, ⟨1, 3, -1⟩]
    cells := [⟨VTK_TRIANGLE, [0, 1, 2]⟩]
    origCellIds := [] }

/-- The points of cell 0 of mesh A on the cutting line of the cells 0 of `a` and `b`, as
`InterPolys` computes them (empty when the pair is skipped). -/
def exIntersA (a b : PolyData ℚ) : List (InterPt ℚ) :=
  let nA := newellNormal qsqrt a.points (a.GetCellPoints 0)
  let nB := newellNormal qsqrt b.points (b.GetCellPoints 0)
  match cuttingLine qsqrt nA nB (Dot nA (a.GetPoint (polyAt (a.GetCellPoints 0) 0)))
      (Dot nB (b.GetPoint (polyAt (b.GetCellPoints 0) 0))) with
  | none => []
  | some (r, s) => InterPolyLine qsqrt a (a.GetCellPoints 0) r s Src.A nA

/-- The points of cell 0 of mesh B on the cutting line of the cells 0 of `a` and `b`. -/
def exIntersB (a b : PolyData ℚ) : List (InterPt ℚ) :=
  let nA := newellNormal qsqrt a.points (a.GetCellPoints 0)
  let nB := newellNormal qsqrt b.points (b.GetCellPoints 0)
  match cuttingLine qsqrt nA nB (Dot nA (a.GetPoint (polyAt (a.GetCellPoints 0) 0)))
      (Dot nB (b.GetPoint (polyAt (b.GetCellPoints 0) 0))) with
  | none => []
  | some (r, s) => InterPolyLine qsqrt b (b.GetCellPoints 0) r s Src.B nB

/-! ## The flag conditions of `AddContactLines` -/

section Defs

variable {K : Type} [LinearOrderedField K]

/-- The condition of the source for one overlap and one side: an end point that comes from
mesh `side` has its edge, mapped through the polygon of that mesh, in the non-manifold edge
set. -/
def touchesOwn (side : Src) (poly : List Int) (edges : List (Int × Int)) (o : Overlap K) :
    Bool :=
  (decide (o.f.src = side) && decide (edgeKey poly o.f ∈ edges))
    || (decide (o.s.src = side) && decide (edgeKey poly o.s ∈ edges))

/-- The condition as the claim states it, for either end point whatever mesh it comes
from: `(poly[edge[0]], poly[edge[1]])` is in the non-manifold edge set. -/
def touchesStated (poly : List Int) (edges : List (Int × Int)) (o : Overlap K) : Bool :=
  decide (edgeKey poly o.f ∈ edges) || decide (edgeKey poly o.s ∈ edges)

end Defs

/-- Mesh B of the third concrete run: the triangle of `exBx` in the plane `x = 1` and two
more triangles on its edge `(1, 2)`, which therefore has three incident faces. All sides
have rational length. -/
def exBnm : PolyData ℚ :=
  { points := [⟨1, -1, -1⟩, ⟨1, -1, 2⟩, ⟨1, 3, -1⟩, ⟨1, 3, 2⟩, ⟨1, 47 / 25, 71 / 25⟩]
    cells := [⟨VTK_TRIANGLE, [0, 1, 2]⟩, ⟨VTK_TRIANGLE, [1, 2, 3]⟩, ⟨VTK_TRIANGLE, [1, 2, 4]⟩]
    origCellIds := [] }

/-- A traversal of the OBB trees that reports every cell of A against every cell of B, as
one node pair. -/
def allPairs (a b : PolyData ℚ) : List (List Int × List Int) :=
  [((List.range a.cells.length).map fun i => (i : Int),
    (List.range b.cells.length).map fun i => (i : Int))]

/-! ## Named parts of `InterPolys` -/

section Defs

variable {K : Type} [LinearOrderedField K]

/-- The cutting line `(r, s)` that `InterPolys` computes for the cells `idA` and `idB`;
`none` when the pair is skipped. -/
def pairLine (sqrt : K → K) (computeNormal : List (Vec3 K) → List Int → Vec3 K)
    (self : Filter K) (idA idB : Int) : Option (Vec3 K × Vec3 K) :=
  let polyA := self.pdA.GetCellPoints idA
  let polyB := self.pdB.GetCellPoints idB
  let nA := computeNormal self.pdA.points polyA
  let nB := computeNormal self.pdB.points polyB
  cuttingLine sqrt nA nB (Dot nA (self.pdA.GetPoint (polyAt polyA 0)))
    (Dot nB (self.pdB.GetPoint (polyAt polyB 0)))

/-- The vector `intersA` of `InterPolys`: the points `InterPolyLine` returns for the cell
`idA` of mesh A (empty when the pair is skipped). -/
def pairIntersA [FloorRing K] (sqrt : K → K)
    (computeNormal : List (Vec3 K) → List Int → Vec3 K) (self : Filter K) (idA idB : Int) :
    List (InterPt K) :=
  match pairLine sqrt computeNormal self idA idB with
  | none => []
  | some (r, s) =>
    InterPolyLine sqrt self.pdA (self.pdA.GetCellPoints idA) r s Src.A
      (computeNormal self.pdA.points (self.pdA.GetCellPoints idA))

/-- The vector `intersB` of `InterPolys`: the points `InterPolyLine` returns for the cell
`idB` of mesh B (empty when the pair is skipped). -/
def pairIntersB [FloorRing K] (sqrt : K → K)
    (computeNormal : List (Vec3 K) → List Int → Vec3 K) (self : Filter K) (idA idB : Int) :
    List (InterPt K) :=
  match pairLine sqrt computeNormal self idA idB with
  | none => []
  | some (r, s) =>
    InterPolyLine sqrt self.pdB (self.pdB.GetCellPoints idB) r s Src.B
      (computeNormal self.pdB.points (self.pdB.GetCellPoints idB))

end Defs

/-- A triangle in the plane `z = 0` of height 2 whose width at `y = 0` is `2*u` with
`u = 2000000/999999999999`, about `2e-6`; its sides have the rational lengths `4*u` and
`2*(10^12+1)/(10^12-1)` (twice). -/
def exSliver : PolyData ℚ :=
  { points := [⟨-4000000 / 999999999999, -1, 0⟩, ⟨4000000 / 999999999999, -1, 0⟩, ⟨0, 1, 0⟩]
    cells := [⟨VTK_TRIANGLE, [0, 1, 2]⟩]
    origCellIds := [] }

/-- A triangle in the plane `y = 0` with sides 3, 5 and 4 that crosses the plane `z = 0`
between `x = -1` and `x = 5/3`, through the sliver `exSliver`. -/
def exBcut : PolyData ℚ :=
  { points := [⟨-1, 0, -1⟩, ⟨-1, 0, 2⟩, ⟨3, 0, -1⟩]
    cells := [⟨VTK_TRIANGLE, [0, 1, 2]⟩]
    origCellIds := [] }

section Defs

variable {K : Type} [LinearOrderedField K]

/-- The normal `nA` of `InterPolys` for the cell `idA` of mesh A. -/
def pairNormalA (computeNormal : List (Vec3 K) → List Int → Vec3 K) (self : Filter K)
    (idA : Int) : Vec3 K :=
  computeNormal self.pdA.points (self.pdA.GetCellPoints idA)

/-- The normal `nB` of `InterPolys` for the cell `idB` of mesh B. -/
def pairNormalB (computeNormal : List (Vec3 K) → List Int → Vec3 K) (self : Filter K)
    (idB : Int) : Vec3 K :=
  computeNormal self.pdB.points (self.pdB.GetCellPoints idB)

/-- The plane offset `dA = nA . ptA` of `InterPolys`, with `ptA` the first point of the
cell. -/
def pairOffsetA (computeNormal : List (Vec3 K) → List Int → Vec3 K) (self : Filter K)
    (idA : Int) : K :=
  Dot (pairNormalA computeNormal self idA)
    (self.pdA.GetPoint (polyAt (self.pdA.GetCellPoints idA) 0))

/-- The plane offset `dB = nB . ptB` of `InterPolys`. -/
def pairOffsetB (computeNormal : List (Vec3 K) → List Int → Vec3 K) (self : Filter K)
    (idB : Int) : K :=
  Dot (pairNormalB computeNormal self idB)
    (self.pdB.GetPoint (polyAt (self.pdB.GetCellPoints idB) 0))

end Defs

/-- A mesh with a triangle, a quad and a line cell on the points of a unit square and a
point above it. -/
def exQuad : PolyData ℚ :=
  { points := [⟨0, 0, 0⟩, ⟨1, 0, 0⟩, ⟨1, 1, 0⟩, ⟨0, 1, 0⟩, ⟨0, 0, 1⟩]
    cells := [⟨VTK_TRIANGLE, [0, 1, 4]⟩, ⟨VTK_QUAD, [0, 1, 2, 3]⟩, ⟨VTK_LINE, [0, 1]⟩]
    origCellIds := [] }

/-! ## The cells of the prepared mesh -/

/-- The triangles that the second loop of `PreparePolyData` appends for the cell `c`: two for a
quad, the triangles of the decomposition with three different point ids for a strip, none for
any other cell. -/
def decomposed (c : Cell) : List Cell :=
  if c.type = VTK_QUAD then
    [⟨VTK_TRIANGLE, [polyAt c.pts 0, polyAt c.pts 1, polyAt c.pts 2]⟩,
      ⟨VTK_TRIANGLE, [polyAt c.pts 0, polyAt c.pts 2, polyAt c.pts 3]⟩]
  else if c.type = VTK_TRIANGLE_STRIP then
    ((DecomposeStrip c.pts).filter fun t =>
      polyAt t 0 ≠ polyAt t 1 ∧ polyAt t 1 ≠ polyAt t 2 ∧ polyAt t 2 ≠ polyAt t 0).map
      fun t => ⟨VTK_TRIANGLE, t⟩
  else []

/-- The cell `c` after the second loop of `PreparePolyData` has visited it: marked as deleted
unless it is a triangle or a polygon. -/
def marked (c : Cell) : Cell :=
  if c.type = VTK_TRIANGLE ∨ c.type = VTK_POLYGON then c else { c with type := VTK_EMPTY_CELL }

/-- The triangles and polygons of the input, each with its own cell id. -/
def keptCells (cells : List Cell) : List (Cell × Int) :=
  (cells.zip (initialCellIds cells)).filter fun ck =>
    ck.1.type = VTK_TRIANGLE ∨ ck.1.type = VTK_POLYGON

/-- The triangles appended for the quads and strips of the input, each with the id of the cell
it was cut from, in the order of the traversal. -/
def newCells (cells : List Cell) : List (Cell × Int) :=
  (List.range cells.length).flatMap fun k =>
    (decomposed (cells.getD k ⟨VTK_EMPTY_CELL, []⟩)).map fun c => (c, (k : Int))

/-- A mesh with a triangle strip whose last two triangles repeat a point id, a line cell, a
polygon and a triangle. -/
def exMixed : PolyData ℚ :=
  { points := [⟨0, 0, 0⟩, ⟨1, 0, 0⟩, ⟨0, 1, 0⟩, ⟨1, 1, 0⟩, ⟨2, 1, 0⟩]
    cells := [⟨VTK_TRIANGLE_STRIP, [0, 1, 2, 3, 3, 4]⟩, ⟨VTK_LINE, [0, 1]⟩,
      ⟨VTK_POLYGON, [0, 1, 3, 2]⟩, ⟨VTK_TRIANGLE, [1, 4, 3]⟩]
    origCellIds := [] }

section Defs

variable {K : Type} [LinearOrderedField K]

/-- The gap `dA` (and `dB`) of `InterEdgeLine` for the edge end `x`: the norm of
`(x - ptA) x (x - ptB)` with `ptB = ptA + r`, which for a unit `r` is the distance of `x`
from the line. -/
def endGap (sqrt : K → K) (x r ptA : Vec3 K) : K :=
  Norm sqrt (Cross (Subtract x ptA) (Subtract x (Add ptA r)))

end Defs

/-- A triangle in the plane `z = 0` of the first triangle of `exA`, shifted by 1 along the x
axis: the two triangles overlap, and their sides on the x axis overlap between `x = 1` and
`x = 4`. -/
def exCoplanar : PolyData ℚ :=
  { points := [⟨1, 0, 0⟩, ⟨5, 0, 0⟩, ⟨1, 3, 0⟩]
    cells := [⟨VTK_TRIANGLE, [0, 1, 2]⟩]
    origCellIds := [] }

/-- A mesh of two triangles that share the edge between the points 0 and 1, which lies on
the x axis. -/
def exTwo : PolyData ℚ :=
  { points := [⟨0, 0, 0⟩, ⟨4, 0, 0⟩, ⟨0, 3, 0⟩, ⟨0, -3, 0⟩]
    cells := [⟨VTK_TRIANGLE, [0, 1, 2]⟩, ⟨VTK_TRIANGLE, [1, 0, 3]⟩]
    origCellIds := [] }

/-- A triangle in the plane `y = 0` with sides 3, 5 and 4 that crosses the x axis between
`x = 1` and `x = 11/3`. -/
def exBz : PolyData ℚ :=
  { points := [⟨1, 0, -1⟩, ⟨1, 0, 2⟩, ⟨5, 0, -1⟩]
    cells := [⟨VTK_TRIANGLE, [0, 1, 2]⟩]
    origCellIds := [] }

section Defs

variable {K : Type} [LinearOrderedField K]

/-- The side test of `InterPolyLine` for the point `x`: `m . x - d` with `m = n x r` and
`d = m . pt`; it vanishes on the line and has opposite signs on its two sides. -/
def lineSide (n r pt x : Vec3 K) : K := Dot (Cross n r) x - Dot (Cross n r) pt

end Defs

/-! ## The accumulators of the filter -/

/-- The accumulators of the filter are consistent: each of the six attribute arrays has one
entry per line cell of `contLines`, and `contPts` has two points per line cell. -/
def Filter.consistent {K : Type} (self : Filter K) : Prop :=
  self.contA.length = self.contLines.length
    ∧ self.contB.length = self.contLines.length
    ∧ self.sourcesA.length = self.contLines.length
    ∧ self.sourcesB.length = self.contLines.length
    ∧ self.neigsA.length = self.contLines.length
    ∧ self.neigsB.length = self.contLines.length
    ∧ self.contPts.length = 2 * self.contLines.length

/-- A triangle in the plane `z = 0`, counter-clockwise for the normal `(0, 0, 1)`, with the
sides 17, 65 and 80: it touches the x axis only at its vertex 0, the origin, and its other
two vertices `(15, 8)` and `(48, 64)` lie above the axis, both ahead of the origin. -/
def exLean : PolyData ℚ :=
  { points := [⟨0, 0, 0⟩, ⟨15, 8, 0⟩, ⟨48, 64, 0⟩]
    cells := [⟨VTK_TRIANGLE, [0, 1, 2]⟩]
    origCellIds := [] }

/-- A polygon in the plane `z = 0`, counter-clockwise for the normal `(0, 0, 1)`, with a notch
from above whose tip is the vertex 3, the origin: the x axis runs through the polygon on
both sides of the tip. The sides are 8, 6, 5, 5 and 6. -/
def exNotch : PolyData ℚ :=
  { points := [⟨-4, -3, 0⟩, ⟨4, -3, 0⟩, ⟨4, 3, 0⟩, ⟨0, 0, 0⟩, ⟨-4, 3, 0⟩]
    cells := [⟨VTK_POLYGON, [0, 1, 2, 3, 4]⟩]
    origCellIds := [] }

/-- A polygon in the plane `z = 0` with two prongs that reach above the x axis and, between
them, a tip at the point `(1, 0)` whose two neighbours lie below the axis; all its sides have
integer lengths. -/
def exCrown : PolyData ℚ :=
  { points := [⟨-4, -6, 0⟩, ⟨6, -6, 0⟩, ⟨6, 3, 0⟩, ⟨4, 3, 0⟩, ⟨4, -4, 0⟩, ⟨1, 0, 0⟩,
      ⟨-2, -4, 0⟩, ⟨-2, 3, 0⟩, ⟨-4, 3, 0⟩]
    cells := [⟨VTK_POLYGON, [0, 1, 2, 3, 4, 5, 6, 7, 8]⟩]
    origCellIds := [] }

/-- A polygon in the plane `z = 0` with two prongs that reach above the x axis; the side of
the left prong bends at the vertex 6, the point `(1, 0)`, whose neighbours `(-2, -4)` and
`(1, 3)` lie below and above the axis. All its sides have integer lengths. -/
def exHook : PolyData ℚ :=
  { points := [⟨-4, -6, 0⟩, ⟨6, -6, 0⟩, ⟨6, 3, 0⟩, ⟨4, 3, 0⟩, ⟨4, -4, 0⟩, ⟨-2, -4, 0⟩,
      ⟨1, 0, 0⟩, ⟨1, 3, 0⟩, ⟨-4, 3, 0⟩]
    cells := [⟨VTK_POLYGON, [0, 1, 2, 3, 4, 5, 6, 7, 8]⟩]
    origCellIds := [] }

section Defs

variable {K : Type} [LinearOrderedField K]

/-- The vector `_paired` of `InterPolyLine` before the resolution loop: the groups of the
points of all edges by rounded parameter, after the duplication of single vertex points and
the removal of the second point of the first and the last group. -/
def lineGroups [FloorRing K] (sqrt : K → K) (pd : PolyData K) (poly : List Int)
    (r pt : Vec3 K) (src : Src) : List (List (InterPt K)) :=
  trimEnds ((((List.range poly.length).flatMap (edgePoints sqrt pd poly r pt src)).foldl
    (fun mp p => pairedInsert p mp) []).map fun kg => duplicateSingle kg.2)

end Defs

/-- A mesh of two triangles that share the edge between the points 0 and 1, on the x axis,
and a polygon in the plane `y = 0` that has the points 0 and 1 as opposite corners: the
polygon holds both points but has no edge between them. -/
def exDiag : PolyData ℚ :=
  { points := [⟨0, 0, 0⟩, ⟨4, 0, 0⟩, ⟨0, 3, 0⟩, ⟨0, -3, 0⟩, ⟨2, 0, -2⟩, ⟨2, 0, 2⟩]
    cells := [⟨VTK_TRIANGLE, [0, 1, 2]⟩, ⟨VTK_TRIANGLE, [1, 0, 3]⟩,
      ⟨VTK_POLYGON, [0, 4, 1, 5]⟩]
    origCellIds := [] }

/-- The cells of a mesh are simple at the points `u` and `v`: no cell lists a point id twice,
and in every cell that holds both points the two are consecutive, so that the cell has the
edge between them. -/
@[reducible] def simpleAt (cells : List Cell) (u v : Int) : Prop :=
  (∀ c ∈ cells, c.pts.Nodup) ∧ ∀ c ∈ cells, u ∈ c.pts → v ∈ c.pts → usesEdge c u v = true

/-- A mesh without a supported cell: one line cell. -/
def exLine : PolyData ℚ :=
  { points := [⟨0, 0, 0⟩, ⟨4, 0, 0⟩]
    cells := [⟨VTK_LINE, [0, 1]⟩]
    origCellIds := [] }

/-- A planar quad that is not convex: the dart with the corners `(0, 0)`, `(1, 1)`, `(2, 0)`
and `(1, 3)` in the plane `z = 0`; the corner 1 is the reflex one. -/
def exDart : PolyData ℚ :=
  { points := [⟨0, 0, 0⟩, ⟨1, 1, 0⟩, ⟨2, 0, 0⟩, ⟨1, 3, 0⟩]
    cells := [⟨VTK_QUAD, [0, 1, 2, 3]⟩]
    origCellIds := [] }

section Defs

variable {K : Type} [LinearOrderedField K]

/-- Twice the vector area of the closed polygon with the corners `pts`: the sum of the cross
products of cyclically consecutive corners. -/
def crossSum (pts : List (Vec3 K)) : Vec3 K :=
  (List.range pts.length).foldl (fun acc i =>
    Add acc (Cross (pts.getD i ⟨0, 0, 0⟩) (pts.getD ((i + 1) % pts.length) ⟨0, 0, 0⟩)))
    ⟨0, 0, 0⟩

/-- The signed area of the polygon `poly` of the mesh `pd` with respect to the unit normal `n`
of its plane: positive when the corners run counter-clockwise around `n`. -/
def signedArea (n : Vec3 K) (pd : PolyData K) (poly : List Int) : K :=
  Dot n (crossSum (poly.map pd.GetPoint)) / 2

/-- The area of the planar polygon `poly` of the mesh `pd`, `n` being the unit normal of its
plane: the absolute value of the signed area, half the length of the sum of the cross
products. -/
def polyArea (n : Vec3 K) (pd : PolyData K) (poly : List Int) : K :=
  |signedArea n pd poly|

end Defs

/-- The six faces of a cube on the corners numbered `4*x + 2*y + z`, with the corners
counter-clockwise seen from outside: `x = 0`, `x = 1`, `y = 0`, `y = 1`, `z = 0`, `z = 1`. -/
def cubeFaces : List (List Int) :=
  [[0, 1, 3, 2], [4, 6, 7, 5], [0, 4, 5, 1], [2, 3, 7, 6], [0, 2, 6, 4], [1, 5, 7, 3]]

/-- The corners of the axis-aligned cube with the edge length 1 and the lowest corner
`(o, o, o)`, numbered `4*x + 2*y + z`. -/
def cubePoints (o : ℚ) : List (Vec3 ℚ) :=
  [⟨o, o, o⟩, ⟨o, o, o + 1⟩, ⟨o, o + 1, o⟩, ⟨o, o + 1, o + 1⟩,
    ⟨o + 1, o, o⟩, ⟨o + 1, o, o + 1⟩, ⟨o + 1, o + 1, o⟩, ⟨o + 1, o + 1, o + 1⟩]

/-- The unit cube with the lowest corner `(o, o, o)` as a mesh of six cells of the type
`type`. -/
def exCube (type : Nat) (o : ℚ) : PolyData ℚ :=
  { points := cubePoints o
    cells := cubeFaces.map fun q => ⟨type, q⟩
    origCellIds := [] }

/-- The corners of the intersection loop of the surfaces of the cubes `[0, 1]^3` and
`[1/2, 3/2]^3`, in the order of the loop: the points where an edge of one cube pierces a face
of the other. -/
def hexagonCorners : List (Vec3 ℚ) :=
  [⟨1, 1 / 2, 1 / 2⟩, ⟨1, 1, 1 / 2⟩, ⟨1 / 2, 1, 1 / 2⟩, ⟨1 / 2, 1, 1⟩, ⟨1 / 2, 1 / 2, 1⟩,
    ⟨1, 1 / 2, 1⟩]

/-- The segments accumulated in the filter object: the two end points of every line cell. -/
def contSegments (self : Filter ℚ) : List (Vec3 ℚ × Vec3 ℚ) :=
  self.contLines.map fun c =>
    (self.contPts.getD (polyAt c.pts 0).toNat ⟨0, 0, 0⟩,
      self.contPts.getD (polyAt c.pts 1).toNat ⟨0, 0, 0⟩)

/-! ## VisPoly: GetArea -/

/-- The class `Point` of the visibility library, declared in `Tools.h`, which is not among
the sources: the two coordinates, the only fields that `GetArea` reads. -/
structure Point (K : Type) where
  x : K
  y : K
deriving DecidableEq, Repr

section Defs

variable {K : Type} [LinearOrderedField K]

/-- Element `poly[i]` of a `PolyType`, a vector of points. -/
def pointAt (poly : List (Point K)) (i : Nat) : Point K := poly.getD i ⟨0, 0⟩

/-- The function `GetArea` of `src/libs/vp/VisPoly.cxx`: the loop over `i` from 0 to
`num - 1` adds `a.x*b.y-b.x*a.y` for `a = poly[i]` and `b = poly[(i+1)%num]` to `sum`, which
starts at 0 and is returned. Every operation on doubles delivers a rounded result: `fl` is
the rounding, applied to each of the two products, to their difference and to the new sum
(every operation is rounded on its own: no product is fused with the subtraction). With
`fl = id` the arithmetic is exact. -/
def GetArea (fl : K → K) (poly : List (Point K)) : K :=
  (List.range poly.length).foldl (fun sum i =>
    fl (sum + fl (fl ((pointAt poly i).x * (pointAt poly ((i + 1) % poly.length)).y)
      - fl ((pointAt poly ((i + 1) % poly.length)).x * (pointAt poly i).y)))) 0

end Defs

/-! ### Rounding to double -/

/-- The position of the highest set bit of `n`, found with at most `b` halvings. -/
def log2Bits : Nat → Nat → Nat
  | 0, _ => 0
  | b + 1, n => if n < 2 then 0 else log2Bits b (n / 2) + 1

/-- The binary exponent of a positive rational `y`, the integer `e` with
`2^e ≤ y < 2^(e+1)`: the difference of the bit lengths of numerator and denominator, or one
less. -/
def binExp (y : ℚ) : Int :=
  if (2 : ℚ) ^ ((log2Bits y.num.toNat y.num.toNat : Int) - (log2Bits y.den y.den : Int)) ≤ y then
    (log2Bits y.num.toNat y.num.toNat : Int) - (log2Bits y.den y.den : Int)
  else (log2Bits y.num.toNat y.num.toNat : Int) - (log2Bits y.den y.den : Int) - 1

/-- The integer nearest to `q`, a half rounded to the even neighbour. -/
def roundEven (q : ℚ) : Int :=
  if q - ⌊q⌋ < 1 / 2 then ⌊q⌋
  else if 1 / 2 < q - ⌊q⌋ then ⌊q⌋ + 1
  else if ⌊q⌋ % 2 = 0 then ⌊q⌋ else ⌊q⌋ + 1

/-- The double nearest to a positive `y`: with `2^e ≤ y < 2^(e+1)` the significand of 53
bits is `y / 2^(e-52)` rounded to the nearest integer, a tie to the even one. -/
def roundPos (y : ℚ) : ℚ :=
  (roundEven (y / (2 : ℚ) ^ (binExp y - 52)) : ℚ) * (2 : ℚ) ^ (binExp y - 52)

/-- The rounding of a real result to `double` in the default mode of IEEE 754, to the
nearest double with ties to the even significand, for the concrete runs of `GetArea`. The
range of the exponent is not limited: overflow to infinity and the subnormal numbers are
not represented. -/
def roundDouble (x : ℚ) : ℚ :=
  if x = 0 then 0 else if 0 < x then roundPos x else -roundPos (-x)

/-- A polygon for the concrete runs of `GetArea`: the counter-clockwise triangle with the
corners `(0, 0)`, `(4, 0)` and `(1, 3)`, of area 6. -/
def exTri : List (Point ℚ) := [⟨0, 0⟩, ⟨4, 0⟩, ⟨1, 3⟩]

/-- A thin triangle with the corners `(2^30, 0)`, `(2^-30, 2^30)` and `(0, 2^30)`, all
coordinates doubles: its shoelace sum is `2^60 + 1 - 2^60 = 1`. -/
def exBigTri : List (Point ℚ) :=
  [⟨1073741824, 0⟩, ⟨1 / 1073741824, 1073741824⟩, ⟨0, 1073741824⟩]

/-- A triangle in the plane `x = 1` with the sides 3, 13/4 and 5/4, given with the point order
`order`. Its edge between the points `(1, 0, -1)` and `(1, 0, 2)` crosses the first triangle
of `exA` at the point `(1, 0, 0)` of the edge `(0, 1)` of `exA`, where the interval of that
triangle on the cutting line begins as well; its other crossing is at `(1, 5/6, 0)`. -/
def exTie (order : List Int) : PolyData ℚ :=
  { points := [⟨1, 0, -1⟩, ⟨1, 0, 2⟩, ⟨1, 5 / 4, -1⟩]
    cells := [⟨VTK_TRIANGLE, order⟩]
    origCellIds := [] }

/-- A mesh of a triangle and a pentagon in the plane `y = 0` that holds the points 0 and 1 of
the triangle as corners that are not consecutive: the edge between the points 0 and 1 belongs
to the triangle only. -/
def exDiag5 : PolyData ℚ :=
  { points := [⟨0, 0, 0⟩, ⟨4, 0, 0⟩, ⟨0, 3, 0⟩, ⟨2, 0, -2⟩, ⟨3, 0, 2⟩, ⟨1, 0, 2⟩]
    cells := [⟨VTK_TRIANGLE, [0, 1, 2]⟩, ⟨VTK_POLYGON, [0, 3, 1, 4, 5]⟩]
    origCellIds := [] }

/-- The cube `[0, 1]^3` with its face `x = 1` cut into the two rectangles `y <= 3/4` and
`y >= 3/4`; the other five faces are the squares of `cubeFaces`. The points 8 and 9 are the
ends of the cut. -/
def exCubeSplit : PolyData ℚ :=
  { points := cubePoints 0 ++ [⟨1, 3 / 4, 0⟩, ⟨1, 3 / 4, 1⟩]
    cells := [⟨VTK_POLYGON, [0, 1, 3, 2]⟩, ⟨VTK_POLYGON, [4, 8, 9, 5]⟩,
      ⟨VTK_POLYGON, [8, 6, 7, 9]⟩, ⟨VTK_POLYGON, [0, 4, 5, 1]⟩, ⟨VTK_POLYGON, [2, 3, 7, 6]⟩,
      ⟨VTK_POLYGON, [0, 2, 6, 4]⟩, ⟨VTK_POLYGON, [1, 5, 7, 3]⟩]
    origCellIds := [] }

/-! ## Theorems -/

section Theorems

variable {K : Type} [LinearOrderedField K]

/-! ### The cutting line of a face pair -/

theorem largestAxis_cases (r : Vec3 K) :
    largestAxis r = 0 ∨ largestAxis r = 1 ∨ largestAxis r = 2 := by
  unfold largestAxis
  dsimp only
  split_ifs <;> simp

theorem largestAxis_max (r : Vec3 K) (j : Nat) :
    |r.get j| ≤ |r.get (largestAxis r)| := by
  have hj : r.get j = r.x ∨ r.get j = r.y ∨ r.get j = r.z := by
    unfold Vec3.get; split_ifs <;> simp
  generalize r.get j = a at hj ⊢
  unfold largestAxis
  dsimp only
  split_ifs with h1 h2 h2 <;> simp [Vec3.get] at h1 h2 ⊢ <;>
    rcases hj with h | h | h <;> rw [h] <;> linarith

theorem planeDet_eq_cross (nA nB : Vec3 K) (i : Nat) (hi : i = 0 ∨ i = 1 ∨ i = 2) :
    planeDet nA nB i = (Cross nA nB).get i ∨ planeDet nA nB i = -(Cross nA nB).get i := by
  rcases hi with h | h | h <;> subst h
  · left; simp [planeDet, otherAxes, Vec3.get, Cross]; ring
  · right; simp [planeDet, otherAxes, Vec3.get, Cross]; ring
  · left; simp [planeDet, otherAxes, Vec3.get, Cross]; ring

theorem normalize_zero (sqrt : K → K) :
    (Normalize sqrt (⟨0, 0, 0⟩ : Vec3 K)).1 = ⟨0, 0, 0⟩ := by
  unfold Normalize
  dsimp only
  split_ifs <;> simp

theorem cuttingLine_parallel (sqrt : K → K) (nA nB : Vec3 K) (dA dB : K)
    (h : Cross nA nB = ⟨0, 0, 0⟩) : cuttingLine sqrt nA nB dA dB = none := by
  have hx : nA.y * nB.z - nA.z * nB.y = 0 := by
    have := congrArg Vec3.x h
    simpa [Cross] using this
  unfold cuttingLine
  rw [h, normalize_zero]
  have : planeDet nA nB (largestAxis (⟨0, 0, 0⟩ : Vec3 K)) = 0 := by
    simp [largestAxis, planeDet, otherAxes, Vec3.get]
    linarith
  simp [this]

theorem planePoint_solves (nA nB : Vec3 K) (dA dB : K) (i : Nat)
    (hi : i = 0 ∨ i = 1 ∨ i = 2) (hdet : planeDet nA nB i ≠ 0) :
    Dot nA (planePoint nA nB dA dB i) = dA ∧ Dot nB (planePoint nA nB dA dB i) = dB
      ∧ (planePoint nA nB dA dB i).get i = 0
      ∧ (planePoint nA nB dA dB i).get (otherAxes i).1
          = (dA * nB.get (otherAxes i).2 - dB * nA.get (otherAxes i).2) / planeDet nA nB i
      ∧ (planePoint nA nB dA dB i).get (otherAxes i).2
          = (nA.get (otherAxes i).1 * dB - nB.get (otherAxes i).1 * dA) / planeDet nA nB i := by
  rcases hi with h | h | h <;> subst h <;>
    simp only [planeDet, otherAxes, Vec3.get] at hdet <;>
    simp [planePoint, planeDet, otherAxes, Vec3.get, Vec3.set, Dot] at hdet ⊢ <;>
    refine ⟨?_, ?_⟩ <;> field_simp <;> ring

theorem cuttingLine_some (sqrt : K → K) (nA nB : Vec3 K) (dA dB : K) (r s : Vec3 K)
    (h : cuttingLine sqrt nA nB dA dB = some (r, s)) :
    r = (Normalize sqrt (Cross nA nB)).1 ∧ s = planePoint nA nB dA dB (largestAxis r)
      ∧ planeDet nA nB (largestAxis r) ≠ 0 := by
  unfold cuttingLine at h
  dsimp only at h
  split_ifs at h with hd
  simp only [Option.some.injEq, Prod.mk.injEq] at h
  obtain ⟨h1, h2⟩ := h
  subst h1
  refine ⟨rfl, h2.symm, ?_⟩
  intro h0
  apply hd
  rw [h0]
  simp

/-- C4: in `InterPolys`, when the determinant `det` of the two chosen axes is not zero, the
reference point `s` lies on both supporting planes, `nA . s = dA` and `nB . s = dB`; its
coordinate on the axis `i` of the largest component of `r` is `0` and the other two are the
solution by Cramer's rule. It is the point of every pair that is not skipped. -/
theorem InterPolys_reference_point_on_both_planes (sqrt : K → K) (nA nB : Vec3 K)
    (dA dB : K) (i : Nat) (hi : i = largestAxis (Normalize sqrt (Cross nA nB)).1)
    (hdet : planeDet nA nB i ≠ 0) :
    Dot nA (planePoint nA nB dA dB i) = dA ∧ Dot nB (planePoint nA nB dA dB i) = dB
      ∧ (planePoint nA nB dA dB i).get i = 0
      ∧ (planePoint nA nB dA dB i).get (otherAxes i).1
          = (dA * nB.get (otherAxes i).2 - dB * nA.get (otherAxes i).2) / planeDet nA nB i
      ∧ (planePoint nA nB dA dB i).get (otherAxes i).2
          = (nA.get (otherAxes i).1 * dB - nB.get (otherAxes i).1 * dA) / planeDet nA nB i
      ∧ ∀ r s, cuttingLine sqrt nA nB dA dB = some (r, s) →
          s = planePoint nA nB dA dB i := by
  have hc : i = 0 ∨ i = 1 ∨ i = 2 := hi ▸ largestAxis_cases _
  obtain ⟨h1, h2, h3, h4, h5⟩ := planePoint_solves nA nB dA dB i hc hdet
  refine ⟨h1, h2, h3, h4, h5, ?_⟩
  intro r s hrs
  obtain ⟨hr, hs, _⟩ := cuttingLine_some sqrt nA nB dA dB r s hrs
  rw [hs, hr, hi]

end Theorems

/-- The planes `z = 2` and `x = 3`: the determinant is not zero and the reference point
`(3, 0, 2)` lies on both. -/
theorem InterPolys_reference_point_witness :
    planeDet (⟨0, 0, 1⟩ : Vec3 ℚ) ⟨1, 0, 0⟩ 1 ≠ 0
      ∧ cuttingLine qsqrt (⟨0, 0, 1⟩ : Vec3 ℚ) ⟨1, 0, 0⟩ 2 3 = some (⟨0, 1, 0⟩, ⟨3, 0, 2⟩)
      ∧ Dot (⟨0, 0, 1⟩ : Vec3 ℚ) (planePoint ⟨0, 0, 1⟩ ⟨1, 0, 0⟩ 2 3 1) = 2
      ∧ Dot (⟨1, 0, 0⟩ : Vec3 ℚ) (planePoint ⟨0, 0, 1⟩ ⟨1, 0, 0⟩ 2 3 1) = 3 :=
  have h := InterPolys_reference_point_on_both_planes qsqrt (⟨0, 0, 1⟩ : Vec3 ℚ) ⟨1, 0, 0⟩
    2 3 1 (by decide!) (by decide!)
  ⟨by decide!, by decide!, h.1, h.2.1⟩

section Theorems

variable {K : Type} [LinearOrderedField K]

/-- C6: a face pair whose normals are parallel (`nA x nB = 0`) is skipped by `InterPolys`:
the filter object, with the output curve, the attribute arrays and both flags, is
unchanged. The determinant tested equals, up to sign, the component of `nA x nB` on the
axis on which `|r|` is largest, and the early return is taken exactly when its magnitude is
below `1e-12`. -/
theorem InterPolys_skips_parallel_normals [FloorRing K] (sqrt : K → K)
    (merge : InterPt K → InterPt K → InterPt K)
    (computeNormal : List (Vec3 K) → List Int → Vec3 K) (self : Filter K) (idA idB : Int) :
    (Cross (computeNormal self.pdA.points (self.pdA.GetCellPoints idA))
        (computeNormal self.pdB.points (self.pdB.GetCellPoints idB)) = ⟨0, 0, 0⟩ →
      InterPolys sqrt merge computeNormal self idA idB = some self)
    ∧ ∀ (nA nB : Vec3 K) (dA dB : K),
        (planeDet nA nB (largestAxis (Normalize sqrt (Cross nA nB)).1)
            = (Cross nA nB).get (largestAxis (Normalize sqrt (Cross nA nB)).1)
          ∨ planeDet nA nB (largestAxis (Normalize sqrt (Cross nA nB)).1)
            = -(Cross nA nB).get (largestAxis (Normalize sqrt (Cross nA nB)).1))
        ∧ (∀ j, |(Normalize sqrt (Cross nA nB)).1.get j|
            ≤ |(Normalize sqrt (Cross nA nB)).1.get
                (largestAxis (Normalize sqrt (Cross nA nB)).1)|)
        ∧ (cuttingLine sqrt nA nB dA dB = none
            ↔ |planeDet nA nB (largestAxis (Normalize sqrt (Cross nA nB)).1)|
                < 1 / 1000000000000) := by
  refine ⟨?_, ?_⟩
  · intro h
    unfold InterPolys
    simp only [cuttingLine_parallel sqrt _ _ _ _ h]
  · intro nA nB dA dB
    refine ⟨planeDet_eq_cross nA nB _ (largestAxis_cases _), largestAxis_max _, ?_⟩
    unfold cuttingLine
    dsimp only
    split_ifs with hd
    · exact ⟨fun _ => hd, fun _ => rfl⟩
    · exact ⟨fun h => (by cases h), fun h => absurd h hd⟩
end Theorems

/-- The triangles in the parallel planes `z = 0` and `z = 1` are skipped. -/
theorem InterPolys_skips_parallel_witness :
    InterPolys qsqrt Merge (newellNormal qsqrt) (prepared exA exBpar) 0 0
      = some (prepared exA exBpar) :=
  (InterPolys_skips_parallel_normals qsqrt Merge (newellNormal qsqrt)
    (prepared exA exBpar) 0 0).1 (by decide!)

section Theorems

variable {K : Type} [LinearOrderedField K]

theorem crossing_identity (p r e : Vec3 K) (N : K) (hN : N ≠ 0)
    (hNv : N = Dot (Cross r e) (Cross r e)) (hD : Determinant3x3 r e p = 0) :
    Determinant3x3 p e (Cross r e) / N * r.x - Determinant3x3 p r (Cross r e) / N * e.x = p.x
      ∧ Determinant3x3 p e (Cross r e) / N * r.y - Determinant3x3 p r (Cross r e) / N * e.y
          = p.y
      ∧ Determinant3x3 p e (Cross r e) / N * r.z - Determinant3x3 p r (Cross r e) / N * e.z
          = p.z := by
  simp only [Determinant3x3, Cross, Dot] at hD hNv ⊢
  refine ⟨?_, ?_, ?_⟩
  · field_simp
    rw [hNv]
    linear_combination (-(r.y * e.z - r.z * e.y)) * hD
  · field_simp
    rw [hNv]
    linear_combination (-(r.z * e.x - r.x * e.z)) * hD
  · field_simp
    rw [hNv]
    linear_combination (-(r.x * e.y - r.y * e.x)) * hD

end Theorems

section Theorems

variable {K : Type} [LinearOrderedField K]

/-- C5, amended: for an edge and a line that are exactly coplanar and whose directions are
not parallel beyond the tolerance of the source (`|r x e| > 1e-4`, the norm being an exact
square root), the parameters computed by `InterEdgeLine` satisfy `ptA + t*r = eA + s*e`,
and the point with parameter `t` and coordinates `ptA + t*r` is emitted, alone, exactly
when `-1e-6 < s < l + 1e-6`; otherwise nothing is emitted. -/
theorem InterEdgeLine_crossing_point (sqrt : K → K) (eA eB r ptA : Vec3 K)
    (hcop : Determinant3x3 r (edgeDir sqrt eA eB) (Subtract eA ptA) = 0)
    (hn : crossNorm sqrt eA eB r > 1 / 10000)
    (hsq : crossNorm sqrt eA eB r * crossNorm sqrt eA eB r
      = Dot (Cross r (edgeDir sqrt eA eB)) (Cross r (edgeDir sqrt eA eB))) :
    lineAt ptA r (lineParam sqrt eA eB r ptA)
        = lineAt eA (edgeDir sqrt eA eB) (edgeParam sqrt eA eB r ptA)
      ∧ InterEdgeLine sqrt eA eB r ptA
        = if -(1 / 1000000) < edgeParam sqrt eA eB r ptA
              ∧ edgeParam sqrt eA eB r ptA < edgeLen sqrt eA eB + 1 / 1000000 then
            [InterPt.new (lineParam sqrt eA eB r ptA)
              (endMarker (edgeParam sqrt eA eB r ptA) (edgeLen sqrt eA eB))
              (lineAt ptA r (lineParam sqrt eA eB r ptA))]
          else [] := by
  have hpos : (0 : K) < crossNorm sqrt eA eB r := lt_trans (by norm_num) hn
  have hN : crossNorm sqrt eA eB r * crossNorm sqrt eA eB r ≠ 0 :=
    mul_ne_zero hpos.ne' hpos.ne'
  obtain ⟨hx, hy, hz⟩ := crossing_identity (Subtract eA ptA) r (edgeDir sqrt eA eB) _ hN hsq hcop
  constructor
  · simp only [lineAt, lineParam, edgeParam, Vec3.mk.injEq]
    simp only [Subtract] at hx hy hz ⊢
    refine ⟨?_, ?_, ?_⟩
    · linear_combination hx
    · linear_combination hy
    · linear_combination hz
  · unfold InterEdgeLine
    simp only [edgeDir] at hcop
    simp only [edgeParam, lineParam, edgeLen, endMarker, crossNorm, edgeDir] at hn ⊢
    simp only [hcop, abs_zero]
    rw [if_pos (by norm_num), if_pos hn]

end Theorems

/-- A line and an edge that are exactly coplanar, not parallel and cross at the end `eA` of
the edge, with `s = 0`: `|r x e|` is below `1e-4`, so the parallel branch runs, and the two
end points of the edge are emitted instead of the one intersection point. -/
theorem InterEdgeLine_nearly_parallel_counterexample :
    Dot (⟨1, 0, 0⟩ : Vec3 ℚ) ⟨1, 0, 0⟩ = 1
      ∧ edgeLen qsqrt ⟨0, 0, 0⟩ tiltDir = 1
      ∧ Determinant3x3 (⟨1, 0, 0⟩ : Vec3 ℚ) (edgeDir qsqrt ⟨0, 0, 0⟩ tiltDir)
          (Subtract ⟨0, 0, 0⟩ ⟨-1, 0, 0⟩) = 0
      ∧ Cross (⟨1, 0, 0⟩ : Vec3 ℚ) (edgeDir qsqrt ⟨0, 0, 0⟩ tiltDir) ≠ ⟨0, 0, 0⟩
      ∧ crossNorm qsqrt ⟨0, 0, 0⟩ tiltDir ⟨1, 0, 0⟩ * crossNorm qsqrt ⟨0, 0, 0⟩ tiltDir ⟨1, 0, 0⟩
          = Dot (Cross (⟨1, 0, 0⟩ : Vec3 ℚ) (edgeDir qsqrt ⟨0, 0, 0⟩ tiltDir))
              (Cross ⟨1, 0, 0⟩ (edgeDir qsqrt ⟨0, 0, 0⟩ tiltDir))
      ∧ edgeParam qsqrt ⟨0, 0, 0⟩ tiltDir ⟨1, 0, 0⟩ ⟨-1, 0, 0⟩ = 0
      ∧ lineParam qsqrt ⟨0, 0, 0⟩ tiltDir ⟨1, 0, 0⟩ ⟨-1, 0, 0⟩ = 1
      ∧ InterEdgeLine qsqrt ⟨0, 0, 0⟩ tiltDir ⟨1, 0, 0⟩ ⟨-1, 0, 0⟩
          = [InterPt.new 1 0 ⟨0, 0, 0⟩,
             InterPt.new (800000000 / 400000001) 1 ⟨399999999 / 400000001, 0, 0⟩] := by
  decide!

/-- The line `y = 1` and the edge from `(0, 0, 0)` to `(0, 3, 0)`: the point `(0, 1, 0)`
with `t = 0` and `s = 1` is emitted. -/
theorem InterEdgeLine_crossing_point_witness :
    lineAt (⟨0, 1, 0⟩ : Vec3 ℚ) ⟨1, 0, 0⟩ (lineParam qsqrt ⟨0, 0, 0⟩ ⟨0, 3, 0⟩ ⟨1, 0, 0⟩ ⟨0, 1, 0⟩)
        = lineAt ⟨0, 0, 0⟩ (edgeDir qsqrt ⟨0, 0, 0⟩ ⟨0, 3, 0⟩)
            (edgeParam qsqrt ⟨0, 0, 0⟩ ⟨0, 3, 0⟩ ⟨1, 0, 0⟩ ⟨0, 1, 0⟩)
      ∧ InterEdgeLine qsqrt ⟨0, 0, 0⟩ ⟨0, 3, 0⟩ ⟨1, 0, 0⟩ ⟨0, 1, 0⟩
        = [InterPt.new 0 NOTSET ⟨0, 1, 0⟩] :=
  have h := InterEdgeLine_crossing_point qsqrt (⟨0, 0, 0⟩ : Vec3 ℚ) ⟨0, 3, 0⟩ ⟨1, 0, 0⟩
    ⟨0, 1, 0⟩ (by decide!) (by decide!) (by decide!)
  ⟨h.1, h.2.trans (by decide!)⟩

section Theorems

variable {K : Type} [LinearOrderedField K]

/-! ### The modelled merge keeps the fields the theorems name -/

theorem Merge_keeps (a c : InterPt K) :
    (Merge a c).t = a.t ∧ (Merge a c).pt = a.pt ∧ (Merge a c).edge = a.edge
      ∧ (Merge a c).src = a.src ∧ (Merge a c).end_ = a.end_ := by
  unfold Merge
  dsimp only
  split_ifs <;> cases a.src <;> cases c.src <;> simp

theorem Merge_t (a c : InterPt K) : (Merge a c).t = a.t := (Merge_keeps a c).1

theorem Merge_pt (a c : InterPt K) : (Merge a c).pt = a.pt := (Merge_keeps a c).2.1

theorem Merge_edge (a c : InterPt K) : (Merge a c).edge = a.edge := (Merge_keeps a c).2.2.1

theorem Merge_src (a c : InterPt K) : (Merge a c).src = a.src := (Merge_keeps a c).2.2.2.1

end Theorems
section Theorems

variable {K : Type} [LinearOrderedField K]

/-! ### OverlapLines -/

theorem map_set_keep {β : Type} (g : InterPt K → β) (l : List (InterPt K)) (k : Nat)
    (x : InterPt K) (hx : g x = g (ptAt l k)) : (l.set k x).map g = l.map g := by
  induction l generalizing k with
  | nil => simp
  | cons a l ih =>
    cases k with
    | zero =>
      simp only [List.set_cons_zero, List.map_cons, List.cons.injEq, and_true]
      simpa [ptAt] using hx
    | succ k =>
      simp only [List.set_cons_succ, List.map_cons, List.cons.injEq, true_and]
      apply ih
      simpa [ptAt] using hx

theorem ptAt_of_map {β : Type} (g : InterPt K → β) (l l' : List (InterPt K)) (k : Nat)
    (h : l.map g = l'.map g) : g (ptAt l k) = g (ptAt l' k) := by
  unfold ptAt
  have e1 : (l.map g).getD k (g (InterPt.new 0 NOTSET ⟨0, 0, 0⟩))
      = g (l.getD k (InterPt.new 0 NOTSET ⟨0, 0, 0⟩)) := List.getD_map _ _ g
  have e2 : (l'.map g).getD k (g (InterPt.new 0 NOTSET ⟨0, 0, 0⟩))
      = g (l'.getD k (InterPt.new 0 NOTSET ⟨0, 0, 0⟩)) := List.getD_map _ _ g
  rw [← e1, ← e2, h]

theorem foldlM_option_out {σ α β : Type} (f : σ → α → Option σ) (Inv : σ → Prop)
    (out : σ → List β) (seg : α → List β) (xs : List α)
    (hstep : ∀ s a s', a ∈ xs → Inv s → f s a = some s' → Inv s' ∧ out s' = out s ++ seg a) :
    ∀ s s', Inv s → xs.foldlM f s = some s' →
      Inv s' ∧ out s' = out s ++ xs.flatMap seg := by
  induction xs with
  | nil =>
    intro s s' hs h
    simp only [List.foldlM_nil, Option.pure_def, Option.some.injEq] at h
    subst h
    simp [hs]
  | cons a xs ih =>
    intro s s' hs h
    simp only [List.foldlM_cons, Option.bind_eq_bind, Option.bind_eq_some] at h
    obtain ⟨s1, h1, h2⟩ := h
    obtain ⟨hi1, ho1⟩ := hstep s a s1 (List.mem_cons_self _ _) hs h1
    obtain ⟨hi2, ho2⟩ := ih (fun s a s' ha => hstep s a s' (List.mem_cons_of_mem _ ha)) s1 s' hi1 h2
    refine ⟨hi2, ?_⟩
    rw [ho2, ho1]
    simp

theorem foldlM_option_some {σ α : Type} (f : σ → α → Option σ) (Inv : σ → Prop)
    (xs : List α)
    (hstep : ∀ s a, a ∈ xs → Inv s → ∃ s', f s a = some s' ∧ Inv s') :
    ∀ s, Inv s → ∃ s', xs.foldlM f s = some s' ∧ Inv s' := by
  induction xs with
  | nil =>
    intro s hs
    exact ⟨s, rfl, hs⟩
  | cons a xs ih =>
    intro s hs
    obtain ⟨s1, h1, hi1⟩ := hstep s a (List.mem_cons_self _ _) hs
    obtain ⟨s2, h2, hi2⟩ := ih (fun s a ha => hstep s a (List.mem_cons_of_mem _ ha)) s1 hi1
    refine ⟨s2, ?_, hi2⟩
    simp only [List.foldlM_cons, Option.bind_eq_bind, h1, Option.some_bind, h2]

theorem clipSpec_cases (a0 a1 b0 b1 : K) (ha : a0 < a1) (hb : b0 < b1) :
    clipSpec a0 a1 b0 b1 =
      if a0 ≤ b0 ∧ a1 > b0 then (if b1 < a1 then [(b0, b1)] else [(b0, a1)])
      else if b0 ≤ a0 ∧ b1 > a0 then (if a1 < b1 then [(a0, a1)] else [(a0, b1)])
      else [] := by
  unfold clipSpec
  have hmax : max a0 b0 < min a1 b1 ↔ (a0 < a1 ∧ a0 < b1) ∧ (b0 < a1 ∧ b0 < b1) := by
    simp only [max_lt_iff, lt_min_iff]
    tauto
  by_cases c1 : a0 ≤ b0 ∧ a1 > b0
  · obtain ⟨h0, h1⟩ := c1
    have hc : max a0 b0 < min a1 b1 := hmax.mpr ⟨⟨ha, by linarith⟩, ⟨h1, hb⟩⟩
    rw [if_pos hc, if_pos ⟨h0, h1⟩, max_eq_right h0]
    by_cases h2 : b1 < a1
    · rw [if_pos h2, min_eq_right h2.le]
    · rw [if_neg h2, min_eq_left (not_lt.mp h2)]
  · by_cases c2 : b0 ≤ a0 ∧ b1 > a0
    · obtain ⟨h0, h1⟩ := c2
      have hc : max a0 b0 < min a1 b1 := hmax.mpr ⟨⟨ha, h1⟩, ⟨by linarith, hb⟩⟩
      rw [if_pos hc, if_neg c1, if_pos ⟨h0, h1⟩, max_eq_left h0]
      by_cases h2 : a1 < b1
      · rw [if_pos h2, min_eq_left h2.le]
      · rw [if_neg h2, min_eq_right (not_lt.mp h2)]
    · have hc : ¬ (max a0 b0 < min a1 b1) := by
        rw [hmax]
        rintro ⟨⟨_, h2⟩, ⟨h3, _⟩⟩
        rcases le_or_lt a0 b0 with h0 | h0
        · exact c1 ⟨h0, h3⟩
        · exact c2 ⟨h0.le, h2⟩
      rw [if_neg hc, if_neg c1, if_neg c2]

end Theorems

section Theorems

variable {K : Type} [LinearOrderedField K]

theorem ptAt_set_ne (l : List (InterPt K)) (j k : Nat) (x : InterPt K) (h : j ≠ k) :
    ptAt (l.set j x) k = ptAt l k := by
  unfold ptAt
  simp only [List.getD_eq_getElem?_getD]
  rw [List.getElem?_set_ne h]

theorem overlapPair_step {β : Type} (merge : InterPt K → InterPt K → InterPt K)
    (g : InterPt K → β) (hg : ∀ a c, g (merge a c) = g a) (pdB : PolyData K)
    (polyB : List Int) (idB neigA : Int) (ia ib : Nat) (st st' : OverlapState K)
    (h : overlapPair merge pdB polyB idB neigA ia ib st = some st') :
    st'.intersA.map g = st.intersA.map g ∧ st'.intersB.map g = st.intersB.map g := by
  unfold overlapPair at h
  dsimp only at h
  split at h
  · cases h
  · split_ifs at h <;> simp only [Option.some.injEq] at h <;> subst h <;> try dsimp only
    · refine ⟨rfl, ?_⟩
      rw [map_set_keep g _ _ _ (by rw [ptAt_set_ne _ _ _ _ (Nat.ne_of_lt (Nat.lt_succ_self ib)), hg]),
        map_set_keep g _ _ _ (hg _ _)]
    · exact ⟨map_set_keep g _ _ _ (hg _ _), map_set_keep g _ _ _ (hg _ _)⟩
    · refine ⟨?_, rfl⟩
      rw [map_set_keep g _ _ _ (by rw [ptAt_set_ne _ _ _ _ (Nat.ne_of_lt (Nat.lt_succ_self ia)), hg]),
        map_set_keep g _ _ _ (hg _ _)]
    · exact ⟨map_set_keep g _ _ _ (hg _ _), map_set_keep g _ _ _ (hg _ _)⟩
    · exact ⟨rfl, rfl⟩

theorem overlapPair_ols (merge : InterPt K → InterPt K → InterPt K)
    (ht : ∀ a c, (merge a c).t = a.t) (pdB : PolyData K)
    (polyB : List Int) (idB neigA : Int) (ia ib : Nat) (st st' : OverlapState K)
    (h : overlapPair merge pdB polyB idB neigA ia ib st = some st')
    (ha : (ptAt st.intersA ia).t < (ptAt st.intersA (ia + 1)).t)
    (hb : (ptAt st.intersB ib).t < (ptAt st.intersB (ib + 1)).t) :
    st'.ols.map Overlap.range = st.ols.map Overlap.range
      ++ clipSpec (ptAt st.intersA ia).t (ptAt st.intersA (ia + 1)).t
          (ptAt st.intersB ib).t (ptAt st.intersB (ib + 1)).t := by
  rw [clipSpec_cases _ _ _ _ ha hb]
  unfold overlapPair at h
  dsimp only at h
  split at h
  · cases h
  · split_ifs at h with h1 h2 h3 h4 <;> simp only [Option.some.injEq] at h <;> subst h <;>
      simp [Overlap.range, ht, *]

theorem overlapPair_some (merge : InterPt K → InterPt K → InterPt K) (pdB : PolyData K)
    (polyB : List Int) (idB neigA : Int) (ia ib : Nat) (st : OverlapState K)
    (h : (GetNeig (ptAt st.intersB ib) (ptAt st.intersB (ib + 1)) pdB polyB idB).isSome) :
    ∃ st', overlapPair merge pdB polyB idB neigA ia ib st = some st' := by
  obtain ⟨nb, hnb⟩ := Option.isSome_iff_exists.mp h
  unfold overlapPair
  dsimp only
  rw [hnb]
  dsimp only
  split_ifs <;> exact ⟨_, rfl⟩

end Theorems

theorem GetNeig_congr {K : Type} (pA pB pA' pB' : InterPt K) (pd : PolyData K) (poly : List Int)
    (polyId : Int) (hA : pA.edge = pA'.edge) (hB : pB.edge = pB'.edge) :
    GetNeig pA pB pd poly polyId = GetNeig pA' pB' pd poly polyId := by
  unfold GetNeig
  rw [hA, hB]

section Theorems

variable {K : Type} [LinearOrderedField K]

theorem overlapRow_out (merge : InterPt K → InterPt K → InterPt K)
    (ht : ∀ a c, (merge a c).t = a.t) (pdA pdB : PolyData K)
    (A B : List (InterPt K)) (polyA polyB : List Int) (idA idB : Int)
    (hA : ∀ i, i < A.length / 2 → (ptAt A (2 * i)).t < (ptAt A (2 * i + 1)).t)
    (hB : ∀ j, j < B.length / 2 → (ptAt B (2 * j)).t < (ptAt B (2 * j + 1)).t)
    (st st' : OverlapState K) (i : Nat) (hi : i ∈ List.range (A.length / 2))
    (hinv : st.intersA.map InterPt.t = A.map InterPt.t
      ∧ st.intersB.map InterPt.t = B.map InterPt.t)
    (h : overlapRow merge pdA pdB polyA polyB idA idB st i = some st') :
    (st'.intersA.map InterPt.t = A.map InterPt.t
        ∧ st'.intersB.map InterPt.t = B.map InterPt.t)
      ∧ st'.ols.map Overlap.range = st.ols.map Overlap.range
          ++ (List.range (B.length / 2)).flatMap fun j =>
              clipSpec (ptAt A (2 * i)).t (ptAt A (2 * i + 1)).t (ptAt B (2 * j)).t
                (ptAt B (2 * j + 1)).t := by
  unfold overlapRow at h
  split at h
  · cases h
  · rename_i neigA _
    have hlen : st.intersB.length = B.length := by
      have := congrArg List.length hinv.2
      simpa using this
    rw [hlen] at h
    refine foldlM_option_out
      (fun s j => overlapPair merge pdB polyB idB neigA (2 * i) (2 * j) s)
      (fun s => s.intersA.map InterPt.t = A.map InterPt.t
        ∧ s.intersB.map InterPt.t = B.map InterPt.t)
      (fun s => s.ols.map Overlap.range) _ (List.range (B.length / 2)) ?_ st st' hinv h
    intro s j s' hj hs hstep
    obtain ⟨k1, k2⟩ := overlapPair_step merge InterPt.t ht pdB polyB idB neigA _ _ s s' hstep
    refine ⟨⟨k1.trans hs.1, k2.trans hs.2⟩, ?_⟩
    have ha := hA i (List.mem_range.mp hi)
    have hb := hB j (List.mem_range.mp hj)
    rw [← ptAt_of_map InterPt.t _ _ (2 * i) hs.1, ← ptAt_of_map InterPt.t _ _ (2 * i + 1) hs.1]
      at ha ⊢
    rw [← ptAt_of_map InterPt.t _ _ (2 * j) hs.2, ← ptAt_of_map InterPt.t _ _ (2 * j + 1) hs.2]
      at hb ⊢
    exact overlapPair_ols merge ht pdB polyB idB neigA _ _ s s' hstep ha hb

theorem overlapRow_some (merge : InterPt K → InterPt K → InterPt K)
    (he : ∀ a c, (merge a c).edge = a.edge) (pdA pdB : PolyData K)
    (A B : List (InterPt K)) (polyA polyB : List Int) (idA idB : Int)
    (hA : ∀ i, i < A.length / 2 →
      (GetNeig (ptAt A (2 * i)) (ptAt A (2 * i + 1)) pdA polyA idA).isSome)
    (hB : ∀ j, j < B.length / 2 →
      (GetNeig (ptAt B (2 * j)) (ptAt B (2 * j + 1)) pdB polyB idB).isSome)
    (st : OverlapState K) (i : Nat) (hi : i ∈ List.range (A.length / 2))
    (hinv : st.intersA.map InterPt.edge = A.map InterPt.edge
      ∧ st.intersB.map InterPt.edge = B.map InterPt.edge) :
    ∃ st', overlapRow merge pdA pdB polyA polyB idA idB st i = some st'
      ∧ (st'.intersA.map InterPt.edge = A.map InterPt.edge
        ∧ st'.intersB.map InterPt.edge = B.map InterPt.edge) := by
  have h1 := hA i (List.mem_range.mp hi)
  rw [GetNeig_congr _ _ _ _ pdA polyA idA
    (ptAt_of_map InterPt.edge _ _ (2 * i) hinv.1).symm
    (ptAt_of_map InterPt.edge _ _ (2 * i + 1) hinv.1).symm] at h1
  obtain ⟨na, hna⟩ := Option.isSome_iff_exists.mp h1
  have hlen : st.intersB.length = B.length := by
    have := congrArg List.length hinv.2
    simpa using this
  unfold overlapRow
  rw [hna, hlen]
  dsimp only
  refine foldlM_option_some
    (fun s j => overlapPair merge pdB polyB idB na (2 * i) (2 * j) s)
    (fun s => s.intersA.map InterPt.edge = A.map InterPt.edge
      ∧ s.intersB.map InterPt.edge = B.map InterPt.edge)
    (List.range (B.length / 2)) ?_ st hinv
  intro s j hj hs
  have h2 := hB j (List.mem_range.mp hj)
  rw [GetNeig_congr _ _ _ _ pdB polyB idB
    (ptAt_of_map InterPt.edge _ _ (2 * j) hs.2).symm
    (ptAt_of_map InterPt.edge _ _ (2 * j + 1) hs.2).symm] at h2
  obtain ⟨s', hs'⟩ := overlapPair_some merge pdB polyB idB na (2 * i) (2 * j) s h2
  obtain ⟨k1, k2⟩ := overlapPair_step merge InterPt.edge he pdB polyB idB na _ _ s s' hs'
  exact ⟨s', hs', k1.trans hs.1, k2.trans hs.2⟩

/-- C1: `OverlapLines` clips to the common overlap. For vectors `A` and `B` whose intervals
`[a0, a1]` and `[b0, b1]` satisfy `a0 < a1` and `b0 < b1`, the parameter ranges of the
overlaps pushed by a run are, in loop order over all interval pairs, exactly the ranges
`(max a0 b0, min a1 b1)` of the pairs with `max a0 b0 < min a1 b1`: one segment for such a
pair, none for any other. `Merge` is any function that keeps `t`. The run is not aborted by
its assertion when every neighbour lookup of an interval succeeds and `Merge` keeps
`edge`. -/
theorem OverlapLines_clips_to_common_overlap (merge : InterPt K → InterPt K → InterPt K)
    (ht : ∀ a c, (merge a c).t = a.t) (pdA pdB : PolyData K)
    (A B : List (InterPt K)) (polyA polyB : List Int) (idA idB : Int)
    (hA : ∀ i, i < A.length / 2 → (ptAt A (2 * i)).t < (ptAt A (2 * i + 1)).t)
    (hB : ∀ j, j < B.length / 2 → (ptAt B (2 * j)).t < (ptAt B (2 * j + 1)).t) :
    (∀ st, OverlapLines merge pdA pdB A B polyA polyB idA idB = some st →
        st.ols.map Overlap.range = clipAll A B)
      ∧ ((∀ a c, (merge a c).edge = a.edge) →
          (∀ i, i < A.length / 2 →
            (GetNeig (ptAt A (2 * i)) (ptAt A (2 * i + 1)) pdA polyA idA).isSome) →
          (∀ j, j < B.length / 2 →
            (GetNeig (ptAt B (2 * j)) (ptAt B (2 * j + 1)) pdB polyB idB).isSome) →
          ∃ st, OverlapLines merge pdA pdB A B polyA polyB idA idB = some st) := by
  constructor
  · intro st h
    unfold OverlapLines at h
    have := foldlM_option_out (overlapRow merge pdA pdB polyA polyB idA idB)
      (fun s => s.intersA.map InterPt.t = A.map InterPt.t
        ∧ s.intersB.map InterPt.t = B.map InterPt.t)
      (fun s => s.ols.map Overlap.range)
      (fun i => (List.range (B.length / 2)).flatMap fun j =>
        clipSpec (ptAt A (2 * i)).t (ptAt A (2 * i + 1)).t (ptAt B (2 * j)).t
          (ptAt B (2 * j + 1)).t)
      (List.range (A.length / 2))
      (fun s i s' hi hs hstep =>
        overlapRow_out merge ht pdA pdB A B polyA polyB idA idB hA hB s s' i hi hs hstep)
      ⟨A, B, []⟩ st ⟨rfl, rfl⟩ h
    simpa [clipAll] using this.2
  · intro he hnA hnB
    unfold OverlapLines
    obtain ⟨st, hst, _⟩ := foldlM_option_some (overlapRow merge pdA pdB polyA polyB idA idB)
      (fun s => s.intersA.map InterPt.edge = A.map InterPt.edge
        ∧ s.intersB.map InterPt.edge = B.map InterPt.edge)
      (List.range (A.length / 2))
      (fun s i hi hs =>
        overlapRow_some merge he pdA pdB A B polyA polyB idA idB hnA hnB s i hi hs)
      ⟨A, B, []⟩ ⟨rfl, rfl⟩
    exact ⟨st, hst⟩

end Theorems

/-- The first triangle of `exA` against the triangle `exBy`: the A interval is
`[-8/3, 0]`, the B interval `[-11/3, -1]`, and the one overlap pushed is `[-8/3, -1]`. -/
theorem OverlapLines_clips_witness :
    clipAll (exIntersA exA exBy) (exIntersB exA exBy) = [(-8 / 3, -1)]
      ∧ ∃ st, OverlapLines Merge (prepared exA exBy).pdA (prepared exA exBy).pdB
            (exIntersA exA exBy) (exIntersB exA exBy) [0, 1, 2] [0, 1, 2] 0 0 = some st
          ∧ st.ols.map Overlap.range = [(-8 / 3, -1)] := by
  have h := OverlapLines_clips_to_common_overlap Merge Merge_t (prepared exA exBy).pdA
    (prepared exA exBy).pdB (exIntersA exA exBy) (exIntersB exA exBy) [0, 1, 2] [0, 1, 2] 0 0
    (by decide!) (by decide!)
  obtain ⟨st, hst⟩ := h.2 Merge_edge (by decide!) (by decide!)
  exact ⟨by decide!, st, hst, (h.1 st hst).trans (by decide!)⟩

/-! ### AddContactLines -/

theorem addContactLine_edges {K : Type} (polyA polyB : List Int) (idA idB : Int) (self : Filter K)
    (o : Overlap K) :
    (addContactLine polyA polyB idA idB self o).edgesA = self.edgesA
      ∧ (addContactLine polyA polyB idA idB self o).edgesB = self.edgesB
      ∧ (addContactLine polyA polyB idA idB self o).invalidA
          = (self.invalidA || touchesOwn Src.A polyA self.edgesA o)
      ∧ (addContactLine polyA polyB idA idB self o).invalidB
          = (self.invalidB || touchesOwn Src.B polyB self.edgesB o) := by
  refine ⟨rfl, rfl, ?_, ?_⟩
  · simp only [addContactLine, touchesOwn]
    split_ifs with h <;> simp [h]
  · simp only [addContactLine, touchesOwn]
    split_ifs with h <;> simp [h]

section Theorems

variable {K : Type} [LinearOrderedField K]

theorem addContactLines_flags {K : Type} (polyA polyB : List Int) (idA idB : Int)
    (ols : List (Overlap K)) (self : Filter K) :
    (ols.foldl (addContactLine polyA polyB idA idB) self).edgesA = self.edgesA
      ∧ (ols.foldl (addContactLine polyA polyB idA idB) self).edgesB = self.edgesB
      ∧ (ols.foldl (addContactLine polyA polyB idA idB) self).invalidA
          = (self.invalidA || ols.any (touchesOwn Src.A polyA self.edgesA))
      ∧ (ols.foldl (addContactLine polyA polyB idA idB) self).invalidB
          = (self.invalidB || ols.any (touchesOwn Src.B polyB self.edgesB)) := by
  induction ols generalizing self with
  | nil => simp
  | cons o ols ih =>
    obtain ⟨e1, e2, f1, f2⟩ := addContactLine_edges polyA polyB idA idB self o
    obtain ⟨i1, i2, i3, i4⟩ := ih (addContactLine polyA polyB idA idB self o)
    simp only [List.foldl_cons, List.any_cons]
    rw [i1, i2, i3, i4, e1, e2, f1, f2]
    simp [Bool.or_assoc]

/-- The guards of `AddContactLines` as written: after a face pair has been processed, the
invalidity flag of mesh A is set exactly when it was already set or some produced contact
segment has an end point that comes from mesh A (`src == Src::A`) and whose edge
`(polyA[edge[0]], polyA[edge[1]])` is in the non-manifold edge set of A; symmetrically for
mesh B. An aborted run (failed assertion of `OverlapLines`) leaves no flags. -/
theorem AddContactLines_sets_flags (merge : InterPt K → InterPt K → InterPt K)
    (self : Filter K) (A B : List (InterPt K)) (polyA polyB : List Int) (idA idB : Int) :
    (AddContactLines merge self A B polyA polyB idA idB).map
        (fun s => (s.invalidA, s.invalidB))
      = (OverlapLines merge self.pdA self.pdB A B polyA polyB idA idB).map fun st =>
          (self.invalidA || st.ols.any (touchesOwn Src.A polyA self.edgesA),
            self.invalidB || st.ols.any (touchesOwn Src.B polyB self.edgesB)) := by
  unfold AddContactLines
  cases OverlapLines merge self.pdA self.pdB A B polyA polyB idA idB with
  | none => rfl
  | some st =>
    obtain ⟨_, _, h3, h4⟩ := addContactLines_flags polyA polyB idA idB st.ols self
    simp [h3, h4]

end Theorems

/-- The first triangle of `exA`, whose edge `(0, 1)` is non-manifold, against `exBy`: the
segment has the end point of B on the local edge `(0, 1)` of the B triangle, so
`(polyA[0], polyA[1])` is in the edge set of A, yet the segment does not touch that edge
and `invalidA` stays false. -/
theorem AddContactLines_flag_counterexample :
    (prepared exA exBy).edgesA = [(0, 1), (1, 0)]
      ∧ (prepared exA exBy).invalidA = false
      ∧ (OverlapLines Merge (prepared exA exBy).pdA (prepared exA exBy).pdB
            (exIntersA exA exBy) (exIntersB exA exBy) [0, 1, 2] [0, 1, 2] 0 0).map
          (fun st => st.ols.map fun o => (o.s.src, o.s.edge)) = some [(Src.B, (0, 1))]
      ∧ (OverlapLines Merge (prepared exA exBy).pdA (prepared exA exBy).pdB
            (exIntersA exA exBy) (exIntersB exA exBy) [0, 1, 2] [0, 1, 2] 0 0).map
          (fun st => st.ols.any (touchesStated [0, 1, 2] (prepared exA exBy).edgesA))
          = some true
      ∧ (AddContactLines Merge (prepared exA exBy) (exIntersA exA exBy)
            (exIntersB exA exBy) [0, 1, 2] [0, 1, 2] 0 0).map (fun s => s.invalidA)
          = some false := by
  refine ⟨by decide!, by decide!, by decide!, by decide!, by decide!⟩

/-- The first triangle of `exA` against `exBx`: the segment starts on the non-manifold
edge `(0, 1)` of A with an end point of A, and `invalidA` is set; `invalidB` is not. -/
theorem AddContactLines_sets_flags_witness :
    (AddContactLines Merge (prepared exA exBx) (exIntersA exA exBx)
        (exIntersB exA exBx) [0, 1, 2] [0, 1, 2] 0 0).map (fun s => (s.invalidA, s.invalidB))
      = some (true, false) :=
  (AddContactLines_sets_flags Merge (prepared exA exBx) (exIntersA exA exBx)
    (exIntersB exA exBx) [0, 1, 2] [0, 1, 2] 0 0).trans (by decide!)

section Theorems

variable {K : Type} [LinearOrderedField K]

/-! ### ProcessRequest -/

/-- C8, amended: a contact segment on a non-manifold edge does not stop the pass over the
candidate pairs, since the flags are read only after the traversal, but it is fatal for
the run. For inputs that keep cells after preparation, a run that is not aborted returns
the filter object as the whole pass left it; when `invalidA` is set it reports the error of
the first input and writes none of the three outputs; `invalidB` is tested, and reported in
the same way, only when `invalidA` is not set; the contact curve and the two prepared
meshes are written only when both flags are clear. -/
theorem ProcessRequest_reports_flags [FloorRing K] (sqrt : K → K)
    (merge : InterPt K → InterPt K → InterPt K)
    (computeNormal : List (Vec3 K) → List Int → Vec3 K)
    (obbPairs : PolyData K → PolyData K → List (List Int × List Int))
    (clean : ContactData K → ContactData K) (self : Filter K) (inA inB : PolyData K)
    (res : RunResult K)
    (hA : (PreparePolyData { inA with origCellIds := [] } self.edgesA).1.GetNumberOfCells ≠ 0)
    (hB : (PreparePolyData { inB with origCellIds := [] } self.edgesB).1.GetNumberOfCells ≠ 0)
    (h : ProcessRequest sqrt merge computeNormal obbPairs clean self true inA inB = some res) :
    res.ret = 1
      ∧ (obbPairs (PreparePolyData { inA with origCellIds := [] } self.edgesA).1
            (PreparePolyData { inB with origCellIds := [] } self.edgesB).1).foldlM
          (fun s pr => InterOBBNodes sqrt merge computeNormal s pr.1 pr.2)
          { self with
            pdA := (PreparePolyData { inA with origCellIds := [] } self.edgesA).1
            pdB := (PreparePolyData { inB with origCellIds := [] } self.edgesB).1
            edgesA := (PreparePolyData { inA with origCellIds := [] } self.edgesA).2
            edgesB := (PreparePolyData { inB with origCellIds := [] } self.edgesB).2 }
          = some res.self
      ∧ (res.self.invalidA = true →
          res.errors = [errInvalidA] ∧ res.resultA = none ∧ res.resultB = none
            ∧ res.resultC = none)
      ∧ (res.self.invalidA = false → res.self.invalidB = true →
          res.errors = [errInvalidB] ∧ res.resultA = none ∧ res.resultB = none
            ∧ res.resultC = none)
      ∧ (res.self.invalidA = false → res.self.invalidB = false →
          res.errors = [] ∧ res.resultA.isSome = true
            ∧ res.resultB = some (PreparePolyData { inA with origCellIds := [] } self.edgesA).1
            ∧ res.resultC
                = some (PreparePolyData { inB with origCellIds := [] } self.edgesB).1) := by
  unfold ProcessRequest at h
  simp only [if_true] at h
  rw [if_neg (by rintro (h1 | h1); exact hA h1; exact hB h1)] at h
  split at h
  · cases h
  · rename_i self2 hpass
    rw [hpass]
    by_cases ha : self2.invalidA = true
    · rw [if_pos ha] at h
      simp only [Option.some.injEq] at h
      subst h
      simp [ha]
    · by_cases hb : self2.invalidB = true
      · rw [if_neg ha, if_pos hb] at h
        simp only [Option.some.injEq] at h
        subst h
        simp [ha, hb]
      · rw [if_neg ha, if_neg hb] at h
        simp only [Option.some.injEq] at h
        subst h
        simp [ha, hb]

end Theorems

/-- The run on `exA` and `exBnm`, every cell of A against every cell of B: the pass
completes with seven segments and both flags set, but only the error of the first input is
reported and none of the three outputs is written. -/
theorem ProcessRequest_invalid_counterexample :
    (ProcessRequest qsqrt Merge (newellNormal qsqrt) allPairs id Filter.new true exA exBnm).map
        (fun res => (res.self.invalidA, res.self.invalidB, res.self.contLines.length))
        = some (true, true, 7)
      ∧ (ProcessRequest qsqrt Merge (newellNormal qsqrt) allPairs id Filter.new true exA
            exBnm).map
          (fun res => (res.errors, res.resultA.isSome, res.resultB.isSome, res.resultC.isSome))
        = some ([errInvalidA], false, false, false) := by
  refine ⟨by decide!, by decide!⟩

/-- The run on `exA` and `exBy` leaves both flags clear and writes the three outputs. -/
theorem ProcessRequest_reports_flags_witness :
    (exA.cells.length ≠ 0 ∧ exBy.cells.length ≠ 0)
      ∧ ∃ res, ProcessRequest qsqrt Merge (newellNormal qsqrt) allPairs id Filter.new true exA
            exBy = some res
          ∧ res.errors = [] ∧ res.resultA.isSome = true
          ∧ res.resultB = some (prepared exA exBy).pdA
          ∧ res.resultC = some (prepared exA exBy).pdB := by
  refine ⟨by decide!, ?_⟩
  obtain ⟨res, hres⟩ := Option.isSome_iff_exists.mp
    (show (ProcessRequest qsqrt Merge (newellNormal qsqrt) allPairs id Filter.new true exA
      exBy).isSome = true by decide!)
  have hfa : (ProcessRequest qsqrt Merge (newellNormal qsqrt) allPairs id Filter.new true exA
      exBy).map (fun r => (r.self.invalidA, r.self.invalidB)) = some (false, false) := by
    decide!
  rw [hres] at hfa
  simp only [Option.map_some', Option.some.injEq, Prod.mk.injEq] at hfa
  have h := ProcessRequest_reports_flags qsqrt Merge (newellNormal qsqrt) allPairs id
    Filter.new exA exBy res (by decide!) (by decide!) hres
  obtain ⟨h1, h2, h3, h4⟩ := h.2.2.2.2 hfa.1 hfa.2
  exact ⟨res, hres, h1, h2, h3.trans (by decide!), h4.trans (by decide!)⟩

section Theorems

variable {K : Type} [LinearOrderedField K]

/-! ### InterPolys consumes the points in pairs -/

/-- C2, amended: `InterPolyLine` can return an odd number of points, but the sequences
that are consumed in pairs have even length: `InterPolys` passes `intersA` and `intersB`
on to `AddContactLines` only when both are non-empty and of even length, and leaves the
filter object unchanged for any other face pair. -/
theorem InterPolys_consumes_even_sequences [FloorRing K] (sqrt : K → K)
    (merge : InterPt K → InterPt K → InterPt K)
    (computeNormal : List (Vec3 K) → List Int → Vec3 K) (self : Filter K) (idA idB : Int)
    (h : InterPolys sqrt merge computeNormal self idA idB ≠ some self) :
    (pairIntersA sqrt computeNormal self idA idB).length % 2 = 0
      ∧ (pairIntersB sqrt computeNormal self idA idB).length % 2 = 0
      ∧ (pairIntersA sqrt computeNormal self idA idB).length ≠ 0
      ∧ (pairIntersB sqrt computeNormal self idA idB).length ≠ 0
      ∧ InterPolys sqrt merge computeNormal self idA idB
          = AddContactLines merge self (pairIntersA sqrt computeNormal self idA idB)
              (pairIntersB sqrt computeNormal self idA idB) (self.pdA.GetCellPoints idA)
              (self.pdB.GetCellPoints idB) idA idB := by
  unfold InterPolys at h ⊢
  unfold pairIntersA pairIntersB pairLine
  dsimp only at h ⊢
  split at h
  · exact absurd rfl h
  · rename_i r s hrs
    split_ifs at h with hc
    · rw [if_pos hc]
      exact ⟨hc.2.2.1, hc.2.2.2, hc.1, hc.2.1, rfl⟩
    · exact absurd rfl h

end Theorems

/-- The thin triangle `exSliver` with its own normal and the line `y = 0` in its plane, as
`InterPolys` computes it against `exBcut`: the line crosses two sides, `2e-6` apart, the two
points fall into one group of the rounded parameter, the group is the first one and loses
its second point, and one point is returned. The pair then adds no segment. -/
theorem InterPolyLine_odd_counterexample :
    newellNormal qsqrt exSliver.points [0, 1, 2] = ⟨0, 0, 1⟩
      ∧ pairLine qsqrt (newellNormal qsqrt) (prepared exSliver exBcut) 0 0
          = some (⟨-1, 0, 0⟩, ⟨0, 0, 0⟩)
      ∧ (List.range 3).map (fun i =>
            (edgePoints qsqrt exSliver [0, 1, 2] ⟨-1, 0, 0⟩ ⟨0, 0, 0⟩ Src.A i).map fun p => p.t)
          = [[], [-2000000 / 999999999999], [2000000 / 999999999999]]
      ∧ (InterPolyLine qsqrt exSliver [0, 1, 2] ⟨-1, 0, 0⟩ ⟨0, 0, 0⟩ Src.A ⟨0, 0, 1⟩).length = 1
      ∧ (pairIntersB qsqrt (newellNormal qsqrt) (prepared exSliver exBcut) 0 0).length = 2
      ∧ InterPolys qsqrt Merge (newellNormal qsqrt) (prepared exSliver exBcut) 0 0
          = some (prepared exSliver exBcut) := by
  refine ⟨by decide!, by decide!, by decide!, by decide!, by decide!, by decide!⟩

/-- The first triangle of `exA` against `exBy`: both vectors have two points and one
segment is added. -/
theorem InterPolys_consumes_even_witness :
    InterPolys qsqrt Merge (newellNormal qsqrt) (prepared exA exBy) 0 0
        ≠ some (prepared exA exBy)
      ∧ (pairIntersA qsqrt (newellNormal qsqrt) (prepared exA exBy) 0 0).length % 2 = 0
      ∧ (pairIntersB qsqrt (newellNormal qsqrt) (prepared exA exBy) 0 0).length % 2 = 0
      ∧ (InterPolys qsqrt Merge (newellNormal qsqrt) (prepared exA exBy) 0 0).map
          (fun s => s.contLines.length) = some 1 :=
  have h := InterPolys_consumes_even_sequences qsqrt Merge (newellNormal qsqrt)
    (prepared exA exBy) 0 0 (by decide!)
  ⟨by decide!, h.1, h.2.1, by decide!⟩

section Theorems

variable {K : Type} [LinearOrderedField K]

/-! ### Every point of InterPolyLine is a point of InterEdgeLine on one of the edges -/

theorem InterEdgeLine_on_line (sqrt : K → K) (eA eB r ptA : Vec3 K) (p : InterPt K)
    (hp : p ∈ InterEdgeLine sqrt eA eB r ptA) : p.pt = lineAt ptA r p.t := by
  unfold InterEdgeLine at hp
  dsimp only at hp
  split_ifs at hp <;> simp only [List.mem_cons, List.mem_singleton, List.not_mem_nil,
    or_false] at hp <;>
    first
    | (subst hp; rfl)
    | (rcases hp with hp | hp <;> subst hp <;> rfl)

theorem edgePoints_on_line (sqrt : K → K) (pd : PolyData K) (poly : List Int)
    (r pt : Vec3 K) (src : Src) (i : Nat) (p : InterPt K)
    (hp : p ∈ edgePoints sqrt pd poly r pt src i) : p.pt = lineAt pt r p.t := by
  unfold edgePoints at hp
  simp only [List.mem_filterMap] at hp
  obtain ⟨q, hq, hqp⟩ := hp
  have hq' := InterEdgeLine_on_line sqrt _ _ r pt q hq
  split_ifs at hqp <;> simp only [Option.some.injEq] at hqp <;> subst hqp <;> exact hq'

theorem pairedInsert_all [FloorRing K] (P : InterPt K → Prop) (p : InterPt K) (hp : P p)
    (mp : List (K × List (InterPt K))) (h : ∀ kg ∈ mp, ∀ q ∈ kg.2, P q) :
    ∀ kg ∈ pairedInsert p mp, ∀ q ∈ kg.2, P q := by
  induction mp with
  | nil =>
    intro kg hkg q hq
    simp only [pairedInsert, List.mem_singleton] at hkg
    subst hkg
    simp only [List.mem_singleton] at hq
    subst hq
    exact hp
  | cons a mp ih =>
    obtain ⟨k, g⟩ := a
    intro kg hkg q hq
    simp only [pairedInsert] at hkg
    split_ifs at hkg
    · simp only [List.mem_cons] at hkg
      rcases hkg with hkg | hkg | hkg
      · subst hkg
        simp only [List.mem_singleton] at hq
        subst hq
        exact hp
      · subst hkg
        exact h (k, g) (List.mem_cons_self _ _) q hq
      · exact h kg (List.mem_cons_of_mem _ hkg) q hq
    · simp only [List.mem_cons] at hkg
      rcases hkg with hkg | hkg
      · subst hkg
        exact h (k, g) (List.mem_cons_self _ _) q hq
      · exact ih (fun kg hkg => h kg (List.mem_cons_of_mem _ hkg)) kg hkg q hq
    · simp only [List.mem_cons] at hkg
      rcases hkg with hkg | hkg
      · subst hkg
        simp only [List.mem_append, List.mem_singleton] at hq
        rcases hq with hq | hq
        · exact h (k, g) (List.mem_cons_self _ _) q hq
        · subst hq
          exact hp
      · exact h kg (List.mem_cons_of_mem _ hkg) q hq

theorem paired_all [FloorRing K] (P : InterPt K → Prop) (pts : List (InterPt K))
    (mp : List (K × List (InterPt K))) (hpts : ∀ p ∈ pts, P p)
    (h : ∀ kg ∈ mp, ∀ q ∈ kg.2, P q) :
    ∀ kg ∈ pts.foldl (fun mp p => pairedInsert p mp) mp, ∀ q ∈ kg.2, P q := by
  induction pts generalizing mp with
  | nil => simpa using h
  | cons p pts ih =>
    simp only [List.foldl_cons]
    exact ih _ (fun q hq => hpts q (List.mem_cons_of_mem _ hq))
      (pairedInsert_all P p (hpts p (List.mem_cons_self _ _)) mp h)

theorem duplicateSingle_all {K : Type} (P : InterPt K → Prop) (g : List (InterPt K))
    (h : ∀ q ∈ g, P q) : ∀ q ∈ duplicateSingle g, P q := by
  unfold duplicateSingle
  split
  · rename_i q0
    split_ifs <;> intro q hq <;> simp only [List.mem_cons, List.mem_singleton,
      List.not_mem_nil, or_false, or_self] at hq <;> subst hq <;>
      exact h _ (List.mem_singleton.mpr rfl)
  · exact h

theorem popIfTwo_all {K : Type} (P : InterPt K → Prop) (g : List (InterPt K))
    (h : ∀ q ∈ g, P q) : ∀ q ∈ popIfTwo g, P q := by
  unfold popIfTwo
  split_ifs
  · exact fun q hq => h q (List.dropLast_subset g hq)
  · exact h

theorem onFront_all {α : Type} (Q : α → Prop) (f : α → α) (hf : ∀ a, Q a → Q (f a))
    (l : List α) (h : ∀ a ∈ l, Q a) : ∀ a ∈ onFront f l, Q a := by
  cases l with
  | nil => simp [onFront]
  | cons a l =>
    intro b hb
    simp only [onFront, List.mem_cons] at hb
    rcases hb with hb | hb
    · subst hb
      exact hf a (h a (List.mem_cons_self _ _))
    · exact h b (List.mem_cons_of_mem _ hb)

theorem onBack_all {α : Type} (Q : α → Prop) (f : α → α) (hf : ∀ a, Q a → Q (f a))
    (l : List α) (h : ∀ a ∈ l, Q a) : ∀ a ∈ onBack f l, Q a := by
  induction l with
  | nil => simp [onBack]
  | cons a l ih =>
    cases l with
    | nil =>
      intro b hb
      simp only [onBack, List.mem_singleton] at hb
      subst hb
      exact hf a (h a (List.mem_cons_self _ _))
    | cons c l =>
      intro b hb
      simp only [onBack, List.mem_cons] at hb
      rcases hb with hb | hb
      · subst hb
        exact h b (List.mem_cons_self _ _)
      · exact ih (fun x hx => h x (List.mem_cons_of_mem _ hx)) b (by simpa using hb)

theorem resolveGroup_all (P : InterPt K → Prop) (pd : PolyData K) (poly : List Int)
    (r pt m : Vec3 K) (d : K) (ends : List (Int × K)) (g : List (InterPt K))
    (h : ∀ q ∈ g, P q) : ∀ q ∈ resolveGroup pd poly r pt m d ends g, P q := by
  have hd : ∀ q ∈ g.dropLast, P q := fun q hq => h q (List.dropLast_subset g hq)
  unfold resolveGroup
  split
  · exact h
  · dsimp only
    split_ifs <;> first | exact h | exact hd | (intro q hq; cases hq)

theorem InterPolyLine_all [FloorRing K] (P : InterPt K → Prop) (sqrt : K → K)
    (pd : PolyData K) (poly : List Int) (r pt : Vec3 K) (src : Src) (n : Vec3 K)
    (h : ∀ i, ∀ p ∈ edgePoints sqrt pd poly r pt src i, P p) :
    ∀ p ∈ InterPolyLine sqrt pd poly r pt src n, P p := by
  have hA : ∀ p ∈ (List.range poly.length).flatMap (edgePoints sqrt pd poly r pt src), P p := by
    intro p hp
    obtain ⟨i, _, hi⟩ := List.mem_flatMap.mp hp
    exact h i p hi
  unfold InterPolyLine
  dsimp only
  split_ifs
  · intro p hp
    cases hp
  · intro p hp
    obtain ⟨g, hg, hpg⟩ := List.mem_flatten.mp hp
    obtain ⟨g0, hg0, rfl⟩ := List.mem_map.mp hg
    refine resolveGroup_all P pd poly r pt _ _ _ g0 ?_ p hpg
    refine onBack_all (fun g => ∀ q ∈ g, P q) popIfTwo (popIfTwo_all P) _ ?_ g0 hg0
    refine onFront_all (fun g => ∀ q ∈ g, P q) popIfTwo (popIfTwo_all P) _ ?_
    intro g1 hg1
    obtain ⟨kg, hkg, rfl⟩ := List.mem_map.mp hg1
    exact duplicateSingle_all P _ (paired_all P _ [] hA (by simp) kg hkg)

end Theorems

section Theorems

variable {K : Type} [LinearOrderedField K]

/-! ### The end points of the overlaps keep what `Merge` keeps -/

theorem ptAt_mem (l : List (InterPt K)) (k : Nat) (h : k < l.length) : ptAt l k ∈ l := by
  unfold ptAt
  rw [List.getD_eq_getElem _ _ h]
  exact List.getElem_mem h

theorem set_all {K : Type} (P : InterPt K → Prop) (l : List (InterPt K)) (k : Nat) (x : InterPt K)
    (hx : P x) (h : ∀ q ∈ l, P q) : ∀ q ∈ l.set k x, P q := by
  intro q hq
  rcases List.mem_or_eq_of_mem_set hq with hq | hq
  · exact h q hq
  · exact hq ▸ hx

theorem overlapPair_all (P : InterPt K → Prop) (merge : InterPt K → InterPt K → InterPt K)
    (hm : ∀ a c, P a → P (merge a c)) (pdB : PolyData K) (polyB : List Int)
    (idB neigA : Int) (ia ib : Nat) (st st' : OverlapState K)
    (hia : ia + 1 < st.intersA.length) (hib : ib + 1 < st.intersB.length)
    (hA : ∀ q ∈ st.intersA, P q) (hB : ∀ q ∈ st.intersB, P q)
    (hO : ∀ o ∈ st.ols, P o.f ∧ P o.s)
    (h : overlapPair merge pdB polyB idB neigA ia ib st = some st') :
    (∀ q ∈ st'.intersA, P q) ∧ (∀ q ∈ st'.intersB, P q) ∧ (∀ o ∈ st'.ols, P o.f ∧ P o.s) := by
  have a0 : P (ptAt st.intersA ia) := hA _ (ptAt_mem _ _ (by omega))
  have a1 : P (ptAt st.intersA (ia + 1)) := hA _ (ptAt_mem _ _ hia)
  have b0 : P (ptAt st.intersB ib) := hB _ (ptAt_mem _ _ (by omega))
  have b1 : P (ptAt st.intersB (ib + 1)) := hB _ (ptAt_mem _ _ hib)
  have hpush : ∀ (f s : InterPt K) (na nb : Int), P f → P s →
      ∀ o ∈ st.ols ++ [⟨f, s, na, nb⟩], P o.f ∧ P o.s := by
    intro f s na nb hf hs o ho
    rcases List.mem_append.mp ho with ho | ho
    · exact hO o ho
    · simp only [List.mem_singleton] at ho
      subst ho
      exact ⟨hf, hs⟩
  unfold overlapPair at h
  dsimp only at h
  split at h
  · cases h
  · split_ifs at h <;> simp only [Option.some.injEq] at h <;> subst h
    · exact ⟨hA, set_all P _ _ _ (hm _ _ b1) (set_all P _ _ _ (hm _ _ b0) hB),
        hpush _ _ _ _ (hm _ _ b0) (hm _ _ b1)⟩
    · exact ⟨set_all P _ _ _ (hm _ _ a1) hA, set_all P _ _ _ (hm _ _ b0) hB,
        hpush _ _ _ _ (hm _ _ b0) (hm _ _ a1)⟩
    · exact ⟨set_all P _ _ _ (hm _ _ a1) (set_all P _ _ _ (hm _ _ a0) hA), hB,
        hpush _ _ _ _ (hm _ _ a0) (hm _ _ a1)⟩
    · exact ⟨set_all P _ _ _ (hm _ _ a0) hA, set_all P _ _ _ (hm _ _ b1) hB,
        hpush _ _ _ _ (hm _ _ a0) (hm _ _ b1)⟩
    · exact ⟨hA, hB, hO⟩

theorem overlapPair_length (merge : InterPt K → InterPt K → InterPt K) (pdB : PolyData K)
    (polyB : List Int) (idB neigA : Int) (ia ib : Nat) (st st' : OverlapState K)
    (h : overlapPair merge pdB polyB idB neigA ia ib st = some st') :
    st'.intersA.length = st.intersA.length ∧ st'.intersB.length = st.intersB.length := by
  unfold overlapPair at h
  dsimp only at h
  split at h
  · cases h
  · split_ifs at h <;> simp only [Option.some.injEq] at h <;> subst h <;> simp

theorem foldlM_option_inv {σ α : Type} (f : σ → α → Option σ) (Inv : σ → Prop)
    (xs : List α) (hstep : ∀ s a s', a ∈ xs → Inv s → f s a = some s' → Inv s') :
    ∀ s s', Inv s → xs.foldlM f s = some s' → Inv s' := by
  intro s s' hs h
  exact (foldlM_option_out f Inv (fun _ => ([] : List Unit)) (fun _ => []) xs
    (fun s a s' ha hi hf => ⟨hstep s a s' ha hi hf, by simp⟩) s s' hs h).1

theorem OverlapLines_all (P : InterPt K → Prop) (merge : InterPt K → InterPt K → InterPt K)
    (hm : ∀ a c, P a → P (merge a c)) (pdA pdB : PolyData K)
    (A B : List (InterPt K)) (polyA polyB : List Int) (idA idB : Int)
    (hA : ∀ q ∈ A, P q) (hB : ∀ q ∈ B, P q) (st : OverlapState K)
    (h : OverlapLines merge pdA pdB A B polyA polyB idA idB = some st) :
    ∀ o ∈ st.ols, P o.f ∧ P o.s := by
  unfold OverlapLines at h
  have key := foldlM_option_inv (overlapRow merge pdA pdB polyA polyB idA idB)
    (fun s => (s.intersA.length = A.length ∧ s.intersB.length = B.length)
      ∧ (∀ q ∈ s.intersA, P q) ∧ (∀ q ∈ s.intersB, P q) ∧ (∀ o ∈ s.ols, P o.f ∧ P o.s))
    (List.range (A.length / 2)) ?_ ⟨A, B, []⟩ st
    ⟨⟨rfl, rfl⟩, hA, hB, by simp⟩ h
  · exact key.2.2.2
  · intro s i s' hi hs hrow
    unfold overlapRow at hrow
    split at hrow
    · cases hrow
    · rename_i neigA _
      refine foldlM_option_inv
        (fun s j => overlapPair merge pdB polyB idB neigA (2 * i) (2 * j) s)
        (fun s => (s.intersA.length = A.length ∧ s.intersB.length = B.length)
          ∧ (∀ q ∈ s.intersA, P q) ∧ (∀ q ∈ s.intersB, P q)
          ∧ (∀ o ∈ s.ols, P o.f ∧ P o.s))
        (List.range (s.intersB.length / 2)) ?_ s s' hs hrow
      intro u j u' hj hu hpair
      have hi' := List.mem_range.mp hi
      have hj' := List.mem_range.mp hj
      rw [hs.1.2] at hj'
      obtain ⟨l1, l2⟩ := overlapPair_length merge pdB polyB idB neigA _ _ u u' hpair
      refine ⟨⟨l1.trans hu.1.1, l2.trans hu.1.2⟩, ?_⟩
      exact overlapPair_all P merge hm pdB polyB idB neigA _ _ u u'
        (by rw [hu.1.1]; omega) (by rw [hu.1.2]; omega) hu.2.1 hu.2.2.1 hu.2.2.2 hpair

end Theorems

theorem addContactLines_points {K : Type} (polyA polyB : List Int) (idA idB : Int)
    (ols : List (Overlap K)) (self : Filter K) :
    (ols.foldl (addContactLine polyA polyB idA idB) self).contPts
      = self.contPts ++ ols.flatMap fun o => [o.f.pt, o.s.pt] := by
  induction ols generalizing self with
  | nil => simp
  | cons o ols ih =>
    simp only [List.foldl_cons, List.flatMap_cons]
    rw [ih]
    simp [addContactLine]

section Theorems

variable {K : Type} [LinearOrderedField K]

theorem Dot_lineAt (n s r : Vec3 K) (t : K) :
    Dot n (lineAt s r t) = Dot n s + t * Dot n r := by
  simp only [Dot, lineAt]
  ring

theorem Dot_normalize_cross (sqrt : K → K) (nA nB : Vec3 K) :
    Dot nA (Normalize sqrt (Cross nA nB)).1 = 0
      ∧ Dot nB (Normalize sqrt (Cross nA nB)).1 = 0 := by
  have e1 : nA.x * (nA.y * nB.z - nA.z * nB.y) + nA.y * (nA.z * nB.x - nA.x * nB.z)
      + nA.z * (nA.x * nB.y - nA.y * nB.x) = 0 := by ring
  have e2 : nB.x * (nA.y * nB.z - nA.z * nB.y) + nB.y * (nA.z * nB.x - nA.x * nB.z)
      + nB.z * (nA.x * nB.y - nA.y * nB.x) = 0 := by ring
  unfold Normalize
  dsimp only
  generalize Norm sqrt (Cross nA nB) = den
  split_ifs with h
  · simp only [Dot, Cross, div_eq_mul_inv]
    constructor
    · linear_combination den⁻¹ * e1
    · linear_combination den⁻¹ * e2
  · simp only [Dot, Cross]
    exact ⟨e1, e2⟩

end Theorems

section Theorems

variable {K : Type} [LinearOrderedField K]

theorem pairInters_on_line [FloorRing K] (sqrt : K → K)
    (computeNormal : List (Vec3 K) → List Int → Vec3 K) (self : Filter K) (idA idB : Int)
    (r s : Vec3 K) (hl : pairLine sqrt computeNormal self idA idB = some (r, s)) :
    (∀ q ∈ pairIntersA sqrt computeNormal self idA idB, q.pt = lineAt s r q.t)
      ∧ (∀ q ∈ pairIntersB sqrt computeNormal self idA idB, q.pt = lineAt s r q.t) := by
  unfold pairIntersA pairIntersB
  rw [hl]
  dsimp only
  exact ⟨InterPolyLine_all _ sqrt _ _ r s _ _ (fun i p hp => edgePoints_on_line sqrt _ _ r s _ i p hp),
    InterPolyLine_all _ sqrt _ _ r s _ _ (fun i p hp => edgePoints_on_line sqrt _ _ r s _ i p hp)⟩

theorem pairLine_planes (sqrt : K → K)
    (computeNormal : List (Vec3 K) → List Int → Vec3 K) (self : Filter K) (idA idB : Int)
    (r s : Vec3 K) (hl : pairLine sqrt computeNormal self idA idB = some (r, s)) (t : K) :
    Dot (pairNormalA computeNormal self idA) (lineAt s r t)
        = pairOffsetA computeNormal self idA
      ∧ Dot (pairNormalB computeNormal self idB) (lineAt s r t)
        = pairOffsetB computeNormal self idB := by
  unfold pairLine at hl
  dsimp only at hl
  obtain ⟨hr, hs, hdet⟩ := cuttingLine_some sqrt _ _ _ _ r s hl
  obtain ⟨h1, h2, _⟩ := planePoint_solves
    (computeNormal self.pdA.points (self.pdA.GetCellPoints idA))
    (computeNormal self.pdB.points (self.pdB.GetCellPoints idB))
    (Dot (computeNormal self.pdA.points (self.pdA.GetCellPoints idA))
      (self.pdA.GetPoint (polyAt (self.pdA.GetCellPoints idA) 0)))
    (Dot (computeNormal self.pdB.points (self.pdB.GetCellPoints idB))
      (self.pdB.GetPoint (polyAt (self.pdB.GetCellPoints idB) 0)))
    (largestAxis r) (largestAxis_cases r) hdet
  rw [← hs] at h1 h2
  obtain ⟨o1, o2⟩ := Dot_normalize_cross sqrt
    (computeNormal self.pdA.points (self.pdA.GetCellPoints idA))
    (computeNormal self.pdB.points (self.pdB.GetCellPoints idB))
  rw [← hr] at o1 o2
  unfold pairOffsetA pairOffsetB pairNormalA pairNormalB
  rw [Dot_lineAt, Dot_lineAt, h1, h2, o1, o2]
  simp

theorem InterPolys_unchanged_or_added [FloorRing K] (sqrt : K → K)
    (merge : InterPt K → InterPt K → InterPt K)
    (computeNormal : List (Vec3 K) → List Int → Vec3 K) (self : Filter K) (idA idB : Int) :
    InterPolys sqrt merge computeNormal self idA idB = some self
      ∨ ((∃ r s, pairLine sqrt computeNormal self idA idB = some (r, s))
        ∧ InterPolys sqrt merge computeNormal self idA idB
          = AddContactLines merge self (pairIntersA sqrt computeNormal self idA idB)
              (pairIntersB sqrt computeNormal self idA idB) (self.pdA.GetCellPoints idA)
              (self.pdB.GetCellPoints idB) idA idB) := by
  cases hpl : pairLine sqrt computeNormal self idA idB with
  | none =>
    left
    unfold InterPolys
    unfold pairLine at hpl
    dsimp only at hpl ⊢
    rw [hpl]
  | some rs =>
    obtain ⟨r, s⟩ := rs
    unfold InterPolys pairIntersA pairIntersB
    rw [hpl]
    unfold pairLine at hpl
    dsimp only at hpl ⊢
    rw [hpl]
    dsimp only
    split_ifs with hc
    · right
      exact ⟨⟨r, s, rfl⟩, rfl⟩
    · left; rfl

/-- C3: every point emitted by `InterEdgeLine`, in the crossing branch and in the
congruent-line branch, has the coordinates `ptA + t*r` of its recorded parameter `t`. For a
`Merge` that keeps `t` and the coordinates, both end points of every overlap of a face pair
lie on the cutting line `(r, s)` of the pair at their recorded parameters, and every point
that `InterPolys` appends to the contact points lies on that line and on both supporting
planes, `nA . q = dA` and `nB . q = dB`. -/
theorem contact_points_on_line_and_planes [FloorRing K] (sqrt : K → K)
    (merge : InterPt K → InterPt K → InterPt K)
    (computeNormal : List (Vec3 K) → List Int → Vec3 K)
    (ht : ∀ a c, (merge a c).t = a.t) (hpt : ∀ a c, (merge a c).pt = a.pt)
    (self self' : Filter K) (idA idB : Int)
    (h : InterPolys sqrt merge computeNormal self idA idB = some self') :
    (∀ eA eB r ptA p, p ∈ InterEdgeLine sqrt eA eB r ptA → p.pt = lineAt ptA r p.t)
      ∧ (∀ r s st, pairLine sqrt computeNormal self idA idB = some (r, s) →
          OverlapLines merge self.pdA self.pdB (pairIntersA sqrt computeNormal self idA idB)
            (pairIntersB sqrt computeNormal self idA idB) (self.pdA.GetCellPoints idA)
            (self.pdB.GetCellPoints idB) idA idB = some st →
          ∀ o ∈ st.ols, o.f.pt = lineAt s r o.f.t ∧ o.s.pt = lineAt s r o.s.t)
      ∧ ∃ new, self'.contPts = self.contPts ++ new ∧ ∀ q ∈ new,
          (∃ r s t, pairLine sqrt computeNormal self idA idB = some (r, s)
            ∧ q = lineAt s r t)
          ∧ Dot (pairNormalA computeNormal self idA) q = pairOffsetA computeNormal self idA
          ∧ Dot (pairNormalB computeNormal self idB) q
              = pairOffsetB computeNormal self idB := by
  have part2 : ∀ r s st, pairLine sqrt computeNormal self idA idB = some (r, s) →
      OverlapLines merge self.pdA self.pdB (pairIntersA sqrt computeNormal self idA idB)
        (pairIntersB sqrt computeNormal self idA idB) (self.pdA.GetCellPoints idA)
        (self.pdB.GetCellPoints idB) idA idB = some st →
      ∀ o ∈ st.ols, o.f.pt = lineAt s r o.f.t ∧ o.s.pt = lineAt s r o.s.t := by
    intro r s st hl hst
    obtain ⟨hA, hB⟩ := pairInters_on_line sqrt computeNormal self idA idB r s hl
    exact OverlapLines_all (fun p => p.pt = lineAt s r p.t) merge
      (fun a c ha => by show (merge a c).pt = lineAt s r (merge a c).t; rw [hpt, ht]; exact ha)
      _ _ _ _ _ _ _ _ hA hB st hst
  refine ⟨fun eA eB r ptA p hp => InterEdgeLine_on_line sqrt eA eB r ptA p hp, part2, ?_⟩
  rcases InterPolys_unchanged_or_added sqrt merge computeNormal self idA idB with hsame | hadd
  · rw [hsame] at h
    simp only [Option.some.injEq] at h
    subst h
    exact ⟨[], by simp, fun q hq => by cases hq⟩
  · obtain ⟨⟨r, s, hl⟩, hadd⟩ := hadd
    rw [hadd] at h
    unfold AddContactLines at h
    split at h
    · cases h
    · rename_i st hst
      simp only [Option.some.injEq] at h
      subst h
      refine ⟨_, addContactLines_points _ _ _ _ st.ols self, ?_⟩
      intro q hq
      obtain ⟨o, ho, hqo⟩ := List.mem_flatMap.mp hq
      obtain ⟨hf, hs⟩ := part2 r s st hl hst o ho
      simp only [List.mem_cons, List.mem_singleton, List.not_mem_nil, or_false] at hqo
      rcases hqo with hqo | hqo
      · rw [hqo, hf]
        exact ⟨⟨r, s, o.f.t, hl, rfl⟩, pairLine_planes sqrt computeNormal self idA idB r s hl _⟩
      · rw [hqo, hs]
        exact ⟨⟨r, s, o.s.t, hl, rfl⟩, pairLine_planes sqrt computeNormal self idA idB r s hl _⟩

end Theorems

/-- The first triangle of `exA` against `exBy`: the two points appended, `(8/3, 1, 0)` and
`(1, 1, 0)`, lie on the planes `z = 0` and `y = 1` of the two triangles. -/
theorem contact_points_witness :
    (InterPolys qsqrt Merge (newellNormal qsqrt) (prepared exA exBy) 0 0).map
        (fun s => s.contPts) = some [⟨8 / 3, 1, 0⟩, ⟨1, 1, 0⟩]
      ∧ ∃ self', InterPolys qsqrt Merge (newellNormal qsqrt) (prepared exA exBy) 0 0
            = some self'
          ∧ ∃ new, self'.contPts = (prepared exA exBy).contPts ++ new ∧ ∀ q ∈ new,
              Dot (pairNormalA (newellNormal qsqrt) (prepared exA exBy) 0) q
                  = pairOffsetA (newellNormal qsqrt) (prepared exA exBy) 0
                ∧ Dot (pairNormalB (newellNormal qsqrt) (prepared exA exBy) 0) q
                  = pairOffsetB (newellNormal qsqrt) (prepared exA exBy) 0 := by
  refine ⟨by decide!, ?_⟩
  obtain ⟨self', hs⟩ := Option.isSome_iff_exists.mp
    (show (InterPolys qsqrt Merge (newellNormal qsqrt) (prepared exA exBy) 0 0).isSome = true
      by decide!)
  obtain ⟨new, hnew, hq⟩ := (contact_points_on_line_and_planes qsqrt Merge
    (newellNormal qsqrt) Merge_t Merge_pt (prepared exA exBy) self' 0 0 hs).2.2
  exact ⟨self', hs, new, hnew, fun q hq' => (hq q hq').2⟩

/-! ### PreparePolyData: the decomposition of quads -/

theorem deleteCell_getElem? (cells : List Cell) (m i : Nat) :
    (deleteCell cells m)[i]? =
      if i = m ∧ m < cells.length then
        some { cells.getD m ⟨VTK_EMPTY_CELL, []⟩ with type := VTK_EMPTY_CELL }
      else cells[i]? := by
  unfold deleteCell
  rw [List.getElem?_set]
  by_cases h : m = i
  · subst h
    by_cases h2 : m < cells.length
    · simp [h2]
    · simp [h2, List.getElem?_eq_none (Nat.le_of_not_lt h2)]
  · have h' : ¬ i = m := fun e => h e.symm
    simp [h, h']

theorem appendDelete_inv (orig : List Cell) (m : Nat) (hm : m < orig.length)
    (st : List Cell × List Int) (new : List Cell) (nids : List Int)
    (hnew : ∀ c ∈ new, c.type = VTK_TRIANGLE) (hlen : new.length = nids.length)
    (h1 : st.1.length = st.2.length) (h2 : orig.length ≤ st.1.length)
    (h3 : ∀ i, m ≤ i → i < orig.length → st.1[i]? = orig[i]?)
    (h4 : ∀ i cell, i < m → st.1[i]? = some cell → cell.type ≠ VTK_QUAD)
    (h5 : ∀ i cell, orig.length ≤ i → st.1[i]? = some cell → cell.type = VTK_TRIANGLE)
    (h6 : ∀ j a b c d, j < m → orig[j]? = some ⟨VTK_QUAD, [a, b, c, d]⟩ →
      ∃ pos, orig.length ≤ pos ∧ st.1[pos]? = some ⟨VTK_TRIANGLE, [a, b, c]⟩
        ∧ st.2[pos]? = some (j : Int) ∧ st.1[pos + 1]? = some ⟨VTK_TRIANGLE, [a, c, d]⟩
        ∧ st.2[pos + 1]? = some (j : Int)) :
    (deleteCell (st.1 ++ new) m).length = (st.2 ++ nids).length
      ∧ orig.length ≤ (deleteCell (st.1 ++ new) m).length
      ∧ (∀ i, m + 1 ≤ i → i < orig.length → (deleteCell (st.1 ++ new) m)[i]? = orig[i]?)
      ∧ (∀ i cell, i < m + 1 → (deleteCell (st.1 ++ new) m)[i]? = some cell →
          cell.type ≠ VTK_QUAD)
      ∧ (∀ i cell, orig.length ≤ i → (deleteCell (st.1 ++ new) m)[i]? = some cell →
          cell.type = VTK_TRIANGLE)
      ∧ (∀ j a b c d, j < m → orig[j]? = some ⟨VTK_QUAD, [a, b, c, d]⟩ →
          ∃ pos, orig.length ≤ pos
            ∧ (deleteCell (st.1 ++ new) m)[pos]? = some ⟨VTK_TRIANGLE, [a, b, c]⟩
            ∧ (st.2 ++ nids)[pos]? = some (j : Int)
            ∧ (deleteCell (st.1 ++ new) m)[pos + 1]? = some ⟨VTK_TRIANGLE, [a, c, d]⟩
            ∧ (st.2 ++ nids)[pos + 1]? = some (j : Int)) := by
  have hmlen : m < (st.1 ++ new).length := by
    rw [List.length_append]; omega
  refine ⟨?_, ?_, ?_, ?_, ?_, ?_⟩
  · simp [deleteCell, h1, hlen]
  · simp [deleteCell]; omega
  · intro i hi1 hi2
    rw [deleteCell_getElem?, if_neg (by omega), List.getElem?_append_left (by omega)]
    exact h3 i (by omega) hi2
  · intro i cell hi hcell
    rw [deleteCell_getElem?] at hcell
    split_ifs at hcell with hc
    · simp only [Option.some.injEq] at hcell
      subst hcell
      exact (by decide : VTK_EMPTY_CELL ≠ VTK_QUAD)
    · rw [List.getElem?_append_left (by omega)] at hcell
      exact h4 i cell (by omega) hcell
  · intro i cell hi hcell
    rw [deleteCell_getElem?, if_neg (by omega)] at hcell
    by_cases hlt : i < st.1.length
    · rw [List.getElem?_append_left hlt] at hcell
      exact h5 i cell hi hcell
    · rw [List.getElem?_append_right (by omega)] at hcell
      exact hnew cell (List.mem_iff_getElem?.mpr ⟨_, hcell⟩)
  · intro j a b c d hj hq
    obtain ⟨pos, p1, p2, p3, p4, p5⟩ := h6 j a b c d hj hq
    have l1 : pos + 1 < st.1.length := by
      obtain ⟨hlt, _⟩ := List.getElem?_eq_some.mp p4
      exact hlt
    refine ⟨pos, p1, ?_, ?_, ?_, ?_⟩
    · rw [deleteCell_getElem?, if_neg (by omega), List.getElem?_append_left (by omega)]
      exact p2
    · rw [List.getElem?_append_left (by omega)]
      exact p3
    · rw [deleteCell_getElem?, if_neg (by omega), List.getElem?_append_left (by omega)]
      exact p4
    · rw [List.getElem?_append_left (by omega)]
      exact p5

theorem prepareCell_inv (orig : List Cell) (m : Nat) (hm : m < orig.length)
    (st : List Cell × List Int)
    (h1 : st.1.length = st.2.length) (h2 : orig.length ≤ st.1.length)
    (h3 : ∀ i, m ≤ i → i < orig.length → st.1[i]? = orig[i]?)
    (h4 : ∀ i cell, i < m → st.1[i]? = some cell → cell.type ≠ VTK_QUAD)
    (h5 : ∀ i cell, orig.length ≤ i → st.1[i]? = some cell → cell.type = VTK_TRIANGLE)
    (h6 : ∀ j a b c d, j < m → orig[j]? = some ⟨VTK_QUAD, [a, b, c, d]⟩ →
      ∃ pos, orig.length ≤ pos ∧ st.1[pos]? = some ⟨VTK_TRIANGLE, [a, b, c]⟩
        ∧ st.2[pos]? = some (j : Int) ∧ st.1[pos + 1]? = some ⟨VTK_TRIANGLE, [a, c, d]⟩
        ∧ st.2[pos + 1]? = some (j : Int)) :
    (prepareCell st m).1.length = (prepareCell st m).2.length
      ∧ orig.length ≤ (prepareCell st m).1.length
      ∧ (∀ i, m + 1 ≤ i → i < orig.length → (prepareCell st m).1[i]? = orig[i]?)
      ∧ (∀ i cell, i < m + 1 → (prepareCell st m).1[i]? = some cell → cell.type ≠ VTK_QUAD)
      ∧ (∀ i cell, orig.length ≤ i → (prepareCell st m).1[i]? = some cell →
          cell.type = VTK_TRIANGLE)
      ∧ (∀ j a b c d, j < m + 1 → orig[j]? = some ⟨VTK_QUAD, [a, b, c, d]⟩ →
          ∃ pos, orig.length ≤ pos
            ∧ (prepareCell st m).1[pos]? = some ⟨VTK_TRIANGLE, [a, b, c]⟩
            ∧ (prepareCell st m).2[pos]? = some (j : Int)
            ∧ (prepareCell st m).1[pos + 1]? = some ⟨VTK_TRIANGLE, [a, c, d]⟩
            ∧ (prepareCell st m).2[pos + 1]? = some (j : Int)) := by
  have hcur : st.1[m]? = orig[m]? := h3 m (le_refl _) hm
  have hmst : m < st.1.length := by omega
  have hget : st.1.getD m ⟨VTK_EMPTY_CELL, []⟩ = orig[m] := by
    rw [List.getD_eq_getElem?_getD, hcur, List.getElem?_eq_getElem hm]
    rfl
  have notquad : orig[m].type ≠ VTK_QUAD → ∀ j a b c d, j < m + 1 →
      orig[j]? = some ⟨VTK_QUAD, [a, b, c, d]⟩ → j < m := by
    intro hq j a b c d hj hjq
    rcases Nat.lt_succ_iff_lt_or_eq.mp hj with h | h
    · exact h
    · subst h
      rw [List.getElem?_eq_getElem hm] at hjq
      simp only [Option.some.injEq] at hjq
      rw [hjq] at hq
      exact absurd rfl hq
  unfold prepareCell
  dsimp only
  rw [hget]
  by_cases hq : orig[m].type = VTK_QUAD
  · rw [if_pos hq]
    dsimp only
    obtain ⟨g1, g2, g3, g4, g5, g6⟩ := appendDelete_inv orig m hm st
      [⟨VTK_TRIANGLE, [polyAt orig[m].pts 0, polyAt orig[m].pts 1, polyAt orig[m].pts 2]⟩,
        ⟨VTK_TRIANGLE, [polyAt orig[m].pts 0, polyAt orig[m].pts 2, polyAt orig[m].pts 3]⟩]
      [(m : Int), (m : Int)] (by simp) rfl h1 h2 h3 h4 h5 h6
    refine ⟨g1, g2, g3, g4, g5, ?_⟩
    intro j a b c d hj hjq
    by_cases hjm : j = m
    · subst hjm
      rw [List.getElem?_eq_getElem hm] at hjq
      simp only [Option.some.injEq] at hjq
      refine ⟨st.1.length, h2, ?_, ?_, ?_, ?_⟩
      · rw [deleteCell_getElem?, if_neg (by omega), List.getElem?_append_right (le_refl _)]
        simp [hjq, polyAt]
      · rw [List.getElem?_append_right (by omega)]
        simp [h1]
      · rw [deleteCell_getElem?, if_neg (by omega), List.getElem?_append_right (by omega)]
        simp [hjq, polyAt]
      · rw [List.getElem?_append_right (by omega)]
        simp [h1]
    · exact g6 j a b c d (by omega) hjq
  · rw [if_neg hq]
    by_cases hs : orig[m].type = VTK_TRIANGLE_STRIP
    · rw [if_pos hs]
      dsimp only
      obtain ⟨g1, g2, g3, g4, g5, g6⟩ := appendDelete_inv orig m hm st
        (((DecomposeStrip orig[m].pts).filter fun t =>
          polyAt t 0 ≠ polyAt t 1 ∧ polyAt t 1 ≠ polyAt t 2 ∧ polyAt t 2 ≠ polyAt t 0).map
            fun t => ⟨VTK_TRIANGLE, t⟩)
        (((DecomposeStrip orig[m].pts).filter fun t =>
          polyAt t 0 ≠ polyAt t 1 ∧ polyAt t 1 ≠ polyAt t 2 ∧ polyAt t 2 ≠ polyAt t 0).map
            fun _ => (m : Int))
        (by
          intro c hc
          obtain ⟨t, _, rfl⟩ := List.mem_map.mp hc
          rfl)
        (by simp) h1 h2 h3 h4 h5 h6
      exact ⟨g1, g2, g3, g4, g5, fun j a b c d hj hjq =>
        g6 j a b c d (notquad hq j a b c d hj hjq) hjq⟩
    · rw [if_neg hs]
      by_cases ho : orig[m].type ≠ VTK_TRIANGLE ∧ orig[m].type ≠ VTK_POLYGON
      · rw [if_pos ho]
        dsimp only
        obtain ⟨g1, g2, g3, g4, g5, g6⟩ := appendDelete_inv orig m hm st [] []
          (by simp) rfl h1 h2 h3 h4 h5 h6
        simp only [List.append_nil] at g1 g2 g3 g4 g5 g6
        exact ⟨g1, g2, g3, g4, g5, fun j a b c d hj hjq =>
          g6 j a b c d (notquad hq j a b c d hj hjq) hjq⟩
      · rw [if_neg ho]
        refine ⟨h1, h2, fun i hi1 hi2 => h3 i (by omega) hi2, ?_, h5, fun j a b c d hj hjq =>
          h6 j a b c d (notquad hq j a b c d hj hjq) hjq⟩
        intro i cell hi hcell
        rcases Nat.lt_succ_iff_lt_or_eq.mp hi with h | h
        · exact h4 i cell h hcell
        · subst h
          rw [hcur, List.getElem?_eq_getElem hm] at hcell
          simp only [Option.some.injEq] at hcell
          subst hcell
          exact hq

theorem prepare_fold_inv (orig : List Cell) (m : Nat) (hm : m ≤ orig.length) :
    ((List.range m).foldl prepareCell
        (orig, initialCellIds orig)).1.length
      = ((List.range m).foldl prepareCell
        (orig, initialCellIds orig)).2.length
    ∧ orig.length ≤ ((List.range m).foldl prepareCell
        (orig, initialCellIds orig)).1.length
    ∧ (∀ i, m ≤ i → i < orig.length → ((List.range m).foldl prepareCell
        (orig, initialCellIds orig)).1[i]? = orig[i]?)
    ∧ (∀ i cell, i < m → ((List.range m).foldl prepareCell
        (orig, initialCellIds orig)).1[i]? = some cell →
          cell.type ≠ VTK_QUAD)
    ∧ (∀ i cell, orig.length ≤ i → ((List.range m).foldl prepareCell
        (orig, initialCellIds orig)).1[i]? = some cell →
          cell.type = VTK_TRIANGLE)
    ∧ (∀ j a b c d, j < m → orig[j]? = some ⟨VTK_QUAD, [a, b, c, d]⟩ →
        ∃ pos, orig.length ≤ pos
          ∧ ((List.range m).foldl prepareCell
              (orig, initialCellIds orig)).1[pos]?
            = some ⟨VTK_TRIANGLE, [a, b, c]⟩
          ∧ ((List.range m).foldl prepareCell
              (orig, initialCellIds orig)).2[pos]?
            = some (j : Int)
          ∧ ((List.range m).foldl prepareCell
              (orig, initialCellIds orig)).1[pos + 1]?
            = some ⟨VTK_TRIANGLE, [a, c, d]⟩
          ∧ ((List.range m).foldl prepareCell
              (orig, initialCellIds orig)).2[pos + 1]?
            = some (j : Int)) := by
  induction m with
  | zero =>
    refine ⟨by simp only [List.range_zero, List.foldl_nil, initialCellIds, List.length_map,
        List.length_range],
      by simp only [List.range_zero, List.foldl_nil, le_refl], fun i _ _ => rfl, fun i cell hi => absurd hi (Nat.not_lt_zero _),
      ?_, fun j a b c d hj => absurd hj (Nat.not_lt_zero _)⟩
    intro i cell hi hcell
    simp only [List.range_zero, List.foldl_nil] at hcell
    rw [List.getElem?_eq_none hi] at hcell
    cases hcell
  | succ m ih =>
    obtain ⟨h1, h2, h3, h4, h5, h6⟩ := ih (by omega)
    rw [List.range_succ, List.foldl_append]
    simp only [List.foldl_cons, List.foldl_nil]
    exact prepareCell_inv orig m (by omega) _ h1 h2 h3 h4 h5 h6

theorem removeDeletedCells_zip {α : Type} (cells : List Cell) (data : List α) :
    (removeDeletedCells cells data).1.zip (removeDeletedCells cells data).2
      = (cells.zip data).filter fun cd => cd.1.type ≠ VTK_EMPTY_CELL := by
  unfold removeDeletedCells
  exact List.zip_unzip _

theorem removeDeletedCells_cells {α : Type} (cells : List Cell) (data : List α)
    (c : Cell) (hc : c ∈ (removeDeletedCells cells data).1) :
    c ∈ cells := by
  unfold removeDeletedCells at hc
  simp only [List.unzip_fst, List.mem_map, List.mem_filter] at hc
  obtain ⟨cd, ⟨hcd, _⟩, rfl⟩ := hc
  exact (List.of_mem_zip hcd).1

section Theorems

variable {K : Type} [LinearOrderedField K]

/-- C10: for every quad cell with point ids `(a, b, c, d)` and input cell id `k`, the mesh
produced by `PreparePolyData` contains the triangles `(a, b, c)` and `(a, c, d)`, both with
origin id `k` in `OrigCellIds`, and contains no quad. -/
theorem PreparePolyData_splits_quads (pd : PolyData K) (edges : List (Int × Int)) (k : Nat)
    (a b c d : Int) (hk : pd.cells[k]? = some ⟨VTK_QUAD, [a, b, c, d]⟩) :
    ((⟨VTK_TRIANGLE, [a, b, c]⟩ : Cell), (k : Int))
        ∈ (PreparePolyData pd edges).1.cells.zip (PreparePolyData pd edges).1.origCellIds
      ∧ ((⟨VTK_TRIANGLE, [a, c, d]⟩ : Cell), (k : Int))
        ∈ (PreparePolyData pd edges).1.cells.zip (PreparePolyData pd edges).1.origCellIds
      ∧ ∀ cell ∈ (PreparePolyData pd edges).1.cells, cell.type ≠ VTK_QUAD := by
  obtain ⟨h1, h2, h3, h4, h5, h6⟩ := prepare_fold_inv pd.cells pd.cells.length (le_refl _)
  have hklt : k < pd.cells.length := (List.getElem?_eq_some.mp hk).1
  obtain ⟨pos, p1, p2, p3, p4, p5⟩ := h6 k a b c d hklt hk
  unfold PreparePolyData
  dsimp only
  rw [removeDeletedCells_zip]
  refine ⟨?_, ?_, ?_⟩
  · rw [List.mem_filter]
    refine ⟨?_, by simp [VTK_TRIANGLE, VTK_EMPTY_CELL]⟩
    exact List.mem_iff_getElem?.mpr ⟨pos, List.getElem?_zip_eq_some.mpr ⟨p2, p3⟩⟩
  · rw [List.mem_filter]
    refine ⟨?_, by simp [VTK_TRIANGLE, VTK_EMPTY_CELL]⟩
    exact List.mem_iff_getElem?.mpr ⟨pos + 1, List.getElem?_zip_eq_some.mpr ⟨p4, p5⟩⟩
  · intro cell hcell
    have hmem := removeDeletedCells_cells _ _ cell hcell
    obtain ⟨i, hi⟩ := List.mem_iff_getElem?.mp hmem
    by_cases hlt : i < pd.cells.length
    · exact h4 i cell hlt hi
    · rw [h5 i cell (by omega) hi]
      decide

end Theorems

/-- The quad `(0, 1, 2, 3)` with cell id 1 of `exQuad` becomes the triangles `(0, 1, 2)` and
`(0, 2, 3)` with origin id 1; the line cell is dropped. -/
theorem PreparePolyData_splits_quads_witness :
    (PreparePolyData exQuad []).1.cells
        = [⟨VTK_TRIANGLE, [0, 1, 4]⟩, ⟨VTK_TRIANGLE, [0, 1, 2]⟩, ⟨VTK_TRIANGLE, [0, 2, 3]⟩]
      ∧ (PreparePolyData exQuad []).1.origCellIds = [0, 1, 1]
      ∧ ((⟨VTK_TRIANGLE, [0, 1, 2]⟩ : Cell), ((1 : Nat) : Int))
          ∈ (PreparePolyData exQuad []).1.cells.zip (PreparePolyData exQuad []).1.origCellIds
      ∧ ((⟨VTK_TRIANGLE, [0, 2, 3]⟩ : Cell), ((1 : Nat) : Int))
          ∈ (PreparePolyData exQuad []).1.cells.zip (PreparePolyData exQuad []).1.origCellIds :=
  have h := PreparePolyData_splits_quads exQuad [] 1 0 1 2 3 (by decide!)
  ⟨by decide!, by decide!, h.1, h.2.1⟩

section Theorems

variable {K : Type} [LinearOrderedField K]

/-! ### PreparePolyData: the non-manifold edge set -/

theorem dist2_nonneg (a b : Vec3 K) : 0 ≤ dist2 a b := by
  simp only [dist2, Dot, Subtract]
  exact add_nonneg (add_nonneg (mul_self_nonneg _) (mul_self_nonneg _)) (mul_self_nonneg _)

theorem dist2_self (a : Vec3 K) : dist2 a a = 0 := by
  simp [dist2, Dot, Subtract]

theorem dist2_pos (a b : Vec3 K) (h : a ≠ b) : 0 < dist2 a b := by
  rcases lt_or_eq_of_le (dist2_nonneg a b) with hlt | heq
  · exact hlt
  · exfalso
    apply h
    simp only [dist2, Dot, Subtract] at heq
    have nx := mul_self_nonneg (a.x - b.x)
    have ny := mul_self_nonneg (a.y - b.y)
    have nz := mul_self_nonneg (a.z - b.z)
    have hx : (a.x - b.x) * (a.x - b.x) = 0 := le_antisymm (by linarith) nx
    have hy : (a.y - b.y) * (a.y - b.y) = 0 := le_antisymm (by linarith) ny
    have hz : (a.z - b.z) * (a.z - b.z) = 0 := le_antisymm (by linarith) nz
    have ex : a.x = b.x := sub_eq_zero.mp (mul_self_eq_zero.mp hx)
    have ey : a.y = b.y := sub_eq_zero.mp (mul_self_eq_zero.mp hy)
    have ez : a.z = b.z := sub_eq_zero.mp (mul_self_eq_zero.mp hz)
    cases a
    cases b
    simp only [Vec3.mk.injEq]
    exact ⟨ex, ey, ez⟩

theorem closestFrom_done (x : Vec3 K) (qs : List (Vec3 K)) (idx best : Nat) :
    closestFrom x qs idx best 0 = best := by
  induction qs generalizing idx with
  | nil => rfl
  | cons q qs ih =>
    unfold closestFrom
    rw [if_neg (not_lt.mpr (dist2_nonneg x q))]
    exact ih _

theorem closestFrom_found (x : Vec3 K) (pre post : List (Vec3 K)) (hpre : x ∉ pre)
    (idx best : Nat) (bestD : K) (hpos : 0 < bestD) :
    closestFrom x (pre ++ x :: post) idx best bestD = idx + pre.length := by
  induction pre generalizing idx best bestD with
  | nil =>
    simp only [List.nil_append, List.length_nil, Nat.add_zero]
    unfold closestFrom
    rw [dist2_self, if_pos hpos]
    exact closestFrom_done x post _ _
  | cons q pre ih =>
    have hq : x ≠ q := fun e => hpre (e ▸ List.mem_cons_self _ _)
    have hpre' : x ∉ pre := fun e => hpre (List.mem_cons_of_mem _ e)
    simp only [List.cons_append, List.length_cons]
    unfold closestFrom
    split_ifs
    · rw [ih hpre' _ _ _ (dist2_pos x q hq)]
      omega
    · rw [ih hpre' _ _ _ hpos]
      omega

theorem FindPoint_GetPoint (pd : PolyData K) (hnodup : pd.points.Nodup) (a : Int)
    (h0 : 0 ≤ a) (hlt : a < pd.points.length) : pd.FindPoint (pd.GetPoint a) = a := by
  have hn : a.toNat < pd.points.length := by omega
  have hx : pd.GetPoint a = pd.points[a.toNat] := by
    unfold PolyData.GetPoint
    rw [List.getD_eq_getElem _ _ hn]
  rw [hx]
  unfold PolyData.FindPoint
  generalize pd.points = pts at hnodup hn
  have hsplit : pts = pts.take a.toNat ++ pts[a.toNat] :: pts.drop (a.toNat + 1) := by
    rw [← List.drop_eq_getElem_cons hn, List.take_append_drop]
  have hnot : pts[a.toNat] ∉ pts.take a.toNat := by
    have h2 := hnodup
    rw [hsplit, List.nodup_middle, List.nodup_cons] at h2
    exact fun hmem => h2.1 (List.mem_append_left _ hmem)
  have hlen : (pts.take a.toNat).length = a.toNat := by
    rw [List.length_take]
    omega
  generalize pts[a.toNat] = x at hsplit hnot
  generalize pts.take a.toNat = pre at hsplit hnot hlen
  generalize pts.drop (a.toNat + 1) = post at hsplit
  subst hsplit
  cases pre with
  | nil =>
    simp only [List.nil_append]
    rw [dist2_self, closestFrom_done]
    simp only [List.length_nil] at hlen
    omega
  | cons q pre =>
    simp only [List.cons_append]
    have hq : x ≠ q := fun e => hnot (e ▸ List.mem_cons_self _ _)
    have hpre : x ∉ pre := fun e => hnot (List.mem_cons_of_mem _ e)
    rw [closestFrom_found x pre post hpre 1 0 _ (dist2_pos x q hq)]
    simp only [List.length_cons] at hlen
    omega

end Theorems

theorem mem_emplace_one (es : List (Int × Int)) (y x : Int × Int) :
    x ∈ (if y ∈ es then es else es ++ [y]) ↔ x ∈ es ∨ x = y := by
  split_ifs with h
  · constructor
    · exact fun hx => Or.inl hx
    · rintro (hx | hx)
      · exact hx
      · exact hx ▸ h
  · simp only [List.mem_append, List.mem_singleton]

theorem emplaceEdge_mem (es : List (Int × Int)) (a b : Int) (x : Int × Int) :
    x ∈ emplaceEdge es a b ↔ x ∈ es ∨ x = (a, b) ∨ x = (b, a) := by
  unfold emplaceEdge
  dsimp only
  rw [mem_emplace_one, mem_emplace_one, or_assoc]

theorem emplace_fold_mem {α : Type} (f : α → Int) (lines : List (α × α))
    (es : List (Int × Int)) (x : Int × Int) :
    x ∈ lines.foldl (fun es ab => emplaceEdge es (f ab.1) (f ab.2)) es
      ↔ x ∈ es ∨ ∃ ab ∈ lines, x = (f ab.1, f ab.2) ∨ x = (f ab.2, f ab.1) := by
  induction lines generalizing es with
  | nil => simp
  | cons l lines ih =>
    simp only [List.foldl_cons]
    rw [ih, emplaceEdge_mem]
    constructor
    · rintro ((h | h) | ⟨ab, hab, h⟩)
      · exact Or.inl h
      · exact Or.inr ⟨l, List.mem_cons_self _ _, h⟩
      · exact Or.inr ⟨ab, List.mem_cons_of_mem _ hab, h⟩
    · rintro (h | ⟨ab, hab, h⟩)
      · exact Or.inl (Or.inl h)
      · rcases List.mem_cons.mp hab with e | e
        · subst e
          exact Or.inl (Or.inr h)
        · exact Or.inr ⟨ab, e, h⟩

theorem usesEdge_symm (c : Cell) (u v : Int) : usesEdge c u v = usesEdge c v u := by
  unfold usesEdge
  exact Bool.or_comm _ _

theorem edgeUse_symm (cells : List Cell) (u v : Int) :
    edgeUse cells u v = edgeUse cells v u := by
  unfold edgeUse
  simp only [usesEdge_symm _ u v]

theorem edgeUse_pos (cells : List Cell) (u v : Int) (h : 0 < edgeUse cells u v) :
    ∃ c ∈ cells, (u, v) ∈ cellEdges c ∨ (v, u) ∈ cellEdges c := by
  unfold edgeUse at h
  obtain ⟨c, hc⟩ := List.exists_mem_of_length_pos h
  rw [List.mem_filter] at hc
  refine ⟨c, hc.1, ?_⟩
  have := hc.2
  simpa [usesEdge] using this

theorem cellEdges_mem_pts (c : Cell) (e : Int × Int) (h : e ∈ cellEdges c) :
    e.1 ∈ c.pts ∧ e.2 ∈ c.pts := by
  unfold cellEdges at h
  obtain ⟨i, hi, rfl⟩ := List.mem_map.mp h
  have hi' := List.mem_range.mp hi
  have hpos : 0 < c.pts.length := by omega
  have hj : (i + 1) % c.pts.length < c.pts.length := Nat.mod_lt _ hpos
  constructor
  · show polyAt c.pts (Int.ofNat i) ∈ c.pts
    unfold polyAt
    rw [show (Int.ofNat i).toNat = i from rfl, List.getD_eq_getElem _ _ hi']
    exact List.getElem_mem hi'
  · show polyAt c.pts (Int.ofNat ((i + 1) % c.pts.length)) ∈ c.pts
    unfold polyAt
    rw [show (Int.ofNat ((i + 1) % c.pts.length)).toNat = (i + 1) % c.pts.length from rfl,
      List.getD_eq_getElem _ _ hj]
    exact List.getElem_mem hj

/-! ### PreparePolyData: the cells of the prepared mesh in closed form -/

theorem getD_mid {α : Type} (A R : List α) (c d : α) : (A ++ c :: R).getD A.length d = c := by
  induction A with
  | nil => rfl
  | cons a A ih => simpa using ih

theorem set_mid {α : Type} (A R : List α) (c y : α) :
    (A ++ c :: R).set A.length y = A ++ y :: R := by
  induction A with
  | nil => rfl
  | cons a A ih => simp [ih]

theorem decomposed_kept (c : Cell) (h : c.type = VTK_TRIANGLE ∨ c.type = VTK_POLYGON) :
    decomposed c = [] := by
  unfold decomposed
  rcases h with h | h <;> simp [h, VTK_TRIANGLE, VTK_POLYGON, VTK_QUAD, VTK_TRIANGLE_STRIP]

theorem decomposed_type (c x : Cell) (h : x ∈ decomposed c) : x.type = VTK_TRIANGLE := by
  unfold decomposed at h
  split_ifs at h
  · simp at h
    rcases h with h | h <;> rw [h]
  · simp at h
    obtain ⟨t, -, rfl⟩ := h
    rfl
  · simp at h

theorem decomposed_source (c x : Cell) (h : x ∈ decomposed c) :
    c.type = VTK_QUAD ∨ c.type = VTK_TRIANGLE_STRIP := by
  unfold decomposed at h
  split_ifs at h with h1 h2
  · exact Or.inl h1
  · exact Or.inr h2
  · simp at h

theorem deleteCell_append (l X : List Cell) (m : Nat) (hm : m < l.length) :
    deleteCell (l ++ X) m =
      (l ++ X).set m { l.getD m ⟨VTK_EMPTY_CELL, []⟩ with type := VTK_EMPTY_CELL } := by
  unfold deleteCell
  rw [List.getD_append _ _ _ _ hm]

theorem set_getD_self {α : Type} (l : List α) (m : Nat) (d : α) : l.set m (l.getD m d) = l := by
  induction l generalizing m with
  | nil => rfl
  | cons a l ih =>
    cases m with
    | zero => rfl
    | succ m => simpa using ih m

/-- One pass of the loop body in terms of `decomposed` and `marked`. -/
theorem prepareCell_closed (st : List Cell × List Int) (m : Nat) (hm : m < st.1.length) :
    prepareCell st m =
      ((st.1 ++ decomposed (st.1.getD m ⟨VTK_EMPTY_CELL, []⟩)).set m
          (marked (st.1.getD m ⟨VTK_EMPTY_CELL, []⟩)),
        st.2 ++ (decomposed (st.1.getD m ⟨VTK_EMPTY_CELL, []⟩)).map fun _ => (m : Int)) := by
  unfold prepareCell
  generalize hc : st.1.getD m ⟨VTK_EMPTY_CELL, []⟩ = c
  by_cases h1 : c.type = VTK_QUAD
  · have hm1 : marked c = { c with type := VTK_EMPTY_CELL } := by
      simp [marked, h1, VTK_QUAD, VTK_TRIANGLE, VTK_POLYGON]
    simp only [h1, if_true, decomposed, hm1]
    rw [deleteCell_append _ _ _ hm, hc]
    rfl
  · by_cases h2 : c.type = VTK_TRIANGLE_STRIP
    · have hm1 : marked c = { c with type := VTK_EMPTY_CELL } := by
        simp [marked, h2, VTK_TRIANGLE_STRIP, VTK_TRIANGLE, VTK_POLYGON]
      have hd : decomposed c = ((DecomposeStrip c.pts).filter fun t =>
          polyAt t 0 ≠ polyAt t 1 ∧ polyAt t 1 ≠ polyAt t 2 ∧ polyAt t 2 ≠ polyAt t 0).map
          fun t => ⟨VTK_TRIANGLE, t⟩ := by
        unfold decomposed
        rw [if_neg h1, if_pos h2]
      rw [if_neg h1, if_pos h2, hd, hm1]
      simp only
      rw [deleteCell_append _ _ _ hm, hc, List.map_map]
      rfl
    · by_cases h3 : c.type = VTK_TRIANGLE ∨ c.type = VTK_POLYGON
      · have h3n : ¬ (c.type ≠ VTK_TRIANGLE ∧ c.type ≠ VTK_POLYGON) := by tauto
        simp only [h1, h2, h3n, if_false, decomposed, marked, h3, if_true, List.append_nil,
          List.map_nil]
        rw [← hc, set_getD_self]
      · have h3n : c.type ≠ VTK_TRIANGLE ∧ c.type ≠ VTK_POLYGON := by tauto
        have hd : decomposed c = [] := by
          unfold decomposed
          rw [if_neg h1, if_neg h2]
        have hmk : marked c = { c with type := VTK_EMPTY_CELL } := by
          unfold marked
          rw [if_neg h3]
        have := deleteCell_append st.1 [] m hm
        rw [List.append_nil, hc] at this
        rw [if_neg h1, if_neg h2, if_pos h3n, hd, hmk, List.append_nil, this]
        simp

theorem prepare_fold_closed (orig : List Cell) (m : Nat) (hm : m ≤ orig.length) :
    (List.range m).foldl prepareCell (orig, initialCellIds orig) =
      ((orig.take m).map marked ++ orig.drop m ++
          (List.range m).flatMap (fun k => decomposed (orig.getD k ⟨VTK_EMPTY_CELL, []⟩)),
        initialCellIds orig ++ (List.range m).flatMap (fun k =>
          (decomposed (orig.getD k ⟨VTK_EMPTY_CELL, []⟩)).map fun _ => (k : Int))) := by
  induction m with
  | zero => simp
  | succ m ih =>
    have hlt : m < orig.length := hm
    rw [List.range_succ, List.foldl_append, List.foldl_cons, List.foldl_nil, ih (Nat.le_of_lt hlt)]
    have hdrop : orig.drop m = orig[m] :: orig.drop (m + 1) := List.drop_eq_getElem_cons hlt
    have hlen : ((orig.take m).map marked).length = m := by
      simp [Nat.min_eq_left (Nat.le_of_lt hlt)]
    have hget : ((orig.take m).map marked ++ orig.drop m ++
        (List.range m).flatMap (fun k => decomposed (orig.getD k ⟨VTK_EMPTY_CELL, []⟩))).getD m
          ⟨VTK_EMPTY_CELL, []⟩ = orig[m] := by
      rw [hdrop, List.append_assoc, List.cons_append]
      have := getD_mid ((orig.take m).map marked) (orig.drop (m + 1) ++
        (List.range m).flatMap (fun k => decomposed (orig.getD k ⟨VTK_EMPTY_CELL, []⟩))) orig[m]
        ⟨VTK_EMPTY_CELL, []⟩
      rw [hlen] at this
      exact this
    have horig : orig.getD m ⟨VTK_EMPTY_CELL, []⟩ = orig[m] := by
      simp [List.getD_eq_getElem?_getD, List.getElem?_eq_getElem hlt]
    rw [prepareCell_closed _ _ (by simp; omega)]
    simp only [hget]
    rw [List.flatMap_append, List.flatMap_append, List.flatMap_singleton, List.flatMap_singleton, horig]
    refine Prod.ext ?_ ?_
    · simp only
      rw [hdrop, List.append_assoc, List.append_assoc, List.cons_append]
      have := set_mid ((orig.take m).map marked) (orig.drop (m + 1) ++
        ((List.range m).flatMap (fun k => decomposed (orig.getD k ⟨VTK_EMPTY_CELL, []⟩)) ++
          decomposed orig[m])) orig[m] (marked orig[m])
      rw [hlen] at this
      have ht : (orig.take (m + 1)).map marked = (orig.take m).map marked ++ [marked orig[m]] := by
        rw [List.take_succ, List.getElem?_eq_getElem hlt, List.map_append]
        rfl
      rw [this, ht]
      simp only [List.append_assoc, List.singleton_append]
      rfl
    · simp

theorem zip_const {α β : Type} (xs : List α) (b : β) :
    xs.zip (xs.map fun _ => b) = xs.map fun c => (c, b) := by
  induction xs with
  | nil => rfl
  | cons x xs ih => rw [List.map_cons, List.zip_cons_cons, ih, List.map_cons]

theorem zip_flatMap_const {α β : Type} (l : List Nat) (f : Nat → List α) (g : Nat → β) :
    (l.flatMap f).zip (l.flatMap fun k => (f k).map fun _ => g k) =
      l.flatMap fun k => (f k).map fun c => (c, g k) := by
  induction l with
  | nil => rfl
  | cons k l ih =>
    rw [List.flatMap_cons, List.flatMap_cons, List.flatMap_cons,
      List.zip_append (by simp), ih, zip_const]

theorem filter_marked {β : Type} (l : List Cell) (ids : List β) :
    ((l.map marked).zip ids).filter (fun cd => cd.1.type ≠ VTK_EMPTY_CELL) =
      (l.zip ids).filter fun ck => ck.1.type = VTK_TRIANGLE ∨ ck.1.type = VTK_POLYGON := by
  induction l generalizing ids with
  | nil => rfl
  | cons c l ih =>
    cases ids with
    | nil => rfl
    | cons b ids =>
      simp only [List.map_cons, List.zip_cons_cons, List.filter_cons, ih]
      by_cases h : c.type = VTK_TRIANGLE ∨ c.type = VTK_POLYGON
      · have hm : marked c = c := by
          unfold marked
          rw [if_pos h]
        have hne : c.type ≠ VTK_EMPTY_CELL := by
          rcases h with h | h <;> rw [h] <;> decide
        simp [hm, h, hne]
      · have hm : marked c = { c with type := VTK_EMPTY_CELL } := by
          unfold marked
          rw [if_neg h]
        simp [hm, h]

theorem newCells_zip (cells : List Cell) :
    ((List.range cells.length).flatMap
        (fun k => decomposed (cells.getD k ⟨VTK_EMPTY_CELL, []⟩))).zip
      ((List.range cells.length).flatMap fun k =>
        (decomposed (cells.getD k ⟨VTK_EMPTY_CELL, []⟩)).map fun _ => (k : Int)) =
    newCells cells :=
  zip_flatMap_const _ _ _

theorem newCells_type (cells : List Cell) (ck : Cell × Int) (h : ck ∈ newCells cells) :
    ck.1.type = VTK_TRIANGLE := by
  unfold newCells at h
  rw [List.mem_flatMap] at h
  obtain ⟨k, -, hk⟩ := h
  rw [List.mem_map] at hk
  obtain ⟨c, hc, rfl⟩ := hk
  exact decomposed_type _ _ hc

/-- The prepared mesh in closed form: the triangles and polygons of the input with their own
ids, followed by the triangles cut from the quads and strips with the ids of these. -/
theorem PreparePolyData_closed {K : Type} [LinearOrderedField K] (pd : PolyData K)
    (edges : List (Int × Int)) :
    (PreparePolyData pd edges).1.points = pd.points ∧
    (PreparePolyData pd edges).1.cells = (keptCells pd.cells ++ newCells pd.cells).map Prod.fst ∧
    (PreparePolyData pd edges).1.origCellIds =
      (keptCells pd.cells ++ newCells pd.cells).map Prod.snd := by
  have hfold := prepare_fold_closed pd.cells pd.cells.length (Nat.le_refl _)
  rw [List.take_length, List.drop_length, List.append_nil] at hfold
  have hzip : (removeDeletedCells
      ((List.range pd.cells.length).foldl prepareCell (pd.cells, initialCellIds pd.cells)).1
      ((List.range pd.cells.length).foldl prepareCell (pd.cells, initialCellIds pd.cells)).2) =
      ((keptCells pd.cells ++ newCells pd.cells).map Prod.fst,
        (keptCells pd.cells ++ newCells pd.cells).map Prod.snd) := by
    rw [hfold]
    unfold removeDeletedCells
    simp only
    rw [List.zip_append (by simp [initialCellIds]), List.filter_append, filter_marked,
      newCells_zip, List.unzip_eq_map]
    have hall : (newCells pd.cells).filter (fun cd => cd.1.type ≠ VTK_EMPTY_CELL) =
        newCells pd.cells := by
      rw [List.filter_eq_self]
      intro ck hck
      rw [newCells_type _ _ hck]
      decide
    rw [hall]
    rfl
  refine ⟨rfl, ?_, ?_⟩
  · show (removeDeletedCells _ _).1 = _
    rw [hzip]
  · show (removeDeletedCells _ _).2 = _
    rw [hzip]
/-! ### PreparePolyData: the output cells that come from one input cell -/

theorem zip_initialCellIds (l : List Cell) :
    l.zip (initialCellIds l) =
      (List.range l.length).map fun j => (l.getD j ⟨VTK_EMPTY_CELL, []⟩, (j : Int)) := by
  apply List.ext_getElem
  · simp [initialCellIds]
  · intro i h1 h2
    have hi : i < l.length := by
      simp [initialCellIds] at h1
      exact h1
    simp [initialCellIds, List.getD_eq_getElem?_getD, List.getElem?_eq_getElem hi]

theorem filter_map_flatMap {α β : Type} (r : List α) (g : α → β) (P : β → Bool) :
    (r.map g).filter P = r.flatMap fun j => if P (g j) then [g j] else [] := by
  induction r with
  | nil => rfl
  | cons a r ih =>
    rw [List.map_cons, List.filter_cons, List.flatMap_cons, ih]
    split <;> rfl

theorem keptCells_flatMap (l : List Cell) :
    keptCells l = (List.range l.length).flatMap fun j =>
      (if (l.getD j ⟨VTK_EMPTY_CELL, []⟩).type = VTK_TRIANGLE ∨
          (l.getD j ⟨VTK_EMPTY_CELL, []⟩).type = VTK_POLYGON
        then [l.getD j ⟨VTK_EMPTY_CELL, []⟩] else []).map fun c => (c, (j : Int)) := by
  unfold keptCells
  rw [zip_initialCellIds, filter_map_flatMap]
  congr 1
  funext j
  simp only [decide_eq_true_eq]
  split_ifs <;> rfl

theorem filter_flatMap_other {α : Type} (l : List Nat) (f : Nat → List α) (k : Nat)
    (hk : k ∉ l) :
    (l.flatMap fun j => (f j).map fun c => (c, (j : Int))).filter (fun ck => ck.2 = (k : Int)) =
      [] := by
  rw [List.filter_eq_nil_iff]
  intro ck hck
  rw [List.mem_flatMap] at hck
  obtain ⟨j, hj, hc⟩ := hck
  rw [List.mem_map] at hc
  obtain ⟨c, -, rfl⟩ := hc
  have : j ≠ k := fun h => hk (h ▸ hj)
  simpa using this

theorem filter_flatMap_index {α : Type} (l : List Nat) (hnd : l.Nodup) (f : Nat → List α)
    (k : Nat) (hk : k ∈ l) :
    (l.flatMap fun j => (f j).map fun c => (c, (j : Int))).filter (fun ck => ck.2 = (k : Int)) =
      (f k).map fun c => (c, (k : Int)) := by
  induction l with
  | nil => cases hk
  | cons a l ih =>
    rw [List.nodup_cons] at hnd
    rw [List.flatMap_cons, List.filter_append]
    by_cases hak : a = k
    · subst hak
      rw [filter_flatMap_other l f a hnd.1, List.append_nil, List.filter_eq_self]
      intro ck hck
      rw [List.mem_map] at hck
      obtain ⟨c, -, rfl⟩ := hck
      simp
    · have hk2 : k ∈ l := by
        rcases List.mem_cons.mp hk with h | h
        · exact absurd h.symm hak
        · exact h
      rw [ih hnd.2 hk2]
      have : ((f a).map fun c => (c, (a : Int))).filter (fun ck => ck.2 = (k : Int)) = [] := by
        rw [List.filter_eq_nil_iff]
        intro ck hck
        rw [List.mem_map] at hck
        obtain ⟨c, -, rfl⟩ := hck
        simpa using hak
      rw [this, List.nil_append]

theorem zip_fst_snd {α β : Type} (l : List (α × β)) :
    (l.map Prod.fst).zip (l.map Prod.snd) = l := by
  induction l with
  | nil => rfl
  | cons a l ih => rw [List.map_cons, List.map_cons, List.zip_cons_cons, ih]

theorem PreparePolyData_zip {K : Type} [LinearOrderedField K] (pd : PolyData K)
    (edges : List (Int × Int)) :
    (PreparePolyData pd edges).1.cells.zip (PreparePolyData pd edges).1.origCellIds =
      keptCells pd.cells ++ newCells pd.cells := by
  obtain ⟨-, h1, h2⟩ := PreparePolyData_closed pd edges
  rw [h1, h2, zip_fst_snd]

/-- The output cells with origin id `k` are the input cell `k` itself when it is a triangle
or a polygon, followed by the triangles cut from it. -/
theorem PreparePolyData_origin {K : Type} [LinearOrderedField K] (pd : PolyData K)
    (edges : List (Int × Int)) (k : Nat) (c : Cell) (hk : pd.cells[k]? = some c) :
    (((PreparePolyData pd edges).1.cells.zip (PreparePolyData pd edges).1.origCellIds).filter
        fun ck => ck.2 = (k : Int)) =
      ((if c.type = VTK_TRIANGLE ∨ c.type = VTK_POLYGON then [c] else []) ++ decomposed c).map
        fun x => (x, (k : Int)) := by
  have hlt : k < pd.cells.length := by
    rcases Nat.lt_or_ge k pd.cells.length with h | h
    · exact h
    · rw [List.getElem?_eq_none h] at hk
      cases hk
  have hc : pd.cells.getD k ⟨VTK_EMPTY_CELL, []⟩ = c := by
    simp [List.getD_eq_getElem?_getD, hk]
  rw [PreparePolyData_zip, List.filter_append, keptCells_flatMap]
  unfold newCells
  rw [filter_flatMap_index _ (List.nodup_range _) _ k (List.mem_range.mpr hlt),
    filter_flatMap_index _ (List.nodup_range _) _ k (List.mem_range.mpr hlt), hc, List.map_append]
theorem PreparePolyData_types {K : Type} [LinearOrderedField K] (pd : PolyData K)
    (edges : List (Int × Int)) (c : Cell) (hc : c ∈ (PreparePolyData pd edges).1.cells) :
    c.type = VTK_TRIANGLE ∨ c.type = VTK_POLYGON := by
  rw [(PreparePolyData_closed pd edges).2.1, List.mem_map] at hc
  obtain ⟨ck, hck, rfl⟩ := hc
  rcases List.mem_append.mp hck with h | h
  · unfold keptCells at h
    simpa using (List.mem_filter.mp h).2
  · exact Or.inl (newCells_type _ _ h)

section Theorems

variable {K : Type} [LinearOrderedField K]

/-- C11: for every triangle-strip cell with input cell id `k`, the cells of the mesh produced
by `PreparePolyData` that carry the origin id `k` are exactly the triangles of the pairwise
decomposition of the strip whose three point ids are pairwise distinct, in the order of the
decomposition; no cell of the produced mesh is a strip, and a decomposed triangle with a
repeated point id is not among the cells with origin id `k`. -/
theorem PreparePolyData_decomposes_strips (pd : PolyData K) (edges : List (Int × Int))
    (k : Nat) (pts : List Int) (hk : pd.cells[k]? = some ⟨VTK_TRIANGLE_STRIP, pts⟩) :
    (((PreparePolyData pd edges).1.cells.zip (PreparePolyData pd edges).1.origCellIds).filter
        fun ck => ck.2 = (k : Int)) =
      ((DecomposeStrip pts).filter fun t =>
        polyAt t 0 ≠ polyAt t 1 ∧ polyAt t 1 ≠ polyAt t 2 ∧ polyAt t 2 ≠ polyAt t 0).map
        (fun t => ((⟨VTK_TRIANGLE, t⟩ : Cell), (k : Int)))
      ∧ (∀ c ∈ (PreparePolyData pd edges).1.cells, c.type ≠ VTK_TRIANGLE_STRIP)
      ∧ ∀ t ∈ DecomposeStrip pts,
          (polyAt t 0 = polyAt t 1 ∨ polyAt t 1 = polyAt t 2 ∨ polyAt t 2 = polyAt t 0) →
          ((⟨VTK_TRIANGLE, t⟩ : Cell), (k : Int)) ∉
            (PreparePolyData pd edges).1.cells.zip (PreparePolyData pd edges).1.origCellIds := by
  have hmain : (((PreparePolyData pd edges).1.cells.zip
      (PreparePolyData pd edges).1.origCellIds).filter fun ck => ck.2 = (k : Int)) =
      ((DecomposeStrip pts).filter fun t =>
        polyAt t 0 ≠ polyAt t 1 ∧ polyAt t 1 ≠ polyAt t 2 ∧ polyAt t 2 ≠ polyAt t 0).map
        (fun t => ((⟨VTK_TRIANGLE, t⟩ : Cell), (k : Int))) := by
    rw [PreparePolyData_origin pd edges k _ hk]
    have hd : decomposed ⟨VTK_TRIANGLE_STRIP, pts⟩ = ((DecomposeStrip pts).filter fun t =>
        polyAt t 0 ≠ polyAt t 1 ∧ polyAt t 1 ≠ polyAt t 2 ∧ polyAt t 2 ≠ polyAt t 0).map
        fun t => ⟨VTK_TRIANGLE, t⟩ := by
      unfold decomposed
      rw [if_neg (show ¬ VTK_TRIANGLE_STRIP = VTK_QUAD by decide), if_pos rfl]
    rw [hd, if_neg (show ¬ (VTK_TRIANGLE_STRIP = VTK_TRIANGLE ∨
      VTK_TRIANGLE_STRIP = VTK_POLYGON) by decide), List.nil_append, List.map_map]
    rfl
  refine ⟨hmain, ?_, ?_⟩
  · intro c hc
    rcases PreparePolyData_types pd edges c hc with h | h <;> rw [h] <;> decide
  · intro t _ hrep hmem
    have hf : ((⟨VTK_TRIANGLE, t⟩ : Cell), (k : Int)) ∈
        (((PreparePolyData pd edges).1.cells.zip (PreparePolyData pd edges).1.origCellIds).filter
          fun ck => ck.2 = (k : Int)) := by
      rw [List.mem_filter]
      exact ⟨hmem, by simp⟩
    rw [hmain, List.mem_map] at hf
    obtain ⟨t2, ht2, heq⟩ := hf
    have ht : t2 = t := by
      have := congrArg (fun x => x.1.pts) heq
      exact this
    subst ht
    have hcond := (List.mem_filter.mp ht2).2
    simp only [ne_eq, decide_eq_true_eq] at hcond
    tauto

/-- C12: every cell of the mesh produced by `PreparePolyData` is a triangle or a polygon;
every input triangle or polygon is the one cell of the produced mesh with its own input cell
id as origin id, with its vertex list unchanged; no cell of the produced mesh has the id of an
input cell of any other type than triangle, polygon, quad and strip as its origin id. -/
theorem PreparePolyData_keeps_triangles_and_polygons (pd : PolyData K)
    (edges : List (Int × Int)) :
    (∀ c ∈ (PreparePolyData pd edges).1.cells, c.type = VTK_TRIANGLE ∨ c.type = VTK_POLYGON)
      ∧ (PreparePolyData pd edges).1.cells.length = (PreparePolyData pd edges).1.origCellIds.length
      ∧ (∀ (k : Nat) (c : Cell), pd.cells[k]? = some c →
          c.type = VTK_TRIANGLE ∨ c.type = VTK_POLYGON →
          (((PreparePolyData pd edges).1.cells.zip (PreparePolyData pd edges).1.origCellIds).filter
            fun ck => ck.2 = (k : Int)) = [(c, (k : Int))])
      ∧ ∀ (k : Nat) (c : Cell), pd.cells[k]? = some c →
          c.type ≠ VTK_TRIANGLE → c.type ≠ VTK_POLYGON → c.type ≠ VTK_QUAD →
          c.type ≠ VTK_TRIANGLE_STRIP →
          (((PreparePolyData pd edges).1.cells.zip (PreparePolyData pd edges).1.origCellIds).filter
            fun ck => ck.2 = (k : Int)) = [] := by
  refine ⟨PreparePolyData_types pd edges, ?_, ?_, ?_⟩
  · obtain ⟨-, h1, h2⟩ := PreparePolyData_closed pd edges
    rw [h1, h2, List.length_map, List.length_map]
  · intro k c hk hc
    rw [PreparePolyData_origin pd edges k c hk, if_pos hc, decomposed_kept c hc]
    rfl
  · intro k c hk h1 h2 h3 h4
    have hd : decomposed c = [] := by
      unfold decomposed
      rw [if_neg h3, if_neg h4]
    rw [PreparePolyData_origin pd edges k c hk, if_neg (by tauto), hd]
    rfl

end Theorems

/-- The strip `(0, 1, 2, 3, 3, 4)` with cell id 0 of `exMixed` becomes the triangles `(0, 1, 2)`
and `(2, 1, 3)` with origin id 0; the triangles `(2, 3, 3)` and `(3, 3, 4)` of its
decomposition are discarded. -/
theorem PreparePolyData_decomposes_strips_witness :
    exMixed.cells[0]? = some ⟨VTK_TRIANGLE_STRIP, [0, 1, 2, 3, 3, 4]⟩
      ∧ DecomposeStrip [0, 1, 2, 3, 3, 4] = [[0, 1, 2], [2, 1, 3], [2, 3, 3], [3, 3, 4]]
      ∧ (((PreparePolyData exMixed []).1.cells.zip (PreparePolyData exMixed []).1.origCellIds).filter
          fun ck => ck.2 = ((0 : Nat) : Int)) =
        ((DecomposeStrip [0, 1, 2, 3, 3, 4]).filter fun t =>
          polyAt t 0 ≠ polyAt t 1 ∧ polyAt t 1 ≠ polyAt t 2 ∧ polyAt t 2 ≠ polyAt t 0).map
          (fun t => ((⟨VTK_TRIANGLE, t⟩ : Cell), ((0 : Nat) : Int)))
      ∧ (PreparePolyData exMixed []).1.cells =
          [⟨VTK_POLYGON, [0, 1, 3, 2]⟩, ⟨VTK_TRIANGLE, [1, 4, 3]⟩, ⟨VTK_TRIANGLE, [0, 1, 2]⟩,
            ⟨VTK_TRIANGLE, [2, 1, 3]⟩]
      ∧ (PreparePolyData exMixed []).1.origCellIds = [2, 3, 0, 0] :=
  ⟨by decide, by decide,
    (PreparePolyData_decomposes_strips exMixed [] 0 [0, 1, 2, 3, 3, 4] (by decide)).1,
    by decide!, by decide!⟩

/-- In `exMixed` the polygon with cell id 2 is the one produced cell with origin id 2 and the
line cell with cell id 1 leaves no cell. -/
theorem PreparePolyData_keeps_triangles_and_polygons_witness :
    exMixed.cells[2]? = some ⟨VTK_POLYGON, [0, 1, 3, 2]⟩
      ∧ exMixed.cells[1]? = some ⟨VTK_LINE, [0, 1]⟩
      ∧ (((PreparePolyData exMixed []).1.cells.zip (PreparePolyData exMixed []).1.origCellIds).filter
          fun ck => ck.2 = ((2 : Nat) : Int)) = [(⟨VTK_POLYGON, [0, 1, 3, 2]⟩, ((2 : Nat) : Int))]
      ∧ (((PreparePolyData exMixed []).1.cells.zip (PreparePolyData exMixed []).1.origCellIds).filter
          fun ck => ck.2 = ((1 : Nat) : Int)) = [] :=
  ⟨by decide, by decide,
    (PreparePolyData_keeps_triangles_and_polygons exMixed []).2.2.1 2
      ⟨VTK_POLYGON, [0, 1, 3, 2]⟩ (by decide) (Or.inr rfl),
    (PreparePolyData_keeps_triangles_and_polygons exMixed []).2.2.2 1 ⟨VTK_LINE, [0, 1]⟩
      (by decide)
      (by decide) (by decide) (by decide) (by decide)⟩
/-! ### PreparePolyData on a prepared mesh -/

theorem flatMap_nil_of {α β : Type} (l : List α) (f : α → List β) (h : ∀ a ∈ l, f a = []) :
    l.flatMap f = [] := by
  induction l with
  | nil => rfl
  | cons a l ih =>
    rw [List.flatMap_cons, h a (List.mem_cons_self _ _),
      ih fun b hb => h b (List.mem_cons_of_mem _ hb)]
    rfl

theorem getD_mem_of_lt {α : Type} (l : List α) (k : Nat) (d : α) (h : k < l.length) :
    l.getD k d ∈ l := by
  rw [List.getD_eq_getElem?_getD, List.getElem?_eq_getElem h]
  exact List.getElem_mem h

/-- On a mesh of triangles and polygons `PreparePolyData` keeps the points and the cells and
numbers the cells by their own ids. -/
theorem PreparePolyData_prepared {K : Type} [LinearOrderedField K] (q : PolyData K)
    (edges : List (Int × Int))
    (hq : ∀ c ∈ q.cells, c.type = VTK_TRIANGLE ∨ c.type = VTK_POLYGON) :
    (PreparePolyData q edges).1.points = q.points ∧
    (PreparePolyData q edges).1.cells = q.cells ∧
    (PreparePolyData q edges).1.origCellIds = initialCellIds q.cells := by
  obtain ⟨h0, h1, h2⟩ := PreparePolyData_closed q edges
  have hnew : newCells q.cells = [] := by
    unfold newCells
    apply flatMap_nil_of
    intro k hk
    rw [decomposed_kept _ (hq _ (getD_mem_of_lt _ _ _ (List.mem_range.mp hk)))]
    rfl
  have hkept : keptCells q.cells = q.cells.zip (initialCellIds q.cells) := by
    unfold keptCells
    rw [List.filter_eq_self]
    intro ck hck
    have := hq ck.1 (List.of_mem_zip hck).1
    simpa using this
  have hlen : q.cells.length = (initialCellIds q.cells).length := by
    simp [initialCellIds]
  refine ⟨h0, ?_, ?_⟩
  · rw [h1, hnew, List.append_nil, hkept, List.map_fst_zip _ _ (Nat.le_of_eq hlen)]
  · rw [h2, hnew, List.append_nil, hkept, List.map_snd_zip _ _ (Nat.le_of_eq hlen.symm)]

/-- The edge set computed by `PreparePolyData` is read off the points and cells of the
prepared mesh. -/
theorem edges_congr {K : Type} [LinearOrderedField K] (p q : PolyData K)
    (hp : p.points = q.points) (hc : p.cells = q.cells) (edges : List (Int × Int)) :
    (nonManifoldFeatureEdges p).foldl
        (fun es ab => emplaceEdge es (p.FindPoint ab.1) (p.FindPoint ab.2)) edges =
      (nonManifoldFeatureEdges q).foldl
        (fun es ab => emplaceEdge es (q.FindPoint ab.1) (q.FindPoint ab.2)) edges := by
  have h1 : nonManifoldFeatureEdges p = nonManifoldFeatureEdges q := by
    unfold nonManifoldFeatureEdges PolyData.GetPoint PolyData.GetCellEdgeNeighbors
    rw [hp, hc]
  have h2 : ∀ x, p.FindPoint x = q.FindPoint x := by
    intro x
    unfold PolyData.FindPoint
    rw [hp]
  rw [h1]
  congr 1
  funext es ab
  rw [h2, h2]

theorem PreparePolyData_edges {K : Type} [LinearOrderedField K] (pd : PolyData K)
    (e : List (Int × Int)) :
    (PreparePolyData pd e).2 = (nonManifoldFeatureEdges (PreparePolyData pd e).1).foldl
      (fun es ab => emplaceEdge es ((PreparePolyData pd e).1.FindPoint ab.1)
        ((PreparePolyData pd e).1.FindPoint ab.2)) e := rfl

theorem PreparePolyData_mesh {K : Type} [LinearOrderedField K] (pd : PolyData K)
    (e e2 : List (Int × Int)) : (PreparePolyData pd e).1 = (PreparePolyData pd e2).1 := rfl

theorem emplaceEdge_noop (es : List (Int × Int)) (a b : Int) (h1 : (a, b) ∈ es)
    (h2 : (b, a) ∈ es) : emplaceEdge es a b = es := by
  unfold emplaceEdge
  simp only [h1, if_true, h2]

theorem emplace_fold_noop {α : Type} (f : α → Int) (lines : List (α × α))
    (es : List (Int × Int))
    (h : ∀ ab ∈ lines, (f ab.1, f ab.2) ∈ es ∧ (f ab.2, f ab.1) ∈ es) :
    lines.foldl (fun es ab => emplaceEdge es (f ab.1) (f ab.2)) es = es := by
  induction lines with
  | nil => rfl
  | cons l lines ih =>
    rw [List.foldl_cons, emplaceEdge_noop es _ _ (h l (List.mem_cons_self _ _)).1
      (h l (List.mem_cons_self _ _)).2]
    exact ih fun ab hab => h ab (List.mem_cons_of_mem _ hab)

section Theorems

variable {K : Type} [LinearOrderedField K]

/-- C13, amended: applying `PreparePolyData` to the mesh `p1` produced by `PreparePolyData`
returns the same points and the same faces, and the same non-manifold edge set, both when
the second call starts from the empty set and when it adds to the set of the first call; the
per-face origin ids of the second mesh are the cell ids `0, 1, ...` of `p1`, not the origin
ids stored in `p1`. -/
theorem PreparePolyData_twice (pd : PolyData K) (edges edges2 : List (Int × Int)) :
    (PreparePolyData (PreparePolyData pd edges).1 edges2).1.points
        = (PreparePolyData pd edges).1.points
      ∧ (PreparePolyData (PreparePolyData pd edges).1 edges2).1.cells
        = (PreparePolyData pd edges).1.cells
      ∧ (PreparePolyData (PreparePolyData pd edges).1 edges2).1.origCellIds
        = initialCellIds (PreparePolyData pd edges).1.cells
      ∧ (PreparePolyData (PreparePolyData pd edges).1 []).2 = (PreparePolyData pd []).2
      ∧ (PreparePolyData (PreparePolyData pd edges).1 (PreparePolyData pd edges).2).2
        = (PreparePolyData pd edges).2 := by
  obtain ⟨h0, h1, h2⟩ := PreparePolyData_prepared (PreparePolyData pd edges).1 edges2
    (PreparePolyData_types pd edges)
  have hedges : ∀ e : List (Int × Int), (PreparePolyData (PreparePolyData pd edges).1 e).2 =
      (nonManifoldFeatureEdges (PreparePolyData pd edges).1).foldl
        (fun es ab => emplaceEdge es ((PreparePolyData pd edges).1.FindPoint ab.1)
          ((PreparePolyData pd edges).1.FindPoint ab.2)) e := by
    intro e
    rw [PreparePolyData_edges]
    exact edges_congr (PreparePolyData (PreparePolyData pd edges).1 e).1
      (PreparePolyData pd edges).1
      (PreparePolyData_prepared _ e (PreparePolyData_types pd edges)).1
      (PreparePolyData_prepared _ e (PreparePolyData_types pd edges)).2.1 e
  refine ⟨h0, h1, h2, ?_, ?_⟩
  · rw [hedges, PreparePolyData_edges pd [], PreparePolyData_mesh pd edges []]
  · rw [hedges]
    nth_rewrite 2 [PreparePolyData_edges pd edges]
    nth_rewrite 1 [PreparePolyData_edges pd edges]
    apply emplace_fold_noop
    intro ab hab
    have hmem : ∀ x : Int × Int, x ∈ (nonManifoldFeatureEdges (PreparePolyData pd edges).1).foldl
        (fun es ab => emplaceEdge es ((PreparePolyData pd edges).1.FindPoint ab.1)
          ((PreparePolyData pd edges).1.FindPoint ab.2)) edges ↔ x ∈ edges ∨
        ∃ ab ∈ nonManifoldFeatureEdges (PreparePolyData pd edges).1,
          x = ((PreparePolyData pd edges).1.FindPoint ab.1,
              (PreparePolyData pd edges).1.FindPoint ab.2) ∨
            x = ((PreparePolyData pd edges).1.FindPoint ab.2,
              (PreparePolyData pd edges).1.FindPoint ab.1) :=
      fun x => emplace_fold_mem _ _ _ x
    exact ⟨(hmem _).mpr (Or.inr ⟨ab, hab, Or.inl rfl⟩),
      (hmem _).mpr (Or.inr ⟨ab, hab, Or.inr rfl⟩)⟩

end Theorems

/-- The origin ids change: `PreparePolyData` turns `exQuad` into three triangles with
the origin ids 0, 1, 1 (the quad with cell id 1 gives two triangles); applied to that mesh it
returns the same triangles with the origin ids 0, 1, 2. -/
theorem PreparePolyData_origin_ids_counterexample :
    (PreparePolyData exQuad []).1.cells
        = [⟨VTK_TRIANGLE, [0, 1, 4]⟩, ⟨VTK_TRIANGLE, [0, 1, 2]⟩, ⟨VTK_TRIANGLE, [0, 2, 3]⟩]
      ∧ (PreparePolyData exQuad []).1.origCellIds = [0, 1, 1]
      ∧ (PreparePolyData (PreparePolyData exQuad []).1 []).1.cells
        = [⟨VTK_TRIANGLE, [0, 1, 4]⟩, ⟨VTK_TRIANGLE, [0, 1, 2]⟩, ⟨VTK_TRIANGLE, [0, 2, 3]⟩]
      ∧ (PreparePolyData (PreparePolyData exQuad []).1 []).1.origCellIds = [0, 1, 2]
      ∧ (PreparePolyData (PreparePolyData exQuad []).1 []).1 ≠ (PreparePolyData exQuad []).1 := by
  decide!

/-- The second application of `PreparePolyData` to `exQuad` and to a mesh with a non-manifold
edge keeps the faces and the edge set. -/
theorem PreparePolyData_twice_witness :
    (PreparePolyData (PreparePolyData exQuad []).1 []).1.cells = (PreparePolyData exQuad []).1.cells
      ∧ (PreparePolyData (PreparePolyData exQuad []).1 []).1.origCellIds
        = initialCellIds (PreparePolyData exQuad []).1.cells
      ∧ (PreparePolyData (PreparePolyData exA []).1 []).2 = (PreparePolyData exA []).2
      ∧ (PreparePolyData exA []).2 = [(0, 1), (1, 0)] :=
  ⟨(PreparePolyData_twice exQuad [] []).2.1, (PreparePolyData_twice exQuad [] []).2.2.1,
    (PreparePolyData_twice exA [] []).2.2.2.1, by decide!⟩
section Theorems

variable {K : Type} [LinearOrderedField K]

/-! ### InterEdgeLine: the number of points and the parallel branch -/

/-- C14: for every edge and cutting line `InterEdgeLine` appends zero, one or two points:
none when the coplanarity measure `|det(r, e, eA - ptA)|` is at least `1e-4`; at most one
when `|r x e| > 1e-4`; none or exactly two when `|r x e| <= 1e-4`. -/
theorem InterEdgeLine_point_count (sqrt : K → K) (eA eB r ptA : Vec3 K) :
    (InterEdgeLine sqrt eA eB r ptA).length ≤ 2
      ∧ (1 / 10000 ≤ |Determinant3x3 r (edgeDir sqrt eA eB) (Subtract eA ptA)| →
          InterEdgeLine sqrt eA eB r ptA = [])
      ∧ (crossNorm sqrt eA eB r > 1 / 10000 → (InterEdgeLine sqrt eA eB r ptA).length ≤ 1)
      ∧ (crossNorm sqrt eA eB r ≤ 1 / 10000 →
          (InterEdgeLine sqrt eA eB r ptA).length = 0 ∨
            (InterEdgeLine sqrt eA eB r ptA).length = 2) := by
  unfold InterEdgeLine
  simp only [edgeDir, crossNorm]
  refine ⟨?_, ?_, ?_, ?_⟩
  · split_ifs <;> simp
  · intro h
    rw [if_neg (not_lt.mpr h)]
  · intro h
    split_ifs <;> simp
  · intro h
    have h2 := not_lt.mpr h
    split_ifs <;> simp

/-- C15: in the parallel branch of `InterEdgeLine` (coplanarity measure below `1e-4` and
`|r x e| <= 1e-4`), when the gap of one of the edge ends from the cutting line is below
`1e-4`, two points are emitted, the first with `t = (eA - ptA) . r` and end marker 0, the
second with `t = (eB - ptA) . r` and end marker 1, both with the coordinates `ptA + t r`;
when both gaps are at least `1e-4` nothing is emitted. -/
theorem InterEdgeLine_parallel_branch (sqrt : K → K) (eA eB r ptA : Vec3 K)
    (hw : |Determinant3x3 r (edgeDir sqrt eA eB) (Subtract eA ptA)| < 1 / 10000)
    (hn : crossNorm sqrt eA eB r ≤ 1 / 10000) :
    ((endGap sqrt eA r ptA < 1 / 10000 ∨ endGap sqrt eB r ptA < 1 / 10000) →
        InterEdgeLine sqrt eA eB r ptA =
          [InterPt.new (Dot (Subtract eA ptA) r) 0 (lineAt ptA r (Dot (Subtract eA ptA) r)),
            InterPt.new (Dot (Subtract eB ptA) r) 1 (lineAt ptA r (Dot (Subtract eB ptA) r))])
      ∧ ((1 / 10000 ≤ endGap sqrt eA r ptA ∧ 1 / 10000 ≤ endGap sqrt eB r ptA) →
        InterEdgeLine sqrt eA eB r ptA = []) := by
  unfold InterEdgeLine
  simp only [edgeDir, crossNorm, endGap] at hw hn ⊢
  have hn2 := not_lt.mpr hn
  constructor
  · intro h
    rw [if_pos hw, if_neg hn2, if_pos h]
  · intro h
    rw [if_pos hw, if_neg hn2, if_neg (by
      rw [not_or]
      exact ⟨not_lt.mpr h.1, not_lt.mpr h.2⟩)]

end Theorems

/-- The line `y = 0, z = 0` through the origin with direction `(1, 0, 0)`: the skew edge from
`(0, 0, 1)` to `(0, 1, 1)` gives no point, the crossing edge from `(2, -1, 0)` to `(2, 2, 0)`
gives one and the edge from `(1, 0, 0)` to `(3, 0, 0)` on the line gives two. -/
theorem InterEdgeLine_point_count_witness :
    InterEdgeLine qsqrt (⟨0, 0, 1⟩ : Vec3 ℚ) ⟨0, 1, 1⟩ ⟨1, 0, 0⟩ ⟨0, 0, 0⟩ = []
      ∧ (InterEdgeLine qsqrt (⟨2, -1, 0⟩ : Vec3 ℚ) ⟨2, 2, 0⟩ ⟨1, 0, 0⟩ ⟨0, 0, 0⟩).length ≤ 1
      ∧ InterEdgeLine qsqrt (⟨2, -1, 0⟩ : Vec3 ℚ) ⟨2, 2, 0⟩ ⟨1, 0, 0⟩ ⟨0, 0, 0⟩
        = [InterPt.new 2 NOTSET ⟨2, 0, 0⟩]
      ∧ ((InterEdgeLine qsqrt (⟨1, 0, 0⟩ : Vec3 ℚ) ⟨3, 0, 0⟩ ⟨1, 0, 0⟩ ⟨0, 0, 0⟩).length = 0 ∨
          (InterEdgeLine qsqrt (⟨1, 0, 0⟩ : Vec3 ℚ) ⟨3, 0, 0⟩ ⟨1, 0, 0⟩ ⟨0, 0, 0⟩).length = 2) :=
  ⟨(InterEdgeLine_point_count qsqrt (⟨0, 0, 1⟩ : Vec3 ℚ) ⟨0, 1, 1⟩ ⟨1, 0, 0⟩ ⟨0, 0, 0⟩).2.1
      (by decide!),
    (InterEdgeLine_point_count qsqrt (⟨2, -1, 0⟩ : Vec3 ℚ) ⟨2, 2, 0⟩ ⟨1, 0, 0⟩ ⟨0, 0, 0⟩).2.2.1
      (by decide!),
    by decide!,
    (InterEdgeLine_point_count qsqrt (⟨1, 0, 0⟩ : Vec3 ℚ) ⟨3, 0, 0⟩ ⟨1, 0, 0⟩ ⟨0, 0, 0⟩).2.2.2
      (by decide!)⟩

/-- The edge from `(1, 0, 0)` to `(3, 0, 0)` on the line through the origin with direction
`(1, 0, 0)` gives its two ends with `t = 1` and `t = 3`; the parallel edge from `(1, 1, 0)` to
`(3, 1, 0)` at distance 1 gives nothing. -/
theorem InterEdgeLine_parallel_branch_witness :
    InterEdgeLine qsqrt (⟨1, 0, 0⟩ : Vec3 ℚ) ⟨3, 0, 0⟩ ⟨1, 0, 0⟩ ⟨0, 0, 0⟩
        = [InterPt.new 1 0 ⟨1, 0, 0⟩, InterPt.new 3 1 ⟨3, 0, 0⟩]
      ∧ InterEdgeLine qsqrt (⟨1, 1, 0⟩ : Vec3 ℚ) ⟨3, 1, 0⟩ ⟨1, 0, 0⟩ ⟨0, 0, 0⟩ = [] :=
  ⟨((InterEdgeLine_parallel_branch qsqrt (⟨1, 0, 0⟩ : Vec3 ℚ) ⟨3, 0, 0⟩ ⟨1, 0, 0⟩ ⟨0, 0, 0⟩
      (by decide!) (by decide!)).1 (by decide!)).trans (by decide!),
    (InterEdgeLine_parallel_branch qsqrt (⟨1, 1, 0⟩ : Vec3 ℚ) ⟨3, 1, 0⟩ ⟨1, 0, 0⟩ ⟨0, 0, 0⟩
      (by decide!) (by decide!)).2 (by decide!)⟩
section Theorems

variable {K : Type} [LinearOrderedField K]

/-! ### Coplanar faces -/

/-- C16, amended: for two faces in a common supporting plane, whose normals are
proportional, processing the face pair is skipped before any edge is classified: `InterPolys`
finds no cutting line, `InterPolyLine` is called for neither face, and the filter is returned
unchanged, so that no contact segment is produced whether or not the faces overlap. -/
theorem InterPolys_coplanar_faces_skipped [FloorRing K] (sqrt : K → K)
    (merge : InterPt K → InterPt K → InterPt K)
    (computeNormal : List (Vec3 K) → List Int → Vec3 K) (self : Filter K) (idA idB : Int)
    (c : K)
    (hco : pairNormalB computeNormal self idB =
      ⟨c * (pairNormalA computeNormal self idA).x, c * (pairNormalA computeNormal self idA).y,
        c * (pairNormalA computeNormal self idA).z⟩) :
    pairLine sqrt computeNormal self idA idB = none
      ∧ pairIntersA sqrt computeNormal self idA idB = []
      ∧ pairIntersB sqrt computeNormal self idA idB = []
      ∧ InterPolys sqrt merge computeNormal self idA idB = some self := by
  have hcross : Cross (computeNormal self.pdA.points (self.pdA.GetCellPoints idA))
      (computeNormal self.pdB.points (self.pdB.GetCellPoints idB)) = ⟨0, 0, 0⟩ := by
    simp only [pairNormalA, pairNormalB] at hco
    rw [hco]
    simp only [Cross, Vec3.mk.injEq]
    refine ⟨by ring, by ring, by ring⟩
  have hline : pairLine sqrt computeNormal self idA idB = none := by
    unfold pairLine
    exact cuttingLine_parallel sqrt _ _ _ _ hcross
  refine ⟨hline, ?_, ?_, ?_⟩
  · unfold pairIntersA
    rw [hline]
  · unfold pairIntersB
    rw [hline]
  · unfold InterPolys
    simp only [cuttingLine_parallel sqrt _ _ _ _ hcross]

end Theorems

/-- The first triangle of `exA` and the triangle `exCoplanar` lie in the plane
`z = 0` and overlap; their sides on the x axis reach from 0 to 4 and from 1 to 5 and overlap
from 1 to 4. The pair is skipped: no cutting line, no intersection points and no contact
segment, instead of the segment between the two overlap end points. -/
theorem InterPolys_coplanar_counterexample :
    newellNormal qsqrt (prepared exA exCoplanar).pdA.points [0, 1, 2] = ⟨0, 0, 1⟩
      ∧ newellNormal qsqrt (prepared exA exCoplanar).pdB.points [0, 1, 2] = ⟨0, 0, 1⟩
      ∧ pairOffsetA (newellNormal qsqrt) (prepared exA exCoplanar) 0 = 0
      ∧ pairOffsetB (newellNormal qsqrt) (prepared exA exCoplanar) 0 = 0
      ∧ (InterEdgeLine qsqrt (⟨0, 0, 0⟩ : Vec3 ℚ) ⟨4, 0, 0⟩ ⟨1, 0, 0⟩ ⟨0, 0, 0⟩).map (fun p => p.t)
          = [0, 4]
      ∧ (InterEdgeLine qsqrt (⟨1, 0, 0⟩ : Vec3 ℚ) ⟨5, 0, 0⟩ ⟨1, 0, 0⟩ ⟨0, 0, 0⟩).map (fun p => p.t)
          = [1, 5]
      ∧ clipSpec (0 : ℚ) 4 1 5 = [(1, 4)]
      ∧ pairLine qsqrt (newellNormal qsqrt) (prepared exA exCoplanar) 0 0 = none
      ∧ InterPolys qsqrt Merge (newellNormal qsqrt) (prepared exA exCoplanar) 0 0
          = some (prepared exA exCoplanar)
      ∧ (prepared exA exCoplanar).contLines = []
      ∧ (prepared exA exCoplanar).contPts = [] := by
  refine ⟨by decide!, by decide!, by decide!, by decide!, by decide!, by decide!, by decide!,
    by decide!, by decide!, by decide!, by decide!⟩

/-- The coplanar triangles of `exA` and `exCoplanar` have the same normal and are skipped. -/
theorem InterPolys_coplanar_faces_skipped_witness :
    pairLine qsqrt (newellNormal qsqrt) (prepared exA exCoplanar) 0 0 = none
      ∧ pairIntersA qsqrt (newellNormal qsqrt) (prepared exA exCoplanar) 0 0 = []
      ∧ pairIntersB qsqrt (newellNormal qsqrt) (prepared exA exCoplanar) 0 0 = []
      ∧ InterPolys qsqrt Merge (newellNormal qsqrt) (prepared exA exCoplanar) 0 0
          = some (prepared exA exCoplanar) :=
  InterPolys_coplanar_faces_skipped qsqrt Merge (newellNormal qsqrt)
    (prepared exA exCoplanar) 0 0 1 (by decide!)
section Theorems

variable {K : Type} [LinearOrderedField K]

/-! ### OverlapLines with the sides exchanged -/

theorem OverlapLines_ranges (merge : InterPt K → InterPt K → InterPt K)
    (ht : ∀ a c, (merge a c).t = a.t) (pdA pdB : PolyData K)
    (A B : List (InterPt K)) (polyA polyB : List Int) (idA idB : Int)
    (hA : ∀ i, i < A.length / 2 → (ptAt A (2 * i)).t < (ptAt A (2 * i + 1)).t)
    (hB : ∀ j, j < B.length / 2 → (ptAt B (2 * j)).t < (ptAt B (2 * j + 1)).t)
    (st : OverlapState K) (h : OverlapLines merge pdA pdB A B polyA polyB idA idB = some st) :
    st.ols.map Overlap.range = clipAll A B := by
  unfold OverlapLines at h
  have := foldlM_option_out (overlapRow merge pdA pdB polyA polyB idA idB)
    (fun s => s.intersA.map InterPt.t = A.map InterPt.t
      ∧ s.intersB.map InterPt.t = B.map InterPt.t)
    (fun s => s.ols.map Overlap.range)
    (fun i => (List.range (B.length / 2)).flatMap fun j =>
      clipSpec (ptAt A (2 * i)).t (ptAt A (2 * i + 1)).t (ptAt B (2 * j)).t
        (ptAt B (2 * j + 1)).t)
    (List.range (A.length / 2))
    (fun s i s' hi hs hstep =>
      overlapRow_out merge ht pdA pdB A B polyA polyB idA idB hA hB s s' i hi hs hstep)
    ⟨A, B, []⟩ st ⟨rfl, rfl⟩ h
  simpa [clipAll] using this.2

theorem OverlapLines_returns (merge : InterPt K → InterPt K → InterPt K)
    (he : ∀ a c, (merge a c).edge = a.edge) (pdA pdB : PolyData K)
    (A B : List (InterPt K)) (polyA polyB : List Int) (idA idB : Int)
    (hnA : ∀ i, i < A.length / 2 →
      (GetNeig (ptAt A (2 * i)) (ptAt A (2 * i + 1)) pdA polyA idA).isSome)
    (hnB : ∀ j, j < B.length / 2 →
      (GetNeig (ptAt B (2 * j)) (ptAt B (2 * j + 1)) pdB polyB idB).isSome) :
    ∃ st, OverlapLines merge pdA pdB A B polyA polyB idA idB = some st := by
  unfold OverlapLines
  obtain ⟨st, hst, _⟩ := foldlM_option_some (overlapRow merge pdA pdB polyA polyB idA idB)
    (fun s => s.intersA.map InterPt.edge = A.map InterPt.edge
      ∧ s.intersB.map InterPt.edge = B.map InterPt.edge)
    (List.range (A.length / 2))
    (fun s i hi hs =>
      overlapRow_some merge he pdA pdB A B polyA polyB idA idB hnA hnB s i hi hs)
    ⟨A, B, []⟩ ⟨rfl, rfl⟩
  exact ⟨st, hst⟩

theorem clipSpec_comm (a0 a1 b0 b1 : K) : clipSpec a0 a1 b0 b1 = clipSpec b0 b1 a0 a1 := by
  unfold clipSpec
  rw [max_comm a0 b0, min_comm a1 b1]

theorem flatMap_swap_perm {α β γ : Type} (l1 : List α) (l2 : List β) (g : α → β → List γ) :
    (l1.flatMap fun a => l2.flatMap (g a)).Perm (l2.flatMap fun b => l1.flatMap fun a => g a b) := by
  induction l1 with
  | nil =>
    have : (l2.flatMap fun _ => ([] : List γ)) = [] := flatMap_nil_of _ _ fun _ _ => rfl
    simp only [List.flatMap_nil, this]
    exact List.Perm.refl _
  | cons a l1 ih =>
    simp only [List.flatMap_cons]
    exact (List.Perm.append_left _ ih).trans
      (List.flatMap_append_perm l2 (g a) fun b => l1.flatMap fun a => g a b)

theorem clipAll_swap (X Y : List (InterPt K)) : (clipAll X Y).Perm (clipAll Y X) := by
  have h : clipAll Y X = (List.range (Y.length / 2)).flatMap fun j =>
      (List.range (X.length / 2)).flatMap fun i =>
        clipSpec (ptAt X (2 * i)).t (ptAt X (2 * i + 1)).t (ptAt Y (2 * j)).t
          (ptAt Y (2 * j + 1)).t := by
    unfold clipAll
    congr 1
    funext j
    congr 1
    funext i
    exact clipSpec_comm _ _ _ _
  rw [h]
  exact flatMap_swap_perm _ _ _

/-- C19: exchanging the sides of `OverlapLines` gives the same parameter ranges. For interval
lists `X` and `Y` of even length whose intervals have start `<` end, the `(start t, end t)`
ranges of the segments of a run with `(A, B) = (X, Y)` are a permutation of the ranges of a
run with `(A, B) = (Y, X)`, so that both runs give the same set of ranges; `Merge` is any
function that keeps `t`. Both runs return when `Merge` keeps `edge` and every neighbour
lookup of an interval succeeds. -/
theorem OverlapLines_swap_sides (merge : InterPt K → InterPt K → InterPt K)
    (ht : ∀ a c, (merge a c).t = a.t) (pdX pdY : PolyData K)
    (X Y : List (InterPt K)) (polyX polyY : List Int) (idX idY : Int)
    (_hXe : X.length % 2 = 0) (_hYe : Y.length % 2 = 0)
    (hX : ∀ i, i < X.length / 2 → (ptAt X (2 * i)).t < (ptAt X (2 * i + 1)).t)
    (hY : ∀ j, j < Y.length / 2 → (ptAt Y (2 * j)).t < (ptAt Y (2 * j + 1)).t) :
    (∀ st1 st2, OverlapLines merge pdX pdY X Y polyX polyY idX idY = some st1 →
        OverlapLines merge pdY pdX Y X polyY polyX idY idX = some st2 →
        (st1.ols.map Overlap.range).Perm (st2.ols.map Overlap.range)
          ∧ ∀ rg, rg ∈ st1.ols.map Overlap.range ↔ rg ∈ st2.ols.map Overlap.range)
      ∧ ((∀ a c, (merge a c).edge = a.edge) →
          (∀ i, i < X.length / 2 →
            (GetNeig (ptAt X (2 * i)) (ptAt X (2 * i + 1)) pdX polyX idX).isSome) →
          (∀ j, j < Y.length / 2 →
            (GetNeig (ptAt Y (2 * j)) (ptAt Y (2 * j + 1)) pdY polyY idY).isSome) →
          (∃ st1, OverlapLines merge pdX pdY X Y polyX polyY idX idY = some st1)
            ∧ ∃ st2, OverlapLines merge pdY pdX Y X polyY polyX idY idX = some st2) := by
  constructor
  · intro st1 st2 h1 h2
    have hp : (st1.ols.map Overlap.range).Perm (st2.ols.map Overlap.range) := by
      rw [OverlapLines_ranges merge ht pdX pdY X Y polyX polyY idX idY hX hY st1 h1,
        OverlapLines_ranges merge ht pdY pdX Y X polyY polyX idY idX hY hX st2 h2]
      exact clipAll_swap X Y
    exact ⟨hp, fun rg => hp.mem_iff⟩
  · intro he hnX hnY
    exact ⟨OverlapLines_returns merge he pdX pdY X Y polyX polyY idX idY hnX hnY,
      OverlapLines_returns merge he pdY pdX Y X polyY polyX idY idX hnY hnX⟩

end Theorems

/-- The intervals of the first triangle of `exA` and of the triangle `exBy` on their cutting
line, `[-8/3, 0]` and `[-11/3, -1]`: both orders of the sides give the range `[-8/3, -1]`. -/
theorem OverlapLines_swap_sides_witness :
    ∃ st1 st2,
      OverlapLines Merge (prepared exA exBy).pdA (prepared exA exBy).pdB
          (exIntersA exA exBy) (exIntersB exA exBy) [0, 1, 2] [0, 1, 2] 0 0 = some st1
        ∧ OverlapLines Merge (prepared exA exBy).pdB (prepared exA exBy).pdA
          (exIntersB exA exBy) (exIntersA exA exBy) [0, 1, 2] [0, 1, 2] 0 0 = some st2
        ∧ (st1.ols.map Overlap.range).Perm (st2.ols.map Overlap.range)
        ∧ clipAll (exIntersA exA exBy) (exIntersB exA exBy) = [(-8 / 3, -1)]
        ∧ clipAll (exIntersB exA exBy) (exIntersA exA exBy) = [(-8 / 3, -1)] := by
  have h := OverlapLines_swap_sides Merge Merge_t (prepared exA exBy).pdA
    (prepared exA exBy).pdB (exIntersA exA exBy) (exIntersB exA exBy) [0, 1, 2] [0, 1, 2] 0 0
    (by decide!) (by decide!) (by decide!) (by decide!)
  obtain ⟨⟨st1, h1⟩, ⟨st2, h2⟩⟩ := h.2 Merge_edge (by decide!) (by decide!)
  exact ⟨st1, st2, h1, h2, (h.1 st1 st2 h1 h2).1, by decide!, by decide!⟩
section Theorems

variable {K : Type} [LinearOrderedField K]

/-! ### OverlapLines: the neighbour ids of the segments -/

theorem overlapPair_neig (merge : InterPt K → InterPt K → InterPt K)
    (pdB : PolyData K) (polyB : List Int) (idB neigA : Int) (ia ib : Nat)
    (st st' : OverlapState K)
    (h : overlapPair merge pdB polyB idB neigA ia ib st = some st') :
    st'.ols.map (fun o => (some o.neigA, some o.neigB)) =
      st.ols.map (fun o => (some o.neigA, some o.neigB)) ++
        if ((ptAt st.intersA ia).t ≤ (ptAt st.intersB ib).t
              ∧ (ptAt st.intersA (ia + 1)).t > (ptAt st.intersB ib).t)
            ∨ ((ptAt st.intersB ib).t ≤ (ptAt st.intersA ia).t
              ∧ (ptAt st.intersB (ib + 1)).t > (ptAt st.intersA ia).t) then
          [(some neigA, GetNeig (ptAt st.intersB ib) (ptAt st.intersB (ib + 1)) pdB polyB idB)]
        else [] := by
  unfold overlapPair at h
  dsimp only at h
  split at h
  · cases h
  · rename_i neigB hB
    rw [hB]
    split_ifs at h with h1 h2 h3 h4 <;> simp only [Option.some.injEq] at h <;> subst h <;>
      simp [*]

theorem overlapRow_neig (merge : InterPt K → InterPt K → InterPt K)
    (hg : ∀ a c, ((merge a c).t, (merge a c).edge) = (a.t, a.edge)) (pdA pdB : PolyData K)
    (A B : List (InterPt K)) (polyA polyB : List Int) (idA idB : Int)
    (st st' : OverlapState K) (i : Nat)
    (hinv : st.intersA.map (fun p => (p.t, p.edge)) = A.map (fun p => (p.t, p.edge))
      ∧ st.intersB.map (fun p => (p.t, p.edge)) = B.map (fun p => (p.t, p.edge)))
    (h : overlapRow merge pdA pdB polyA polyB idA idB st i = some st') :
    (st'.intersA.map (fun p => (p.t, p.edge)) = A.map (fun p => (p.t, p.edge))
        ∧ st'.intersB.map (fun p => (p.t, p.edge)) = B.map (fun p => (p.t, p.edge)))
      ∧ st'.ols.map (fun o => (some o.neigA, some o.neigB)) =
          st.ols.map (fun o => (some o.neigA, some o.neigB)) ++
            (List.range (B.length / 2)).flatMap fun j =>
              if ((ptAt A (2 * i)).t ≤ (ptAt B (2 * j)).t
                    ∧ (ptAt A (2 * i + 1)).t > (ptAt B (2 * j)).t)
                  ∨ ((ptAt B (2 * j)).t ≤ (ptAt A (2 * i)).t
                    ∧ (ptAt B (2 * j + 1)).t > (ptAt A (2 * i)).t) then
                [(GetNeig (ptAt A (2 * i)) (ptAt A (2 * i + 1)) pdA polyA idA,
                  GetNeig (ptAt B (2 * j)) (ptAt B (2 * j + 1)) pdB polyB idB)]
              else [] := by
  have hpt : ∀ (l l' : List (InterPt K)) (k : Nat),
      l.map (fun p => (p.t, p.edge)) = l'.map (fun p => (p.t, p.edge)) →
      (ptAt l k).t = (ptAt l' k).t ∧ (ptAt l k).edge = (ptAt l' k).edge := by
    intro l l' k hl
    have := ptAt_of_map (fun p : InterPt K => (p.t, p.edge)) l l' k hl
    exact ⟨congrArg Prod.fst this, congrArg Prod.snd this⟩
  unfold overlapRow at h
  split at h
  · cases h
  · rename_i neigA hnA
    have hnA2 : GetNeig (ptAt A (2 * i)) (ptAt A (2 * i + 1)) pdA polyA idA = some neigA := by
      rw [← hnA]
      exact GetNeig_congr _ _ _ _ pdA polyA idA (hpt _ _ _ hinv.1).2.symm
        (hpt _ _ _ hinv.1).2.symm
    have hlen : st.intersB.length = B.length := by
      have := congrArg List.length hinv.2
      simpa using this
    rw [hlen] at h
    rw [hnA2]
    refine foldlM_option_out
      (fun s j => overlapPair merge pdB polyB idB neigA (2 * i) (2 * j) s)
      (fun s => s.intersA.map (fun p => (p.t, p.edge)) = A.map (fun p => (p.t, p.edge))
        ∧ s.intersB.map (fun p => (p.t, p.edge)) = B.map (fun p => (p.t, p.edge)))
      (fun s => s.ols.map (fun o => (some o.neigA, some o.neigB))) _
      (List.range (B.length / 2)) ?_ st st' hinv h
    intro s j s' _ hs hstep
    obtain ⟨k1, k2⟩ := overlapPair_step merge (fun p : InterPt K => (p.t, p.edge)) hg pdB polyB
      idB neigA _ _ s s' hstep
    refine ⟨⟨k1.trans hs.1, k2.trans hs.2⟩, ?_⟩
    dsimp only at hstep ⊢
    rw [overlapPair_neig merge pdB polyB idB neigA _ _ s s' hstep,
      (hpt _ _ (2 * i) hs.1).1, (hpt _ _ (2 * i + 1) hs.1).1, (hpt _ _ (2 * j) hs.2).1,
      (hpt _ _ (2 * j + 1) hs.2).1,
      GetNeig_congr _ _ _ _ pdB polyB idB (hpt _ _ (2 * j) hs.2).2 (hpt _ _ (2 * j + 1) hs.2).2]

theorem GetNeig_some {K : Type} (pA pB : InterPt K) (pd : PolyData K) (poly : List Int)
    (polyId n : Int) (h : GetNeig pA pB pd poly polyId = some n) :
    ((pA.edge.1 = pB.edge.1 ∧ pA.edge.2 = pB.edge.2) →
        pd.GetCellEdgeNeighbors polyId (polyAt poly pA.edge.1) (polyAt poly pA.edge.2) = [n])
      ∧ (¬ (pA.edge.1 = pB.edge.1 ∧ pA.edge.2 = pB.edge.2) → n = NOTSET) := by
  unfold GetNeig at h
  constructor
  · intro he
    rw [if_pos he] at h
    dsimp only at h
    split_ifs at h with hl
    simp only [Option.some.injEq] at h
    generalize pd.GetCellEdgeNeighbors polyId (polyAt poly pA.edge.1) (polyAt poly pA.edge.2)
      = neigs at h hl
    match neigs, hl with
    | [x], _ =>
      simp at h
      rw [h]
  · intro hne
    rw [if_neg hne] at h
    simp only [Option.some.injEq] at h
    exact h.symm

theorem edgeNeighbors_single {K : Type} (pd : PolyData K) (cellId p1 p2 n : Int)
    (h : pd.GetCellEdgeNeighbors cellId p1 p2 = [n]) :
    n ≠ cellId ∧ n ∈ cellLinks pd.cells p1 ∧ n ∈ cellLinks pd.cells p2
      ∧ ∀ c, c ≠ cellId → c ∈ cellLinks pd.cells p1 → c ∈ cellLinks pd.cells p2 → c = n := by
  unfold PolyData.GetCellEdgeNeighbors at h
  have hmem : ∀ c, c ∈ (cellLinks pd.cells p1).filter
      (fun c => c ≠ cellId ∧ c ∈ cellLinks pd.cells p2) ↔ c = n := by
    intro c
    rw [h]
    simp
  have hn := (hmem n).mpr rfl
  rw [List.mem_filter] at hn
  simp only [ne_eq, decide_eq_true_eq] at hn
  refine ⟨hn.2.1, hn.1, hn.2.2, ?_⟩
  intro c hc h1 h2
  apply (hmem c).mp
  rw [List.mem_filter]
  simp only [ne_eq, decide_eq_true_eq]
  exact ⟨h1, hc, h2⟩

/-- The recorded neighbour ids as lookups: for every segment produced by `OverlapLines`, in
the order of the loops over the pairs of an interval of `A` and an interval of `B` that
overlap, the neighbour id recorded for side A is the result of the lookup `GetNeig` for the
two bounding points of the contributing interval of `A`, and likewise for side B. The lookup
gives the sentinel `NOTSET` when the two points do not carry the same edge (`edge[0]` and
`edge[1]`); when they do, it gives the one cell other than the face itself that holds both
points of the edge. `Merge` is any function that keeps `t` and `edge`. -/
theorem OverlapLines_neighbour_ids (merge : InterPt K → InterPt K → InterPt K)
    (ht : ∀ a c, (merge a c).t = a.t) (he : ∀ a c, (merge a c).edge = a.edge)
    (pdA pdB : PolyData K) (A B : List (InterPt K)) (polyA polyB : List Int) (idA idB : Int)
    (st : OverlapState K)
    (h : OverlapLines merge pdA pdB A B polyA polyB idA idB = some st) :
    st.ols.map (fun o => (some o.neigA, some o.neigB)) =
        (List.range (A.length / 2)).flatMap (fun i =>
          (List.range (B.length / 2)).flatMap fun j =>
            if ((ptAt A (2 * i)).t ≤ (ptAt B (2 * j)).t
                  ∧ (ptAt A (2 * i + 1)).t > (ptAt B (2 * j)).t)
                ∨ ((ptAt B (2 * j)).t ≤ (ptAt A (2 * i)).t
                  ∧ (ptAt B (2 * j + 1)).t > (ptAt A (2 * i)).t) then
              [(GetNeig (ptAt A (2 * i)) (ptAt A (2 * i + 1)) pdA polyA idA,
                GetNeig (ptAt B (2 * j)) (ptAt B (2 * j + 1)) pdB polyB idB)]
            else [])
      ∧ ∀ (pA pB : InterPt K) (pd : PolyData K) (poly : List Int) (polyId n : Int),
          GetNeig pA pB pd poly polyId = some n →
          ((pA.edge.1 = pB.edge.1 ∧ pA.edge.2 = pB.edge.2) →
              n ≠ polyId ∧ n ∈ cellLinks pd.cells (polyAt poly pA.edge.1)
                ∧ n ∈ cellLinks pd.cells (polyAt poly pA.edge.2)
                ∧ ∀ c, c ≠ polyId → c ∈ cellLinks pd.cells (polyAt poly pA.edge.1) →
                    c ∈ cellLinks pd.cells (polyAt poly pA.edge.2) → c = n)
            ∧ (¬ (pA.edge.1 = pB.edge.1 ∧ pA.edge.2 = pB.edge.2) → n = NOTSET) := by
  have hg : ∀ a c, ((merge a c).t, (merge a c).edge) = (a.t, a.edge) := by
    intro a c
    rw [ht, he]
  constructor
  · unfold OverlapLines at h
    have := foldlM_option_out (overlapRow merge pdA pdB polyA polyB idA idB)
      (fun s => s.intersA.map (fun p => (p.t, p.edge)) = A.map (fun p => (p.t, p.edge))
        ∧ s.intersB.map (fun p => (p.t, p.edge)) = B.map (fun p => (p.t, p.edge)))
      (fun s => s.ols.map (fun o => (some o.neigA, some o.neigB)))
      (fun i => (List.range (B.length / 2)).flatMap fun j =>
        if ((ptAt A (2 * i)).t ≤ (ptAt B (2 * j)).t
              ∧ (ptAt A (2 * i + 1)).t > (ptAt B (2 * j)).t)
            ∨ ((ptAt B (2 * j)).t ≤ (ptAt A (2 * i)).t
              ∧ (ptAt B (2 * j + 1)).t > (ptAt A (2 * i)).t) then
          [(GetNeig (ptAt A (2 * i)) (ptAt A (2 * i + 1)) pdA polyA idA,
            GetNeig (ptAt B (2 * j)) (ptAt B (2 * j + 1)) pdB polyB idB)]
        else [])
      (List.range (A.length / 2))
      (fun s i s' _ hs hstep =>
        overlapRow_neig merge hg pdA pdB A B polyA polyB idA idB s s' i hs hstep)
      ⟨A, B, []⟩ st ⟨rfl, rfl⟩ h
    simpa using this.2
  · intro pA pB pd poly polyId n hn
    obtain ⟨h1, h2⟩ := GetNeig_some pA pB pd poly polyId n hn
    exact ⟨fun hsame => edgeNeighbors_single pd polyId _ _ n (h1 hsame), h2⟩

end Theorems

/-- The first triangle of `exTwo`, whose edge `(0, 1)` lies on the cutting line with the
triangle `exBz`: both points of its interval carry the edge `(0, 1)`, and the one segment has
the other triangle of `exTwo`, cell 1, as neighbour on side A and the sentinel on side B,
where the two points lie on different edges. -/
theorem OverlapLines_neighbour_ids_witness :
    (exIntersA exTwo exBz).map (fun p => p.edge) = [(0, 1), (0, 1)]
      ∧ (exIntersB exTwo exBz).map (fun p => p.edge) = [(1, 2), (0, 1)]
      ∧ (prepared exTwo exBz).pdA.GetCellEdgeNeighbors 0 0 1 = [1]
      ∧ ∃ st, OverlapLines Merge (prepared exTwo exBz).pdA (prepared exTwo exBz).pdB
            (exIntersA exTwo exBz) (exIntersB exTwo exBz) [0, 1, 2] [0, 1, 2] 0 0 = some st
          ∧ st.ols.map (fun o => (some o.neigA, some o.neigB)) = [(some 1, some NOTSET)] := by
  obtain ⟨st, hst⟩ := OverlapLines_returns Merge Merge_edge (prepared exTwo exBz).pdA
    (prepared exTwo exBz).pdB (exIntersA exTwo exBz) (exIntersB exTwo exBz) [0, 1, 2] [0, 1, 2]
    0 0 (by decide!) (by decide!)
  have h := (OverlapLines_neighbour_ids Merge Merge_t Merge_edge (prepared exTwo exBz).pdA
    (prepared exTwo exBz).pdB (exIntersA exTwo exBz) (exIntersB exTwo exBz) [0, 1, 2] [0, 1, 2]
    0 0 st hst).1
  exact ⟨by decide!, by decide!, by decide!, st, hst, h.trans (by decide!)⟩
section Theorems

variable {K : Type} [LinearOrderedField K]

/-! ### InterPolyLine: the order of the returned points -/

end Theorems

section Theorems

variable {K : Type} [LinearOrderedField K]

/-! ### InterPolyLine in general position -/

end Theorems

theorem flatMap_congr_mem {α β : Type} (l : List α) (f g : α → List β)
    (h : ∀ a ∈ l, f a = g a) : l.flatMap f = l.flatMap g := by
  induction l with
  | nil => rfl
  | cons a l ih =>
    rw [List.flatMap_cons, List.flatMap_cons, h a (List.mem_cons_self _ _),
      ih fun b hb => h b (List.mem_cons_of_mem _ hb)]

theorem flatMap_ite {α β : Type} (l : List α) (c : α → Prop) [DecidablePred c] (P : α → β) :
    (l.flatMap fun i => if c i then [P i] else []) = (l.filter fun i => c i).map P := by
  induction l with
  | nil => rfl
  | cons a l ih =>
    rw [List.flatMap_cons, ih, List.filter_cons]
    by_cases h : c a
    · simp [h]
    · simp [h]

section Theorems

variable {K : Type} [LinearOrderedField K]

end Theorems

theorem addContactLines_lengths {K : Type} (polyA polyB : List Int) (idA idB : Int)
    (ols : List (Overlap K)) (self : Filter K) :
    (ols.foldl (addContactLine polyA polyB idA idB) self).contLines.length
        = self.contLines.length + ols.length
      ∧ (ols.foldl (addContactLine polyA polyB idA idB) self).contPts.length
        = self.contPts.length + 2 * ols.length
      ∧ (ols.foldl (addContactLine polyA polyB idA idB) self).contA.length
        = self.contA.length + ols.length
      ∧ (ols.foldl (addContactLine polyA polyB idA idB) self).contB.length
        = self.contB.length + ols.length
      ∧ (ols.foldl (addContactLine polyA polyB idA idB) self).sourcesA.length
        = self.sourcesA.length + ols.length
      ∧ (ols.foldl (addContactLine polyA polyB idA idB) self).sourcesB.length
        = self.sourcesB.length + ols.length
      ∧ (ols.foldl (addContactLine polyA polyB idA idB) self).neigsA.length
        = self.neigsA.length + ols.length
      ∧ (ols.foldl (addContactLine polyA polyB idA idB) self).neigsB.length
        = self.neigsB.length + ols.length := by
  induction ols generalizing self with
  | nil => simp
  | cons o ols ih =>
    obtain ⟨i1, i2, i3, i4, i5, i6, i7, i8⟩ := ih (addContactLine polyA polyB idA idB self o)
    simp only [List.foldl_cons, List.length_cons]
    rw [i1, i2, i3, i4, i5, i6, i7, i8]
    simp only [addContactLine, List.length_append, List.length_cons, List.length_nil]
    refine ⟨?_, ?_, ?_, ?_, ?_, ?_, ?_, ?_⟩ <;> omega

theorem addContactLines_cells {K : Type} (polyA polyB : List Int) (idA idB : Int)
    (ols : List (Overlap K)) (self : Filter K) :
    ∃ added : List Cell,
      (ols.foldl (addContactLine polyA polyB idA idB) self).contLines
          = self.contLines ++ added
        ∧ added.length = ols.length
        ∧ ∀ c ∈ added, c.type = VTK_LINE ∧ c.pts.length = 2 := by
  induction ols generalizing self with
  | nil => exact ⟨[], by simp, rfl, by simp⟩
  | cons o ols ih =>
    obtain ⟨added, h1, h2, h3⟩ := ih (addContactLine polyA polyB idA idB self o)
    refine ⟨⟨VTK_LINE, [(self.contPts.length : Int), (self.contPts.length : Int) + 1]⟩ :: added,
      ?_, by simp [h2], ?_⟩
    · simp only [List.foldl_cons]
      rw [h1]
      simp [addContactLine]
    · intro c hc
      rcases List.mem_cons.mp hc with e | e
      · subst e
        exact ⟨rfl, rfl⟩
      · exact h3 c e

section Theorems

variable {K : Type} [LinearOrderedField K]

/-- What one call of `AddContactLines` that returns adds to the accumulators. -/
theorem AddContactLines_adds (merge : InterPt K → InterPt K → InterPt K) (self : Filter K)
    (intersA intersB : List (InterPt K)) (polyA polyB : List Int) (idA idB : Int)
    (self2 : Filter K)
    (h : AddContactLines merge self intersA intersB polyA polyB idA idB = some self2) :
    ∃ st, OverlapLines merge self.pdA self.pdB intersA intersB polyA polyB idA idB = some st
      ∧ (∃ added : List Cell, self2.contLines = self.contLines ++ added
          ∧ added.length = st.ols.length
          ∧ ∀ c ∈ added, c.type = VTK_LINE ∧ c.pts.length = 2)
      ∧ self2.contPts.length = self.contPts.length + 2 * st.ols.length
      ∧ self2.contA.length = self.contA.length + st.ols.length
      ∧ self2.contB.length = self.contB.length + st.ols.length
      ∧ self2.sourcesA.length = self.sourcesA.length + st.ols.length
      ∧ self2.sourcesB.length = self.sourcesB.length + st.ols.length
      ∧ self2.neigsA.length = self.neigsA.length + st.ols.length
      ∧ self2.neigsB.length = self.neigsB.length + st.ols.length
      ∧ (self.invalidA = true → self2.invalidA = true)
      ∧ (self.invalidB = true → self2.invalidB = true) := by
  unfold AddContactLines at h
  split at h
  · cases h
  · rename_i st hst
    simp only [Option.some.injEq] at h
    subst h
    obtain ⟨-, i2, i3, i4, i5, i6, i7, i8⟩ :=
      addContactLines_lengths polyA polyB idA idB st.ols self
    obtain ⟨-, -, f1, f2⟩ := addContactLines_flags polyA polyB idA idB st.ols self
    refine ⟨st, hst, addContactLines_cells polyA polyB idA idB st.ols self, i2, i3, i4, i5, i6,
      i7, i8, ?_, ?_⟩
    · intro ha
      rw [f1, ha, Bool.true_or]
    · intro hb
      rw [f2, hb, Bool.true_or]


theorem AddContactLines_keeps (merge : InterPt K → InterPt K → InterPt K)
    (self : Filter K) (intersA intersB : List (InterPt K)) (polyA polyB : List Int)
    (idA idB : Int) (self2 : Filter K)
    (h : AddContactLines merge self intersA intersB polyA polyB idA idB = some self2)
    (hc : self.consistent) :
    self2.consistent ∧ (self.invalidA = true → self2.invalidA = true)
      ∧ (self.invalidB = true → self2.invalidB = true) := by
  obtain ⟨st, -, ⟨added, a1, a2, -⟩, i2, i3, i4, i5, i6, i7, i8, f1, f2⟩ :=
    AddContactLines_adds merge self intersA intersB polyA polyB idA idB self2 h
  obtain ⟨c1, c2, c3, c4, c5, c6, c7⟩ := hc
  have hl : self2.contLines.length = self.contLines.length + st.ols.length := by
    rw [a1, List.length_append, a2]
  refine ⟨⟨?_, ?_, ?_, ?_, ?_, ?_, ?_⟩, f1, f2⟩ <;> omega

theorem InterPolys_keeps [FloorRing K] {invA invB : Bool} (sqrt : K → K)
    (merge : InterPt K → InterPt K → InterPt K)
    (computeNormal : List (Vec3 K) → List Int → Vec3 K) (self : Filter K) (idA idB : Int)
    (self2 : Filter K) (h : InterPolys sqrt merge computeNormal self idA idB = some self2)
    (hc : self.consistent ∧ (invA = true → self.invalidA = true)
      ∧ (invB = true → self.invalidB = true)) :
    self2.consistent ∧ (invA = true → self2.invalidA = true)
      ∧ (invB = true → self2.invalidB = true) := by
  rcases InterPolys_unchanged_or_added sqrt merge computeNormal self idA idB with e | ⟨-, e⟩
  · rw [e] at h
    simp only [Option.some.injEq] at h
    subst h
    exact hc
  · rw [e] at h
    obtain ⟨k1, k2, k3⟩ := AddContactLines_keeps merge self _ _ _ _ idA idB self2 h hc.1
    exact ⟨k1, fun x => k2 (hc.2.1 x), fun x => k3 (hc.2.2 x)⟩

theorem InterOBBNodes_keeps [FloorRing K] {invA invB : Bool} (sqrt : K → K)
    (merge : InterPt K → InterPt K → InterPt K)
    (computeNormal : List (Vec3 K) → List Int → Vec3 K) (self : Filter K)
    (cellsA cellsB : List Int) (self2 : Filter K)
    (h : InterOBBNodes sqrt merge computeNormal self cellsA cellsB = some self2)
    (hc : self.consistent ∧ (invA = true → self.invalidA = true)
      ∧ (invB = true → self.invalidB = true)) :
    self2.consistent ∧ (invA = true → self2.invalidA = true)
      ∧ (invB = true → self2.invalidB = true) := by
  unfold InterOBBNodes at h
  refine foldlM_option_inv _
    (fun s => s.consistent ∧ (invA = true → s.invalidA = true)
      ∧ (invB = true → s.invalidB = true)) cellsA ?_ self self2 hc h
  intro s ci s2 _ hs hstep
  refine foldlM_option_inv _
    (fun s => s.consistent ∧ (invA = true → s.invalidA = true)
      ∧ (invB = true → s.invalidB = true)) cellsB ?_ s s2 hs hstep
  intro s3 cj s4 _ hs3 hstep3
  exact InterPolys_keeps sqrt merge computeNormal s3 ci cj s4 hstep3 hs3

/-- C30: accumulator consistency. Every call of `AddContactLines` that returns appends, for
each overlap and whatever the invalidity flags are, one line cell of two points to
`contLines`, two points to `contPts` and one entry to each of `contA`, `contB`, `sourcesA`,
`sourcesB`, `neigsA` and `neigsB`, and it clears no invalidity flag. Hence after any sequence
of calls of `AddContactLines`, and after `InterOBBNodes`, on a filter whose accumulators were
consistent, as they are after the constructor, the six attribute arrays have as many entries
as there are line cells, the point count is twice that number, and a flag that was set is
still set. -/
theorem AddContactLines_accumulator_consistency [FloorRing K] (sqrt : K → K)
    (merge : InterPt K → InterPt K → InterPt K)
    (computeNormal : List (Vec3 K) → List Int → Vec3 K) :
    (∀ (self self2 : Filter K) (intersA intersB : List (InterPt K)) (polyA polyB : List Int)
        (idA idB : Int),
        AddContactLines merge self intersA intersB polyA polyB idA idB = some self2 →
        ∃ st, OverlapLines merge self.pdA self.pdB intersA intersB polyA polyB idA idB = some st
          ∧ (∃ added : List Cell, self2.contLines = self.contLines ++ added
              ∧ added.length = st.ols.length
              ∧ ∀ c ∈ added, c.type = VTK_LINE ∧ c.pts.length = 2)
          ∧ self2.contPts.length = self.contPts.length + 2 * st.ols.length
          ∧ self2.contA.length = self.contA.length + st.ols.length
          ∧ self2.contB.length = self.contB.length + st.ols.length
          ∧ self2.sourcesA.length = self.sourcesA.length + st.ols.length
          ∧ self2.sourcesB.length = self.sourcesB.length + st.ols.length
          ∧ self2.neigsA.length = self.neigsA.length + st.ols.length
          ∧ self2.neigsB.length = self.neigsB.length + st.ols.length
          ∧ (self.invalidA = true → self2.invalidA = true)
          ∧ (self.invalidB = true → self2.invalidB = true))
      ∧ (Filter.new : Filter K).consistent
      ∧ (∀ (calls : List (List (InterPt K) × List (InterPt K) × List Int × List Int × Int × Int))
          (self self2 : Filter K), self.consistent →
          calls.foldlM (fun s c => AddContactLines merge s c.1 c.2.1 c.2.2.1 c.2.2.2.1
            c.2.2.2.2.1 c.2.2.2.2.2) self = some self2 →
          self2.consistent ∧ (self.invalidA = true → self2.invalidA = true)
            ∧ (self.invalidB = true → self2.invalidB = true))
      ∧ ∀ (self self2 : Filter K) (cellsA cellsB : List Int), self.consistent →
          InterOBBNodes sqrt merge computeNormal self cellsA cellsB = some self2 →
          self2.consistent ∧ (self.invalidA = true → self2.invalidA = true)
            ∧ (self.invalidB = true → self2.invalidB = true) := by
  refine ⟨?_, ?_, ?_, ?_⟩
  · intro self self2 intersA intersB polyA polyB idA idB h
    exact AddContactLines_adds merge self intersA intersB polyA polyB idA idB self2 h
  · exact ⟨rfl, rfl, rfl, rfl, rfl, rfl, rfl⟩
  · intro calls self self2 hc h
    refine foldlM_option_inv _
      (fun s => s.consistent ∧ (self.invalidA = true → s.invalidA = true)
        ∧ (self.invalidB = true → s.invalidB = true)) calls ?_ self self2
      ⟨hc, fun x => x, fun x => x⟩ h
    intro s c s2 _ hs hstep
    obtain ⟨k1, k2, k3⟩ := AddContactLines_keeps merge s _ _ _ _ _ _ s2 hstep hs.1
    exact ⟨k1, fun x => k2 (hs.2.1 x), fun x => k3 (hs.2.2 x)⟩
  · intro self self2 cellsA cellsB hc h
    exact InterOBBNodes_keeps sqrt merge computeNormal self cellsA cellsB self2 h
      ⟨hc, fun x => x, fun x => x⟩

end Theorems

/-- The two triangles of `exTwo` against the triangle `exBz`, starting from the accumulators
of the constructor: two line cells, four points and two entries in each of the six
arrays. -/
theorem AddContactLines_accumulator_consistency_witness :
    ∃ self2, InterOBBNodes qsqrt Merge (newellNormal qsqrt) (prepared exTwo exBz) [0, 1] [0]
          = some self2
      ∧ self2.consistent
      ∧ self2.contLines = [⟨VTK_LINE, [0, 1]⟩, ⟨VTK_LINE, [2, 3]⟩]
      ∧ self2.contPts.length = 4
      ∧ self2.neigsA = [1, 0] ∧ self2.neigsB = [NOTSET, NOTSET] := by
  obtain ⟨self2, h2⟩ := Option.isSome_iff_exists.mp
    (show (InterOBBNodes qsqrt Merge (newellNormal qsqrt) (prepared exTwo exBz) [0, 1]
      [0]).isSome = true by decide!)
  have hv : (InterOBBNodes qsqrt Merge (newellNormal qsqrt) (prepared exTwo exBz) [0, 1]
      [0]).map (fun s => (s.contLines, s.contPts.length, s.neigsA, s.neigsB))
      = some ([⟨VTK_LINE, [0, 1]⟩, ⟨VTK_LINE, [2, 3]⟩], 4, [1, 0], [NOTSET, NOTSET]) := by
    decide!
  rw [h2] at hv
  simp only [Option.map_some', Option.some.injEq, Prod.mk.injEq] at hv
  have h := (AddContactLines_accumulator_consistency qsqrt Merge (newellNormal qsqrt)).2.2.2
    (prepared exTwo exBz) self2 [0, 1] [0] ⟨rfl, rfl, rfl, rfl, rfl, rfl, rfl⟩ h2
  exact ⟨self2, h2, h.1, hv.1, hv.2.1, hv.2.2.1, hv.2.2.2⟩
section Theorems

variable {K : Type} [LinearOrderedField K]

/-! ### InterPolyLine: the groups at touched vertices -/

/-- The list returned by `InterPolyLine` is the concatenation of the groups as the resolution
loop leaves them. -/
theorem InterPolyLine_groups [FloorRing K] (sqrt : K → K) (pd : PolyData K)
    (poly : List Int) (r pt : Vec3 K) (src : Src) (n : Vec3 K) :
    InterPolyLine sqrt pd poly r pt src n
      = ((lineGroups sqrt pd poly r pt src).map
          (resolveGroup pd poly r pt (Cross n r) (Dot (Cross n r) pt)
            (collectEnds (lineGroups sqrt pd poly r pt src)))).flatten := by
  unfold InterPolyLine lineGroups
  dsimp only
  split_ifs with h
  · rw [List.isEmpty_iff] at h
    rw [h]
    rfl
  · rfl

/-- The resolution loop for a group whose last point touches a vertex none of whose two
neighbours is a touched vertex. -/
theorem resolveGroup_free_vertex (pd : PolyData K) (poly : List Int) (r pt m : Vec3 K)
    (d : K) (ends : List (Int × K)) (g : List (InterPt K)) (dupl : InterPt K)
    (hlast : g.getLast? = some dupl) (hend : dupl.end_ ≠ NOTSET)
    (hb : endsCount ends (vertexBefore (poly.length : Int) dupl.end_) = 0)
    (ha : endsCount ends (vertexAfter (poly.length : Int) dupl.end_) = 0) :
    resolveGroup pd poly r pt m d ends g =
      if signbit (Dot m (pd.GetPoint (polyAt poly (vertexAfter (poly.length : Int) dupl.end_)))
            - d)
          ≠ signbit (Dot m (pd.GetPoint
            (polyAt poly (vertexBefore (poly.length : Int) dupl.end_))) - d) then
        (if g.length = 2 then g.dropLast else g)
      else if decide (Dot (Subtract (pd.GetPoint
            (polyAt poly (vertexBefore (poly.length : Int) dupl.end_))) pt) r
          > Dot (Subtract (pd.GetPoint
            (polyAt poly (vertexAfter (poly.length : Int) dupl.end_))) pt) r)
          = signbit (Dot m (pd.GetPoint
            (polyAt poly (vertexAfter (poly.length : Int) dupl.end_))) - d) then []
        else g := by
  unfold resolveGroup
  rw [hlast]
  dsimp only
  rw [if_pos hend, if_neg (by
    rintro ⟨-, -, h1⟩
    rw [hb] at h1
    exact absurd h1 (by decide)), if_neg (by
    rintro ⟨-, -, h1⟩
    rw [ha] at h1
    exact absurd h1 (by decide)), if_pos ⟨hb, ha⟩]

/-- The list returned by `InterPolyLine`, split at one of its groups. -/
theorem InterPolyLine_split [FloorRing K] (sqrt : K → K) (pd : PolyData K)
    (poly : List Int) (r pt : Vec3 K) (src : Src) (n : Vec3 K) (g : List (InterPt K))
    (hg : g ∈ lineGroups sqrt pd poly r pt src) :
    ∃ pre post, lineGroups sqrt pd poly r pt src = pre ++ g :: post
      ∧ InterPolyLine sqrt pd poly r pt src n
        = (pre.map (resolveGroup pd poly r pt (Cross n r) (Dot (Cross n r) pt)
              (collectEnds (lineGroups sqrt pd poly r pt src)))).flatten
          ++ resolveGroup pd poly r pt (Cross n r) (Dot (Cross n r) pt)
              (collectEnds (lineGroups sqrt pd poly r pt src)) g
          ++ (post.map (resolveGroup pd poly r pt (Cross n r) (Dot (Cross n r) pt)
              (collectEnds (lineGroups sqrt pd poly r pt src)))).flatten := by
  obtain ⟨pre, post, h⟩ := List.append_of_mem hg
  refine ⟨pre, post, h, ?_⟩
  rw [InterPolyLine_groups]
  generalize collectEnds (lineGroups sqrt pd poly r pt src) = ends
  rw [h, List.map_append, List.map_cons, List.flatten_append, List.flatten_cons,
    List.append_assoc]

/-- C28: in `InterPolyLine`, a group of one or two points at a touched vertex whose two
adjacent vertices are not touched vertices and lie on opposite sides of the cutting line
(the sign bits of their signed distances differ, the test of the source) keeps exactly one
point, its first: the list returned is the concatenation of what the
resolution loop leaves of the groups, and of this group it leaves one point. -/
theorem InterPolyLine_straddled_vertex [FloorRing K] (sqrt : K → K) (pd : PolyData K)
    (poly : List Int) (r pt : Vec3 K) (src : Src) (n : Vec3 K) (g : List (InterPt K))
    (dupl : InterPt K)
    (hg : g ∈ lineGroups sqrt pd poly r pt src)
    (hlen : g.length = 1 ∨ g.length = 2)
    (hlast : g.getLast? = some dupl) (hend : dupl.end_ ≠ NOTSET)
    (hb : endsCount (collectEnds (lineGroups sqrt pd poly r pt src))
      (vertexBefore (poly.length : Int) dupl.end_) = 0)
    (ha : endsCount (collectEnds (lineGroups sqrt pd poly r pt src))
      (vertexAfter (poly.length : Int) dupl.end_) = 0)
    (hs : signbit (lineSide n r pt
        (pd.GetPoint (polyAt poly (vertexAfter (poly.length : Int) dupl.end_))))
      ≠ signbit (lineSide n r pt
        (pd.GetPoint (polyAt poly (vertexBefore (poly.length : Int) dupl.end_))))) :
    (resolveGroup pd poly r pt (Cross n r) (Dot (Cross n r) pt)
        (collectEnds (lineGroups sqrt pd poly r pt src)) g).length = 1
      ∧ resolveGroup pd poly r pt (Cross n r) (Dot (Cross n r) pt)
        (collectEnds (lineGroups sqrt pd poly r pt src)) g = g.take 1
      ∧ ∃ pre post, lineGroups sqrt pd poly r pt src = pre ++ g :: post
        ∧ InterPolyLine sqrt pd poly r pt src n
          = (pre.map (resolveGroup pd poly r pt (Cross n r) (Dot (Cross n r) pt)
                (collectEnds (lineGroups sqrt pd poly r pt src)))).flatten
            ++ g.take 1
            ++ (post.map (resolveGroup pd poly r pt (Cross n r) (Dot (Cross n r) pt)
                (collectEnds (lineGroups sqrt pd poly r pt src)))).flatten := by
  have hr : resolveGroup pd poly r pt (Cross n r) (Dot (Cross n r) pt)
      (collectEnds (lineGroups sqrt pd poly r pt src)) g = g.take 1 := by
    unfold lineSide at hs
    rw [resolveGroup_free_vertex pd poly r pt _ _ _ g dupl hlast hend hb ha, if_pos hs]
    rcases hlen with h1 | h2
    · rw [if_neg (by omega)]
      match g, h1 with
      | [a], _ => rfl
    · rw [if_pos h2]
      match g, h2 with
      | [a, b], _ => rfl
  refine ⟨?_, hr, ?_⟩
  · rw [hr, List.length_take]
    omega
  · obtain ⟨pre, post, h1, h2⟩ := InterPolyLine_split sqrt pd poly r pt src n g hg
    exact ⟨pre, post, h1, by rw [h2, hr]⟩

/-- The polygon `exHook` cut by the x axis: the group of the two points at the vertex 6, the
point `(1, 0)`, between the groups of the crossings at `x = -4` and at `x = 4`, `x = 6`,
keeps its first point, that of the edge `(5, 6)`. -/
theorem InterPolyLine_straddled_vertex_witness :
    ∃ g : List (InterPt ℚ),
      g ∈ lineGroups qsqrt exHook [0, 1, 2, 3, 4, 5, 6, 7, 8] ⟨1, 0, 0⟩ ⟨0, 0, 0⟩ Src.A
      ∧ (lineGroups qsqrt exHook [0, 1, 2, 3, 4, 5, 6, 7, 8] ⟨1, 0, 0⟩ ⟨0, 0, 0⟩ Src.A).map
          (fun g => g.map (fun p => (p.t, p.edge, p.end_)))
        = [[(-4, (8, 0), NOTSET)], [(1, (5, 6), 6), (1, (6, 7), 6)], [(4, (3, 4), NOTSET)],
            [(6, (1, 2), NOTSET)]]
      ∧ g.map (fun p => (p.t, p.edge, p.end_)) = [(1, (5, 6), 6), (1, (6, 7), 6)]
      ∧ (resolveGroup exHook [0, 1, 2, 3, 4, 5, 6, 7, 8] ⟨1, 0, 0⟩ ⟨0, 0, 0⟩
          (Cross ⟨0, 0, 1⟩ ⟨1, 0, 0⟩) (Dot (Cross ⟨0, 0, 1⟩ ⟨1, 0, 0⟩) ⟨0, 0, 0⟩)
          (collectEnds (lineGroups qsqrt exHook [0, 1, 2, 3, 4, 5, 6, 7, 8] ⟨1, 0, 0⟩
            ⟨0, 0, 0⟩ Src.A)) g).length = 1
      ∧ (InterPolyLine qsqrt exHook [0, 1, 2, 3, 4, 5, 6, 7, 8] ⟨1, 0, 0⟩ ⟨0, 0, 0⟩ Src.A
          ⟨0, 0, 1⟩).map (fun p => (p.t, p.edge, p.end_))
        = [(-4, (8, 0), NOTSET), (1, (5, 6), 6), (4, (3, 4), NOTSET), (6, (1, 2), NOTSET)] :=
  ⟨[{ t := 1, pt := ⟨1, 0, 0⟩, onEdge := true, edge := (5, 6), end_ := 6,
      src := Src.A, srcA := NOTSET, srcB := NOTSET },
    { t := 1, pt := ⟨1, 0, 0⟩, onEdge := true, edge := (6, 7), end_ := 6,
      src := Src.A, srcA := NOTSET, srcB := NOTSET }],
    by decide!, by decide!, by decide!,
    (InterPolyLine_straddled_vertex qsqrt exHook [0, 1, 2, 3, 4, 5, 6, 7, 8] ⟨1, 0, 0⟩
      ⟨0, 0, 0⟩ Src.A ⟨0, 0, 1⟩
      [{ t := 1, pt := ⟨1, 0, 0⟩, onEdge := true, edge := (5, 6), end_ := 6,
         src := Src.A, srcA := NOTSET, srcB := NOTSET },
       { t := 1, pt := ⟨1, 0, 0⟩, onEdge := true, edge := (6, 7), end_ := 6,
         src := Src.A, srcA := NOTSET, srcB := NOTSET }]
      { t := 1, pt := ⟨1, 0, 0⟩, onEdge := true, edge := (6, 7), end_ := 6,
        src := Src.A, srcA := NOTSET, srcB := NOTSET }
      (by decide!) (Or.inr rfl) rfl (by decide) (by decide!) (by decide!) (by decide!)).1,
    by decide!⟩

/-- C27, amended: in `InterPolyLine`, a group of two points at a touched vertex whose two
adjacent vertices are not touched vertices and lie on the same side of the cutting line (the
sign bits of their signed distances are equal, the test of the source) is dropped whole or
kept whole, never reduced to one point: it is dropped when the comparison
of the parameters of the two adjacent vertices along the line, `tB > tA`, equals the sign bit
of the side, and both its points are kept otherwise. -/
theorem InterPolyLine_same_side_vertex [FloorRing K] (sqrt : K → K) (pd : PolyData K)
    (poly : List Int) (r pt : Vec3 K) (src : Src) (n : Vec3 K) (g : List (InterPt K))
    (dupl : InterPt K)
    (hg : g ∈ lineGroups sqrt pd poly r pt src)
    (hlen : g.length = 2)
    (hlast : g.getLast? = some dupl) (hend : dupl.end_ ≠ NOTSET)
    (hb : endsCount (collectEnds (lineGroups sqrt pd poly r pt src))
      (vertexBefore (poly.length : Int) dupl.end_) = 0)
    (ha : endsCount (collectEnds (lineGroups sqrt pd poly r pt src))
      (vertexAfter (poly.length : Int) dupl.end_) = 0)
    (hs : signbit (lineSide n r pt
        (pd.GetPoint (polyAt poly (vertexAfter (poly.length : Int) dupl.end_))))
      = signbit (lineSide n r pt
        (pd.GetPoint (polyAt poly (vertexBefore (poly.length : Int) dupl.end_))))) :
    resolveGroup pd poly r pt (Cross n r) (Dot (Cross n r) pt)
        (collectEnds (lineGroups sqrt pd poly r pt src)) g
      = (if decide (Dot (Subtract (pd.GetPoint
              (polyAt poly (vertexBefore (poly.length : Int) dupl.end_))) pt) r
            > Dot (Subtract (pd.GetPoint
              (polyAt poly (vertexAfter (poly.length : Int) dupl.end_))) pt) r)
            = signbit (lineSide n r pt
              (pd.GetPoint (polyAt poly (vertexAfter (poly.length : Int) dupl.end_))))
          then [] else g)
      ∧ ((resolveGroup pd poly r pt (Cross n r) (Dot (Cross n r) pt)
            (collectEnds (lineGroups sqrt pd poly r pt src)) g).length = 0
          ∨ (resolveGroup pd poly r pt (Cross n r) (Dot (Cross n r) pt)
            (collectEnds (lineGroups sqrt pd poly r pt src)) g).length = 2)
      ∧ ∃ pre post, lineGroups sqrt pd poly r pt src = pre ++ g :: post
        ∧ InterPolyLine sqrt pd poly r pt src n
          = (pre.map (resolveGroup pd poly r pt (Cross n r) (Dot (Cross n r) pt)
                (collectEnds (lineGroups sqrt pd poly r pt src)))).flatten
            ++ resolveGroup pd poly r pt (Cross n r) (Dot (Cross n r) pt)
                (collectEnds (lineGroups sqrt pd poly r pt src)) g
            ++ (post.map (resolveGroup pd poly r pt (Cross n r) (Dot (Cross n r) pt)
                (collectEnds (lineGroups sqrt pd poly r pt src)))).flatten := by
  have hr := resolveGroup_free_vertex pd poly r pt (Cross n r) (Dot (Cross n r) pt)
    (collectEnds (lineGroups sqrt pd poly r pt src)) g dupl hlast hend hb ha
  unfold lineSide at hs ⊢
  rw [if_neg (not_not.mpr hs)] at hr
  refine ⟨hr, ?_, InterPolyLine_split sqrt pd poly r pt src n g hg⟩
  rw [hr]
  split_ifs
  · exact Or.inl rfl
  · exact Or.inr hlen

/-- The polygon `exCrown` cut by the x axis: the group of the two points at the tip, the
vertex 5, whose neighbours both lie below the axis, is dropped whole, and the four crossings
of the two prongs remain. -/
theorem InterPolyLine_same_side_vertex_witness :
    ∃ g : List (InterPt ℚ),
      g ∈ lineGroups qsqrt exCrown [0, 1, 2, 3, 4, 5, 6, 7, 8] ⟨1, 0, 0⟩ ⟨0, 0, 0⟩ Src.A
      ∧ (lineGroups qsqrt exCrown [0, 1, 2, 3, 4, 5, 6, 7, 8] ⟨1, 0, 0⟩ ⟨0, 0, 0⟩ Src.A).map
          (fun g => g.map (fun p => (p.t, p.edge, p.end_)))
        = [[(-4, (8, 0), NOTSET)], [(-2, (6, 7), NOTSET)], [(1, (4, 5), 5), (1, (5, 6), 5)],
            [(4, (3, 4), NOTSET)], [(6, (1, 2), NOTSET)]]
      ∧ g.map (fun p => (p.t, p.edge, p.end_)) = [(1, (4, 5), 5), (1, (5, 6), 5)]
      ∧ ((resolveGroup exCrown [0, 1, 2, 3, 4, 5, 6, 7, 8] ⟨1, 0, 0⟩ ⟨0, 0, 0⟩
            (Cross ⟨0, 0, 1⟩ ⟨1, 0, 0⟩) (Dot (Cross ⟨0, 0, 1⟩ ⟨1, 0, 0⟩) ⟨0, 0, 0⟩)
            (collectEnds (lineGroups qsqrt exCrown [0, 1, 2, 3, 4, 5, 6, 7, 8] ⟨1, 0, 0⟩
              ⟨0, 0, 0⟩ Src.A)) g).length = 0
          ∨ (resolveGroup exCrown [0, 1, 2, 3, 4, 5, 6, 7, 8] ⟨1, 0, 0⟩ ⟨0, 0, 0⟩
            (Cross ⟨0, 0, 1⟩ ⟨1, 0, 0⟩) (Dot (Cross ⟨0, 0, 1⟩ ⟨1, 0, 0⟩) ⟨0, 0, 0⟩)
            (collectEnds (lineGroups qsqrt exCrown [0, 1, 2, 3, 4, 5, 6, 7, 8] ⟨1, 0, 0⟩
              ⟨0, 0, 0⟩ Src.A)) g).length = 2)
      ∧ (InterPolyLine qsqrt exCrown [0, 1, 2, 3, 4, 5, 6, 7, 8] ⟨1, 0, 0⟩ ⟨0, 0, 0⟩ Src.A
          ⟨0, 0, 1⟩).map (fun p => (p.t, p.edge, p.end_))
        = [(-4, (8, 0), NOTSET), (-2, (6, 7), NOTSET), (4, (3, 4), NOTSET),
            (6, (1, 2), NOTSET)] :=
  ⟨[{ t := 1, pt := ⟨1, 0, 0⟩, onEdge := true, edge := (4, 5), end_ := 5,
      src := Src.A, srcA := NOTSET, srcB := NOTSET },
    { t := 1, pt := ⟨1, 0, 0⟩, onEdge := true, edge := (5, 6), end_ := 5,
      src := Src.A, srcA := NOTSET, srcB := NOTSET }],
    by decide!, by decide!, by decide!,
    (InterPolyLine_same_side_vertex qsqrt exCrown [0, 1, 2, 3, 4, 5, 6, 7, 8] ⟨1, 0, 0⟩
      ⟨0, 0, 0⟩ Src.A ⟨0, 0, 1⟩
      [{ t := 1, pt := ⟨1, 0, 0⟩, onEdge := true, edge := (4, 5), end_ := 5,
         src := Src.A, srcA := NOTSET, srcB := NOTSET },
       { t := 1, pt := ⟨1, 0, 0⟩, onEdge := true, edge := (5, 6), end_ := 5,
         src := Src.A, srcA := NOTSET, srcB := NOTSET }]
      { t := 1, pt := ⟨1, 0, 0⟩, onEdge := true, edge := (5, 6), end_ := 5,
        src := Src.A, srcA := NOTSET, srcB := NOTSET }
      (by decide!) rfl rfl (by decide) (by decide!) (by decide!) (by decide!)).2.1,
    by decide!⟩

/-- Two points are kept, not one: the polygon `exNotch` cut by the x axis, with the reference
point `(-1, 0, 0)`. The second group holds the two points at the tip of the notch, the vertex
3, whose neighbours `(4, 3)` and `(-4, 3)` are not touched and lie on the same side of the
line; the resolution loop keeps both, and the list returned has four points. -/
theorem InterPolyLine_notch_counterexample :
    (lineGroups qsqrt exNotch [0, 1, 2, 3, 4] ⟨1, 0, 0⟩ ⟨-1, 0, 0⟩ Src.A).map
        (fun g => g.map (fun p => (p.t, p.edge, p.end_)))
      = [[(-3, (4, 0), NOTSET)], [(1, (2, 3), 3), (1, (3, 4), 3)], [(5, (1, 2), NOTSET)]]
      ∧ endsCount (collectEnds (lineGroups qsqrt exNotch [0, 1, 2, 3, 4] ⟨1, 0, 0⟩
          ⟨-1, 0, 0⟩ Src.A)) (vertexBefore 5 3) = 0
      ∧ endsCount (collectEnds (lineGroups qsqrt exNotch [0, 1, 2, 3, 4] ⟨1, 0, 0⟩
          ⟨-1, 0, 0⟩ Src.A)) (vertexAfter 5 3) = 0
      ∧ lineSide (⟨0, 0, 1⟩ : Vec3 ℚ) ⟨1, 0, 0⟩ ⟨-1, 0, 0⟩
          (exNotch.GetPoint (polyAt [0, 1, 2, 3, 4] (vertexBefore 5 3))) = 3
      ∧ lineSide (⟨0, 0, 1⟩ : Vec3 ℚ) ⟨1, 0, 0⟩ ⟨-1, 0, 0⟩
          (exNotch.GetPoint (polyAt [0, 1, 2, 3, 4] (vertexAfter 5 3))) = 3
      ∧ ((lineGroups qsqrt exNotch [0, 1, 2, 3, 4] ⟨1, 0, 0⟩ ⟨-1, 0, 0⟩ Src.A).map
          (fun g => (resolveGroup exNotch [0, 1, 2, 3, 4] ⟨1, 0, 0⟩ ⟨-1, 0, 0⟩
            (Cross ⟨0, 0, 1⟩ ⟨1, 0, 0⟩) (Dot (Cross ⟨0, 0, 1⟩ ⟨1, 0, 0⟩) ⟨-1, 0, 0⟩)
            (collectEnds (lineGroups qsqrt exNotch [0, 1, 2, 3, 4] ⟨1, 0, 0⟩ ⟨-1, 0, 0⟩
              Src.A)) g).length)) = [1, 2, 1]
      ∧ (InterPolyLine qsqrt exNotch [0, 1, 2, 3, 4] ⟨1, 0, 0⟩ ⟨-1, 0, 0⟩ Src.A
          ⟨0, 0, 1⟩).map (fun p => (p.t, p.pt, p.edge, p.end_))
        = [(-3, ⟨-4, 0, 0⟩, (4, 0), NOTSET), (1, ⟨0, 0, 0⟩, (2, 3), 3),
            (1, ⟨0, 0, 0⟩, (3, 4), 3), (5, ⟨4, 0, 0⟩, (1, 2), NOTSET)] := by
  decide!

/-- C26: a grazed vertex is kept. The triangle `exLean`, counter-clockwise for its normal
`(0, 0, 1)`, meets the cutting line that `InterPolys` computes for it and the triangle `exBz`,
the x axis with the direction `(-1, 0, 0)` and the reference point at the origin, only at its
vertex 0: the other two vertices lie strictly on one side and the edge between them holds no
point. `InterPolyLine` returns one point, that vertex, not the empty sequence. -/
theorem InterPolyLine_grazing_vertex_kept :
    pairLine qsqrt (newellNormal qsqrt) (prepared exLean exBz) 0 0
        = some (⟨-1, 0, 0⟩, ⟨0, 0, 0⟩)
      ∧ (prepared exLean exBz).pdA.GetCellPoints 0 = [0, 1, 2]
      ∧ pairNormalA (newellNormal qsqrt) (prepared exLean exBz) 0 = ⟨0, 0, 1⟩
      ∧ [0, 1, 2].map (fun i => lineSide (⟨0, 0, 1⟩ : Vec3 ℚ) ⟨-1, 0, 0⟩ ⟨0, 0, 0⟩
          ((prepared exLean exBz).pdA.GetPoint i)) = [0, -8, -64]
      ∧ edgePoints qsqrt (prepared exLean exBz).pdA [0, 1, 2] ⟨-1, 0, 0⟩ ⟨0, 0, 0⟩ Src.A 1 = []
      ∧ (InterPolyLine qsqrt (prepared exLean exBz).pdA [0, 1, 2] ⟨-1, 0, 0⟩ ⟨0, 0, 0⟩ Src.A
          ⟨0, 0, 1⟩).map (fun p => (p.t, p.pt, p.edge, p.end_))
        = [(0, ⟨0, 0, 0⟩, (0, 1), 0)]
      ∧ (pairIntersA qsqrt (newellNormal qsqrt) (prepared exLean exBz) 0 0).length = 1 := by
  decide!

end Theorems
/-! ### The neighbour lookup and the incident faces of an edge -/

theorem foldlM_option_none {σ α : Type} (f : σ → α → Option σ) (Inv : σ → Prop)
    (xs : List α) (a : α) (ha : a ∈ xs)
    (hstep : ∀ s b s', b ∈ xs → Inv s → f s b = some s' → Inv s')
    (hnone : ∀ s, Inv s → f s a = none) :
    ∀ s, Inv s → xs.foldlM f s = none := by
  induction xs with
  | nil => exact absurd ha (List.not_mem_nil a)
  | cons b xs ih =>
    intro s hs
    rw [List.foldlM_cons]
    cases hb : f s b with
    | none => rfl
    | some s1 =>
      have hne : a ≠ b := by
        intro hab
        rw [← hab, hnone s hs] at hb
        cases hb
      have ha2 : a ∈ xs := by
        rcases List.mem_cons.mp ha with h | h
        · exact absurd h hne
        · exact h
      exact ih ha2 (fun s b s' hb2 => hstep s b s' (List.mem_cons_of_mem _ hb2)) s1
        (hstep s b s1 (List.mem_cons_self _ _) hs hb)

theorem filter_remove_one {α : Type} [DecidableEq α] (l : List α) (p : α → Bool) (k : α)
    (hn : l.Nodup) (hk : k ∈ l) (hp : p k = true) :
    (l.filter fun c => p c && decide (c ≠ k)).length + 1 = (l.filter p).length := by
  induction l with
  | nil => exact absurd hk (List.not_mem_nil k)
  | cons a l ih =>
    rw [List.nodup_cons] at hn
    by_cases hak : a = k
    · subst hak
      have h1 : (l.filter fun c => p c && decide (c ≠ a)) = l.filter p := by
        apply List.filter_congr
        intro c hc
        have : c ≠ a := fun h => hn.1 (h ▸ hc)
        simp [this]
      rw [List.filter_cons, List.filter_cons, if_neg (by simp), if_pos hp, h1, List.length_cons]
    · have hk2 : k ∈ l := by
        rcases List.mem_cons.mp hk with h | h
        · exact absurd h.symm hak
        · exact h
      have ih2 := ih hn.2 hk2
      rw [List.filter_cons, List.filter_cons]
      by_cases hpa : p a = true
      · rw [if_pos (by simp [hpa, hak]), if_pos hpa, List.length_cons, List.length_cons, ih2]
      · rw [if_neg (by simp [hpa]), if_neg hpa, ih2]

theorem map_getD_range {α : Type} (l : List α) (d : α) :
    (List.range l.length).map (fun i => l.getD i d) = l := by
  apply List.ext_getElem
  · simp
  · intro i h1 h2
    simp [List.getD_eq_getElem?_getD, List.getElem?_eq_getElem h2]

theorem edgeUse_range (cells : List Cell) (u v : Int) :
    edgeUse cells u v = ((List.range cells.length).filter fun c =>
      usesEdge (cells.getD c ⟨VTK_EMPTY_CELL, []⟩) u v).length := by
  unfold edgeUse
  conv_lhs => rw [← map_getD_range cells ⟨VTK_EMPTY_CELL, []⟩]
  rw [List.filter_map, List.length_map]
  rfl

theorem usesEdge_mem (c : Cell) (u v : Int) (h : usesEdge c u v = true) :
    u ∈ c.pts ∧ v ∈ c.pts := by
  have key : ∀ a b : Int, (a, b) ∈ cellEdges c → a ∈ c.pts ∧ b ∈ c.pts := by
    intro a b hab
    unfold cellEdges at hab
    rw [List.mem_map] at hab
    obtain ⟨i, hi, hab⟩ := hab
    rw [List.mem_range] at hi
    simp only [Prod.mk.injEq] at hab
    have hpos : 0 < c.pts.length := Nat.lt_of_le_of_lt (Nat.zero_le _) hi
    constructor
    · rw [← hab.1]
      exact getD_mem_of_lt c.pts i 0 hi
    · rw [← hab.2]
      exact getD_mem_of_lt c.pts _ 0 (Nat.mod_lt _ hpos)
  unfold usesEdge at h
  rw [Bool.or_eq_true, decide_eq_true_eq, decide_eq_true_eq] at h
  rcases h with h | h
  · exact key u v h
  · exact (key v u h).symm

theorem cellLinks_simple (cells : List Cell) (p : Int) (h : ∀ c ∈ cells, c.pts.Nodup) :
    cellLinks cells p = ((List.range cells.length).filter fun c =>
      p ∈ (cells.getD c ⟨VTK_EMPTY_CELL, []⟩).pts).map fun (c : Nat) => (c : Int) := by
  unfold cellLinks
  rw [← flatMap_ite]
  apply flatMap_congr_mem
  intro c hc
  rw [List.mem_range] at hc
  have hn := h _ (getD_mem_of_lt cells c ⟨VTK_EMPTY_CELL, []⟩ hc)
  have hf : (cells.getD c ⟨VTK_EMPTY_CELL, []⟩).pts.filter (fun q => q = p)
      = List.replicate ((cells.getD c ⟨VTK_EMPTY_CELL, []⟩).pts.count p) p :=
    List.filter_beq _ p
  rw [hf]
  by_cases hp : p ∈ (cells.getD c ⟨VTK_EMPTY_CELL, []⟩).pts
  · rw [if_pos hp, List.count_eq_one_of_mem hn hp]
    rfl
  · rw [if_neg hp, List.count_eq_zero_of_not_mem hp]
    rfl

theorem mem_cellLinks_simple (cells : List Cell) (p : Int) (h : ∀ c ∈ cells, c.pts.Nodup)
    (c : Nat) (hc : c < cells.length) :
    (c : Int) ∈ cellLinks cells p ↔ p ∈ (cells.getD c ⟨VTK_EMPTY_CELL, []⟩).pts := by
  rw [cellLinks_simple cells p h, List.mem_map]
  constructor
  · rintro ⟨k, hk, hkc⟩
    rw [List.mem_filter, decide_eq_true_eq] at hk
    have : k = c := by exact_mod_cast hkc
    rw [← this]
    exact hk.2
  · intro hp
    refine ⟨c, ?_, rfl⟩
    rw [List.mem_filter, decide_eq_true_eq]
    exact ⟨List.mem_range.mpr hc, hp⟩

/-- On cells that are simple at `u` and `v`, the neighbours `GetCellEdgeNeighbors` returns are the
other cells that have the edge between `u` and `v`. -/
theorem edgeNeighbors_simple {K : Type} (pd : PolyData K) (k : Nat) (u v : Int)
    (hs : simpleAt pd.cells u v) :
    pd.GetCellEdgeNeighbors (k : Int) u v = ((List.range pd.cells.length).filter fun c =>
      usesEdge (pd.cells.getD c ⟨VTK_EMPTY_CELL, []⟩) u v && decide (c ≠ k)).map
        fun (c : Nat) => (c : Int) := by
  unfold PolyData.GetCellEdgeNeighbors
  rw [cellLinks_simple pd.cells u hs.1, List.filter_map, List.filter_filter]
  congr 1
  apply List.filter_congr
  intro c hc
  rw [List.mem_range] at hc
  have hmem := getD_mem_of_lt pd.cells c ⟨VTK_EMPTY_CELL, []⟩ hc
  have hv := mem_cellLinks_simple pd.cells v hs.1 c hc
  rw [Bool.eq_iff_iff]
  simp only [Function.comp_apply, Bool.and_eq_true, decide_eq_true_eq, ne_eq, Nat.cast_inj]
  constructor
  · rintro ⟨⟨hck, hcv⟩, hu⟩
    exact ⟨hs.2 _ hmem hu (hv.mp hcv), hck⟩
  · rintro ⟨hue, hck⟩
    have h2 := usesEdge_mem _ u v hue
    exact ⟨⟨hck, hv.mpr h2.2⟩, h2.1⟩

/-- On cells that are simple at `u` and `v`, a cell that has the edge between `u` and `v` has
one neighbour less than the edge has incident faces. -/
theorem edgeNeighbors_count {K : Type} (pd : PolyData K) (k : Nat) (u v : Int)
    (hk : k < pd.cells.length)
    (hface : usesEdge (pd.cells.getD k ⟨VTK_EMPTY_CELL, []⟩) u v = true)
    (hs : simpleAt pd.cells u v) :
    (pd.GetCellEdgeNeighbors (k : Int) u v).length + 1 = edgeUse pd.cells u v := by
  rw [edgeNeighbors_simple pd k u v hs, List.length_map, edgeUse_range]
  exact filter_remove_one (List.range pd.cells.length)
    (fun c => usesEdge (pd.cells.getD c ⟨VTK_EMPTY_CELL, []⟩) u v) k
    (List.nodup_range _) (List.mem_range.mpr hk) hface

/-- The lookup `GetNeig` for two points that carry the same edge of the face `k`, on cells that are
simple at the edge: with two incident faces it returns the one neighbour, with any other
number the assertion fails. -/
theorem GetNeig_incident {K : Type} (pA pB : InterPt K) (pd : PolyData K) (poly : List Int)
    (k : Nat) (he : pA.edge.1 = pB.edge.1 ∧ pA.edge.2 = pB.edge.2)
    (hk : k < pd.cells.length)
    (hface : usesEdge (pd.cells.getD k ⟨VTK_EMPTY_CELL, []⟩)
      (polyAt poly pA.edge.1) (polyAt poly pA.edge.2) = true)
    (hs : simpleAt pd.cells (polyAt poly pA.edge.1) (polyAt poly pA.edge.2)) :
    (edgeUse pd.cells (polyAt poly pA.edge.1) (polyAt poly pA.edge.2) = 2 →
        ∃ n, pd.GetCellEdgeNeighbors (k : Int) (polyAt poly pA.edge.1) (polyAt poly pA.edge.2)
            = [n]
          ∧ GetNeig pA pB pd poly (k : Int) = some n ∧ n ≠ (k : Int))
      ∧ (edgeUse pd.cells (polyAt poly pA.edge.1) (polyAt poly pA.edge.2) ≠ 2 →
        GetNeig pA pB pd poly (k : Int) = none) := by
  have hc := edgeNeighbors_count pd k _ _ hk hface hs
  constructor
  · intro h2
    have h1 : (pd.GetCellEdgeNeighbors (k : Int) (polyAt poly pA.edge.1)
        (polyAt poly pA.edge.2)).length = 1 := by omega
    obtain ⟨n, hn⟩ := List.length_eq_one.mp h1
    refine ⟨n, hn, ?_, (edgeNeighbors_single pd _ _ _ n hn).1⟩
    unfold GetNeig
    rw [if_pos he]
    dsimp only
    rw [if_pos h1, hn]
    rfl
  · intro h2
    unfold GetNeig
    rw [if_pos he]
    dsimp only
    rw [if_neg (by omega)]

section Theorems

variable {K : Type} [LinearOrderedField K]

theorem overlapRow_edges (merge : InterPt K → InterPt K → InterPt K)
    (he : ∀ a c, (merge a c).edge = a.edge) (pdA pdB : PolyData K)
    (polyA polyB : List Int) (idA idB : Int) (st st' : OverlapState K) (i : Nat)
    (h : overlapRow merge pdA pdB polyA polyB idA idB st i = some st') :
    st'.intersA.map InterPt.edge = st.intersA.map InterPt.edge
      ∧ st'.intersB.map InterPt.edge = st.intersB.map InterPt.edge := by
  unfold overlapRow at h
  split at h
  · cases h
  · rename_i neigA _
    exact foldlM_option_inv
      (fun s j => overlapPair merge pdB polyB idB neigA (2 * i) (2 * j) s)
      (fun s => s.intersA.map InterPt.edge = st.intersA.map InterPt.edge
        ∧ s.intersB.map InterPt.edge = st.intersB.map InterPt.edge) _
      (fun s j s' _ hs hf => by
        have h1 := overlapPair_step merge InterPt.edge he pdB polyB idB neigA _ _ s s' hf
        exact ⟨h1.1.trans hs.1, h1.2.trans hs.2⟩) st st' ⟨rfl, rfl⟩ h

/-- A failed neighbour assertion aborts `OverlapLines`: for an interval of `intersA`, and for an
interval of `intersB` when `intersA` holds an interval. -/
theorem OverlapLines_aborts (merge : InterPt K → InterPt K → InterPt K)
    (he : ∀ a c, (merge a c).edge = a.edge) (pdA pdB : PolyData K)
    (A B : List (InterPt K)) (polyA polyB : List Int) (idA idB : Int)
    (h : (∃ i, i < A.length / 2
          ∧ GetNeig (ptAt A (2 * i)) (ptAt A (2 * i + 1)) pdA polyA idA = none)
        ∨ (0 < A.length / 2 ∧ ∃ j, j < B.length / 2
          ∧ GetNeig (ptAt B (2 * j)) (ptAt B (2 * j + 1)) pdB polyB idB = none)) :
    OverlapLines merge pdA pdB A B polyA polyB idA idB = none := by
  unfold OverlapLines
  have hstep : ∀ (s : OverlapState K) (b : Nat) (s' : OverlapState K),
      b ∈ List.range (A.length / 2) →
      (s.intersA.map InterPt.edge = A.map InterPt.edge
        ∧ s.intersB.map InterPt.edge = B.map InterPt.edge) →
      overlapRow merge pdA pdB polyA polyB idA idB s b = some s' →
      (s'.intersA.map InterPt.edge = A.map InterPt.edge
        ∧ s'.intersB.map InterPt.edge = B.map InterPt.edge) := by
    intro s b s' _ hs hf
    have h1 := overlapRow_edges merge he pdA pdB polyA polyB idA idB s s' b hf
    exact ⟨h1.1.trans hs.1, h1.2.trans hs.2⟩
  rcases h with ⟨i, hi, hn⟩ | ⟨h0, j, hj, hn⟩
  · refine foldlM_option_none _ (fun s => s.intersA.map InterPt.edge = A.map InterPt.edge
      ∧ s.intersB.map InterPt.edge = B.map InterPt.edge) _ i (List.mem_range.mpr hi) hstep
      ?_ _ ⟨rfl, rfl⟩
    intro s hs
    unfold overlapRow
    rw [GetNeig_congr _ _ _ _ pdA polyA idA
      (ptAt_of_map InterPt.edge _ _ (2 * i) hs.1)
      (ptAt_of_map InterPt.edge _ _ (2 * i + 1) hs.1), hn]
  · refine foldlM_option_none _ (fun s => s.intersA.map InterPt.edge = A.map InterPt.edge
      ∧ s.intersB.map InterPt.edge = B.map InterPt.edge) _ 0 (List.mem_range.mpr h0) hstep
      ?_ _ ⟨rfl, rfl⟩
    intro s hs
    unfold overlapRow
    split
    · rfl
    · rename_i neigA _
      have hlen : s.intersB.length = B.length := by
        have := congrArg List.length hs.2
        simpa using this
      refine foldlM_option_none _ (fun t => t.intersA.map InterPt.edge = A.map InterPt.edge
        ∧ t.intersB.map InterPt.edge = B.map InterPt.edge) _ j
        (List.mem_range.mpr (by rw [hlen]; exact hj)) ?_ ?_ s hs
      · intro t b t' _ ht hf
        have h1 := overlapPair_step merge InterPt.edge he pdB polyB idB neigA _ _ t t' hf
        exact ⟨h1.1.trans ht.1, h1.2.trans ht.2⟩
      · intro t ht
        unfold overlapPair
        dsimp only
        rw [GetNeig_congr _ _ _ _ pdB polyB idB
          (ptAt_of_map InterPt.edge _ _ (2 * j) ht.2)
          (ptAt_of_map InterPt.edge _ _ (2 * j + 1) ht.2), hn]

theorem AddContactLines_aborts (merge : InterPt K → InterPt K → InterPt K)
    (he : ∀ a c, (merge a c).edge = a.edge) (self : Filter K)
    (A B : List (InterPt K)) (polyA polyB : List Int) (idA idB : Int)
    (h : (∃ i, i < A.length / 2
          ∧ GetNeig (ptAt A (2 * i)) (ptAt A (2 * i + 1)) self.pdA polyA idA = none)
        ∨ (0 < A.length / 2 ∧ ∃ j, j < B.length / 2
          ∧ GetNeig (ptAt B (2 * j)) (ptAt B (2 * j + 1)) self.pdB polyB idB = none)) :
    AddContactLines merge self A B polyA polyB idA idB = none := by
  unfold AddContactLines
  rw [OverlapLines_aborts merge he self.pdA self.pdB A B polyA polyB idA idB h]

/-- C29, amended: the neighbour assertion of `OverlapLines` on meshes whose cells are simple at
the edge, that is no cell lists a point id twice and every cell that holds both end points of
the edge has them as consecutive points. For every interval of `intersA` whose two points
carry the same edge of the face `kA`, an edge of that cell: if the edge has exactly two
incident faces the lookup returns exactly one face id, different from the face itself; if it
has one or more than two, the assertion fails and `AddContactLines` is aborted before it
touches a flag. The same holds for every interval of `intersB` and the face `kB`, when
`intersA` holds an interval (the lookup for `intersB` runs inside the loop over `intersA`). -/
theorem OverlapLines_neighbour_assertion (merge : InterPt K → InterPt K → InterPt K)
    (he : ∀ a c, (merge a c).edge = a.edge) (self : Filter K)
    (A B : List (InterPt K)) (polyA polyB : List Int) (kA kB : Nat) :
    (∀ i, i < A.length / 2 →
        ((ptAt A (2 * i)).edge.1 = (ptAt A (2 * i + 1)).edge.1
          ∧ (ptAt A (2 * i)).edge.2 = (ptAt A (2 * i + 1)).edge.2) →
        kA < self.pdA.cells.length →
        usesEdge (self.pdA.cells.getD kA ⟨VTK_EMPTY_CELL, []⟩)
          (polyAt polyA (ptAt A (2 * i)).edge.1) (polyAt polyA (ptAt A (2 * i)).edge.2) = true →
        simpleAt self.pdA.cells (polyAt polyA (ptAt A (2 * i)).edge.1)
          (polyAt polyA (ptAt A (2 * i)).edge.2) →
        (edgeUse self.pdA.cells (polyAt polyA (ptAt A (2 * i)).edge.1)
              (polyAt polyA (ptAt A (2 * i)).edge.2) = 2 →
            ∃ n, self.pdA.GetCellEdgeNeighbors (kA : Int) (polyAt polyA (ptAt A (2 * i)).edge.1)
                (polyAt polyA (ptAt A (2 * i)).edge.2) = [n]
              ∧ GetNeig (ptAt A (2 * i)) (ptAt A (2 * i + 1)) self.pdA polyA (kA : Int)
                = some n
              ∧ n ≠ (kA : Int))
          ∧ (edgeUse self.pdA.cells (polyAt polyA (ptAt A (2 * i)).edge.1)
              (polyAt polyA (ptAt A (2 * i)).edge.2) ≠ 2 →
            GetNeig (ptAt A (2 * i)) (ptAt A (2 * i + 1)) self.pdA polyA (kA : Int)
                = none
              ∧ AddContactLines merge self A B polyA polyB (kA : Int) (kB : Int) = none))
      ∧ (∀ j, j < B.length / 2 →
        0 < A.length / 2 →
        ((ptAt B (2 * j)).edge.1 = (ptAt B (2 * j + 1)).edge.1
          ∧ (ptAt B (2 * j)).edge.2 = (ptAt B (2 * j + 1)).edge.2) →
        kB < self.pdB.cells.length →
        usesEdge (self.pdB.cells.getD kB ⟨VTK_EMPTY_CELL, []⟩)
          (polyAt polyB (ptAt B (2 * j)).edge.1) (polyAt polyB (ptAt B (2 * j)).edge.2) = true →
        simpleAt self.pdB.cells (polyAt polyB (ptAt B (2 * j)).edge.1)
          (polyAt polyB (ptAt B (2 * j)).edge.2) →
        (edgeUse self.pdB.cells (polyAt polyB (ptAt B (2 * j)).edge.1)
              (polyAt polyB (ptAt B (2 * j)).edge.2) = 2 →
            ∃ n, self.pdB.GetCellEdgeNeighbors (kB : Int) (polyAt polyB (ptAt B (2 * j)).edge.1)
                (polyAt polyB (ptAt B (2 * j)).edge.2) = [n]
              ∧ GetNeig (ptAt B (2 * j)) (ptAt B (2 * j + 1)) self.pdB polyB (kB : Int)
                = some n
              ∧ n ≠ (kB : Int))
          ∧ (edgeUse self.pdB.cells (polyAt polyB (ptAt B (2 * j)).edge.1)
              (polyAt polyB (ptAt B (2 * j)).edge.2) ≠ 2 →
            GetNeig (ptAt B (2 * j)) (ptAt B (2 * j + 1)) self.pdB polyB (kB : Int)
                = none
              ∧ AddContactLines merge self A B polyA polyB (kA : Int) (kB : Int) = none)) := by
  constructor
  · intro i hi hsame hk hface hs
    have h := GetNeig_incident (ptAt A (2 * i)) (ptAt A (2 * i + 1)) self.pdA polyA kA hsame hk
      hface hs
    refine ⟨h.1, fun h2 => ⟨h.2 h2, ?_⟩⟩
    exact AddContactLines_aborts merge he self A B polyA polyB kA kB
      (Or.inl ⟨i, hi, h.2 h2⟩)
  · intro j hj h0 hsame hk hface hs
    have h := GetNeig_incident (ptAt B (2 * j)) (ptAt B (2 * j + 1)) self.pdB polyB kB hsame hk
      hface hs
    refine ⟨h.1, fun h2 => ⟨h.2 h2, ?_⟩⟩
    exact AddContactLines_aborts merge he self A B polyA polyB kA kB
      (Or.inr ⟨h0, j, hj, h.2 h2⟩)

/-- Three runs of the lookup for the interval of the first triangle of mesh A on its edge
`(0, 1)`, cut by the triangle `exBz`. In `exTwo` the edge has two incident faces and the lookup
returns the other triangle, cell 1. In `exCoplanar` it has one and in `exA` three: the
assertion fails and `AddContactLines` is aborted. -/
theorem OverlapLines_neighbour_assertion_witness :
    (∃ n, (prepared exTwo exBz).pdA.GetCellEdgeNeighbors 0 0 1 = [n]
        ∧ GetNeig (ptAt (exIntersA exTwo exBz) 0) (ptAt (exIntersA exTwo exBz) 1)
            (prepared exTwo exBz).pdA [0, 1, 2] 0 = some n
        ∧ n ≠ 0)
      ∧ edgeUse (prepared exCoplanar exBz).pdA.cells 0 1 = 1
      ∧ AddContactLines Merge (prepared exCoplanar exBz) (exIntersA exCoplanar exBz)
          (exIntersB exCoplanar exBz) [0, 1, 2] [0, 1, 2] 0 0 = none
      ∧ edgeUse (prepared exA exBz).pdA.cells 0 1 = 3
      ∧ AddContactLines Merge (prepared exA exBz) (exIntersA exA exBz)
          (exIntersB exA exBz) [0, 1, 2] [0, 1, 2] 0 0 = none := by
  have e0 : (ptAt (exIntersA exTwo exBz) (2 * 0)).edge = (0, 1) := by decide!
  have h1 := ((OverlapLines_neighbour_assertion Merge Merge_edge (prepared exTwo exBz)
    (exIntersA exTwo exBz) (exIntersB exTwo exBz) [0, 1, 2] [0, 1, 2] 0 0).1 0
    (by decide!) (by decide!) (by decide!) (by decide!) (by decide!)).1 (by decide!)
  rw [e0] at h1
  have h2 := (((OverlapLines_neighbour_assertion Merge Merge_edge (prepared exCoplanar exBz)
    (exIntersA exCoplanar exBz) (exIntersB exCoplanar exBz) [0, 1, 2] [0, 1, 2] 0 0).1 0
    (by decide!) (by decide!) (by decide!) (by decide!) (by decide!)).2 (by decide!)).2
  have h3 := (((OverlapLines_neighbour_assertion Merge Merge_edge (prepared exA exBz)
    (exIntersA exA exBz) (exIntersB exA exBz) [0, 1, 2] [0, 1, 2] 0 0).1 0
    (by decide!) (by decide!) (by decide!) (by decide!) (by decide!)).2 (by decide!)).2
  exact ⟨h1, by decide!, h2, by decide!, h3⟩

/-- The assertion fails on an edge with two incident faces: in the mesh `exDiag` the edge
between the points 0 and 1 belongs to the two triangles only, but the polygon `[0, 4, 1, 5]`
holds both points, as opposite corners, and `GetCellEdgeNeighbors` looks for the cells that
use both points. For the interval of the first triangle on the edge `(0, 1)` the lookup finds
two cells, and `InterPolys` is aborted. -/
theorem GetNeig_diagonal_counterexample :
    (prepared exDiag exBz).pdA.cells = exDiag.cells
      ∧ (∀ c ∈ exDiag.cells, c.pts.Nodup)
      ∧ (exDiag.cells.map fun c => usesEdge c 0 1) = [true, true, false]
      ∧ edgeUse (prepared exDiag exBz).pdA.cells 0 1 = 2
      ∧ (exIntersA exDiag exBz).map (fun p => (p.t, p.edge)) = [(-4, (0, 1)), (0, (0, 1))]
      ∧ (prepared exDiag exBz).pdA.GetCellEdgeNeighbors 0 0 1 = [1, 2]
      ∧ GetNeig (ptAt (exIntersA exDiag exBz) 0) (ptAt (exIntersA exDiag exBz) 1)
          (prepared exDiag exBz).pdA [0, 1, 2] 0 = none
      ∧ InterPolys qsqrt Merge (newellNormal qsqrt) (prepared exDiag exBz) 0 0 = none := by
  decide!

end Theorems
/-! ### ProcessRequest: the failures of a run and the arrays of the contact curve -/

section Theorems

variable {K : Type} [LinearOrderedField K]

/-- C22, amended: a run that is not aborted returns 1 in every case, and it fails, that is it
reports an error and writes no contact curve, if and only if the preparation leaves mesh A or
mesh B with zero cells or one of the two invalidity flags is set after the pass over the
candidate pairs; otherwise it reports no error and writes the contact curve. When a prepared
mesh has zero cells no face pair is processed: whatever the traversal would report, the run
ends with the one error of the empty input, no output written and the accumulators of the
filter object as they were. -/
theorem ProcessRequest_fails_iff [FloorRing K] (sqrt : K → K)
    (merge : InterPt K → InterPt K → InterPt K)
    (computeNormal : List (Vec3 K) → List Int → Vec3 K)
    (obbPairs : PolyData K → PolyData K → List (List Int × List Int))
    (clean : ContactData K → ContactData K) (self : Filter K) (inA inB : PolyData K)
    (res : RunResult K)
    (h : ProcessRequest sqrt merge computeNormal obbPairs clean self true inA inB = some res) :
    res.ret = 1
      ∧ ((res.errors ≠ [] ∧ res.resultA = none) ↔
          ((PreparePolyData { inA with origCellIds := [] } self.edgesA).1.GetNumberOfCells = 0
            ∨ (PreparePolyData { inB with origCellIds := [] } self.edgesB).1.GetNumberOfCells = 0
            ∨ res.self.invalidA = true ∨ res.self.invalidB = true))
      ∧ ((res.errors = [] ∧ res.resultA.isSome = true) ↔
          ¬ ((PreparePolyData { inA with origCellIds := [] } self.edgesA).1.GetNumberOfCells = 0
            ∨ (PreparePolyData { inB with origCellIds := [] } self.edgesB).1.GetNumberOfCells = 0
            ∨ res.self.invalidA = true ∨ res.self.invalidB = true))
      ∧ (((PreparePolyData { inA with origCellIds := [] } self.edgesA).1.GetNumberOfCells = 0
            ∨ (PreparePolyData { inB with origCellIds := [] } self.edgesB).1.GetNumberOfCells = 0)
          → res = ⟨1, [errNoCells], none, none, none,
              { self with
                pdA := (PreparePolyData { inA with origCellIds := [] } self.edgesA).1
                pdB := (PreparePolyData { inB with origCellIds := [] } self.edgesB).1
                edgesA := (PreparePolyData { inA with origCellIds := [] } self.edgesA).2
                edgesB := (PreparePolyData { inB with origCellIds := [] } self.edgesB).2 }⟩) := by
  unfold ProcessRequest at h
  simp only [if_true] at h
  by_cases hz : (PreparePolyData { inA with origCellIds := [] } self.edgesA).1.GetNumberOfCells = 0
      ∨ (PreparePolyData { inB with origCellIds := [] } self.edgesB).1.GetNumberOfCells = 0
  · rw [if_pos hz] at h
    simp only [Option.some.injEq] at h
    subst h
    refine ⟨rfl, ?_, ?_, fun _ => rfl⟩
    · constructor
      · intro _
        rcases hz with h1 | h1
        · exact Or.inl h1
        · exact Or.inr (Or.inl h1)
      · intro _
        exact ⟨by simp, rfl⟩
    · constructor
      · rintro ⟨h1, -⟩
        simp at h1
      · intro h1
        exfalso
        apply h1
        rcases hz with h2 | h2
        · exact Or.inl h2
        · exact Or.inr (Or.inl h2)
  · rw [if_neg hz] at h
    have hzA : ¬ (PreparePolyData { inA with origCellIds := [] }
        self.edgesA).1.GetNumberOfCells = 0 := fun h1 => hz (Or.inl h1)
    have hzB : ¬ (PreparePolyData { inB with origCellIds := [] }
        self.edgesB).1.GetNumberOfCells = 0 := fun h1 => hz (Or.inr h1)
    split at h
    · cases h
    · rename_i self2 hpass
      by_cases ha : self2.invalidA = true
      · rw [if_pos ha] at h
        simp only [Option.some.injEq] at h
        subst h
        simp [ha, hzA, hzB]
      · by_cases hb : self2.invalidB = true
        · rw [if_neg ha, if_pos hb] at h
          simp only [Option.some.injEq] at h
          subst h
          simp [ha, hb, hzA, hzB]
        · rw [if_neg ha, if_neg hb] at h
          simp only [Option.some.injEq] at h
          subst h
          simp [ha, hb, hzA, hzB]

end Theorems

/-- The run on `exLine`, which has no supported cell, and `exBz`: one error, no contact curve,
no segment accumulated. -/
theorem ProcessRequest_fails_iff_witness :
    (PreparePolyData { exLine with origCellIds := [] } []).1.GetNumberOfCells = 0
      ∧ ∃ res, ProcessRequest qsqrt Merge (newellNormal qsqrt) allPairs id Filter.new true
            exLine exBz = some res
          ∧ res.ret = 1 ∧ res.errors = [errNoCells] ∧ res.resultA = none
          ∧ res.self.contLines = [] := by
  refine ⟨by decide!, ?_⟩
  obtain ⟨res, hres⟩ := Option.isSome_iff_exists.mp
    (show (ProcessRequest qsqrt Merge (newellNormal qsqrt) allPairs id Filter.new true exLine
      exBz).isSome = true by decide!)
  have h := ProcessRequest_fails_iff qsqrt Merge (newellNormal qsqrt) allPairs id
    Filter.new exLine exBz res hres
  have h4 := h.2.2.2 (Or.inl (by decide!))
  refine ⟨res, hres, h.1, ?_, ?_, ?_⟩
  · rw [h4]
  · rw [h4]
  · rw [h4]
    rfl

/-- A run that fails although both prepared meshes have cells: on `exTwo` and `exBnm` the pass
completes with four segments, one of them on the non-manifold edge of `exBnm`; the error of
the second input is reported and no contact curve is written. -/
theorem ProcessRequest_flag_failure_counterexample :
    ((prepared exTwo exBnm).pdA.GetNumberOfCells, (prepared exTwo exBnm).pdB.GetNumberOfCells)
        = (2, 3)
      ∧ (ProcessRequest qsqrt Merge (newellNormal qsqrt) allPairs id Filter.new true exTwo
            exBnm).map
          (fun res => (res.ret, res.errors, res.resultA.isSome, res.self.invalidA,
            res.self.invalidB, res.self.contLines.length))
        = some (1, [errInvalidB], false, false, true, 4) := by
  refine ⟨by decide!, by decide!⟩

/-- C21: the contact curve carries four arrays, not six. The run on `exTwo` and `exBz` writes a
contact curve of two line cells whose cell data are the arrays `cA`, `cB`, `sourcesA` and
`sourcesB`; the neighbour ids of the two segments, `[1, 0]` for mesh A and the sentinel
twice for mesh B, are collected in `neigsA` and `neigsB` of the filter object and never added
to the output. -/
theorem ProcessRequest_output_arrays :
    (ProcessRequest qsqrt Merge (newellNormal qsqrt) allPairs id Filter.new true exTwo
          exBz).map (fun res => res.errors) = some []
      ∧ (ProcessRequest qsqrt Merge (newellNormal qsqrt) allPairs id Filter.new true exTwo
          exBz).bind (fun res => res.resultA.map fun c => c.cells)
        = some [⟨VTK_LINE, [0, 1]⟩, ⟨VTK_LINE, [2, 3]⟩]
      ∧ (ProcessRequest qsqrt Merge (newellNormal qsqrt) allPairs id Filter.new true exTwo
          exBz).bind (fun res => res.resultA.map fun c => c.arrays)
        = some [("cA", [[0], [1]]), ("cB", [[0], [0]]),
            ("sourcesA", [[NOTSET, NOTSET], [NOTSET, NOTSET]]), ("sourcesB", [[1, 0], [1, 0]])]
      ∧ (ProcessRequest qsqrt Merge (newellNormal qsqrt) allPairs id Filter.new true exTwo
          exBz).map
        (fun res => (res.self.neigsA, res.self.neigsB)) = some ([1, 0], [NOTSET, NOTSET]) := by
  refine ⟨by decide!, by decide!, by decide!, by decide!⟩
/-! ### The quad decomposition and the area -/

section Theorems

variable {K : Type} [LinearOrderedField K]

theorem crossSum_three (a b c : Vec3 K) :
    crossSum [a, b, c] = Cross (Subtract b a) (Subtract c a) := by
  simp only [crossSum, List.length_cons, List.length_nil, List.range_succ, List.range_zero,
    List.nil_append, List.cons_append, List.foldl_cons, List.foldl_nil, Add, Cross, Subtract,
    Vec3.mk.injEq]
  norm_num [List.getD]
  refine ⟨?_, ?_, ?_⟩ <;> ring

theorem crossSum_four (a b c d : Vec3 K) :
    crossSum [a, b, c, d] = Cross (Subtract c a) (Subtract d b) := by
  simp only [crossSum, List.length_cons, List.length_nil, List.range_succ, List.range_zero,
    List.nil_append, List.cons_append, List.foldl_cons, List.foldl_nil, Add, Cross, Subtract,
    Vec3.mk.injEq]
  norm_num [List.getD]
  refine ⟨?_, ?_, ?_⟩ <;> ring

/-- The cross product of two vectors of the plane with the unit normal `n` is parallel to `n`:
its length is the absolute value of its component along `n`. -/
theorem cross_in_plane (n u w : Vec3 K) (hn : Dot n n = 1) (hu : Dot n u = 0)
    (hw : Dot n w = 0) :
    Dot n (Cross u w) * Dot n (Cross u w) = Dot (Cross u w) (Cross u w) := by
  simp only [Dot, Cross] at hn hu hw ⊢
  linear_combination
    ((u.y * w.z - u.z * w.y) * (u.y * w.z - u.z * w.y)
      + (u.z * w.x - u.x * w.z) * (u.z * w.x - u.x * w.z)
      + (u.x * w.y - u.y * w.x) * (u.x * w.y - u.y * w.x)) * hn
    - ((n.x * w.x + n.y * w.y + n.z * w.z) * (u.x * u.x + u.y * u.y + u.z * u.z)
        - (n.x * u.x + n.y * u.y + n.z * u.z) * (u.x * w.x + u.y * w.y + u.z * w.z)) * hw
    - ((n.x * u.x + n.y * u.y + n.z * u.z) * (w.x * w.x + w.y * w.y + w.z * w.z)
        - (n.x * w.x + n.y * w.y + n.z * w.z) * (u.x * w.x + u.y * w.y + u.z * w.z)) * hu

theorem dot_sub (n a b : Vec3 K) : Dot n (Subtract a b) = Dot n a - Dot n b := by
  simp only [Dot, Subtract]
  ring

theorem abs_add_iff_mul (s t : K) : |s| + |t| = |s + t| ↔ 0 ≤ s * t := by
  rw [eq_comm, abs_add_eq_add_abs_iff, mul_nonneg_iff]

/-- C23, amended: for a planar quad `ABCD` with the unit normal `n` of its plane, the quad
decomposition yields the triangles `ABC` and `ACD`; the areas of the three polygons are half
the lengths of their cross-product sums, the signed areas of the two triangles add up to the
signed area of the quad, and the areas add up to the area of the quad exactly when the two
triangles are oriented alike (the product of their signed areas is not negative), as they
are in every convex quad. -/
theorem decomposed_quad_area (n : Vec3 K) (pd : PolyData K) (a b c d : Int)
    (hn : Dot n n = 1)
    (hb : Dot n (pd.GetPoint b) = Dot n (pd.GetPoint a))
    (hc : Dot n (pd.GetPoint c) = Dot n (pd.GetPoint a))
    (hd : Dot n (pd.GetPoint d) = Dot n (pd.GetPoint a)) :
    decomposed ⟨VTK_QUAD, [a, b, c, d]⟩
        = [⟨VTK_TRIANGLE, [a, b, c]⟩, ⟨VTK_TRIANGLE, [a, c, d]⟩]
      ∧ (2 * polyArea n pd [a, b, c]) * (2 * polyArea n pd [a, b, c])
          = Dot (crossSum ([a, b, c].map pd.GetPoint)) (crossSum ([a, b, c].map pd.GetPoint))
      ∧ (2 * polyArea n pd [a, c, d]) * (2 * polyArea n pd [a, c, d])
          = Dot (crossSum ([a, c, d].map pd.GetPoint)) (crossSum ([a, c, d].map pd.GetPoint))
      ∧ (2 * polyArea n pd [a, b, c, d]) * (2 * polyArea n pd [a, b, c, d])
          = Dot (crossSum ([a, b, c, d].map pd.GetPoint))
              (crossSum ([a, b, c, d].map pd.GetPoint))
      ∧ signedArea n pd [a, b, c] + signedArea n pd [a, c, d] = signedArea n pd [a, b, c, d]
      ∧ (polyArea n pd [a, b, c] + polyArea n pd [a, c, d] = polyArea n pd [a, b, c, d]
          ↔ 0 ≤ signedArea n pd [a, b, c] * signedArea n pd [a, c, d]) := by
  have hsq : ∀ s : K, (2 * |s / 2|) * (2 * |s / 2|) = s * s := by
    intro s
    rw [abs_div, abs_two, mul_div_cancel₀ _ (two_ne_zero), abs_mul_abs_self]
  have hba : Dot n (Subtract (pd.GetPoint b) (pd.GetPoint a)) = 0 := by
    rw [dot_sub, hb, sub_self]
  have hca : Dot n (Subtract (pd.GetPoint c) (pd.GetPoint a)) = 0 := by
    rw [dot_sub, hc, sub_self]
  have hda : Dot n (Subtract (pd.GetPoint d) (pd.GetPoint a)) = 0 := by
    rw [dot_sub, hd, sub_self]
  have hdb : Dot n (Subtract (pd.GetPoint d) (pd.GetPoint b)) = 0 := by
    rw [dot_sub, hd, hb, sub_self]
  have hsum : signedArea n pd [a, b, c] + signedArea n pd [a, c, d]
      = signedArea n pd [a, b, c, d] := by
    simp only [signedArea, List.map_cons, List.map_nil, crossSum_three, crossSum_four, Dot,
      Cross, Subtract]
    ring
  refine ⟨rfl, ?_, ?_, ?_, hsum, ?_⟩
  · simp only [polyArea, signedArea, List.map_cons, List.map_nil, crossSum_three]
    rw [hsq]
    exact cross_in_plane n _ _ hn hba hca
  · simp only [polyArea, signedArea, List.map_cons, List.map_nil, crossSum_three]
    rw [hsq]
    exact cross_in_plane n _ _ hn hca hda
  · simp only [polyArea, signedArea, List.map_cons, List.map_nil, crossSum_four]
    rw [hsq]
    exact cross_in_plane n _ _ hn hca hdb
  · unfold polyArea
    rw [← hsum]
    exact abs_add_iff_mul _ _

end Theorems

/-- The quad of `exQuad`, the unit square in the plane `z = 0`: the two triangles have the area
`1/2` each and the quad has the area 1. -/
theorem decomposed_quad_area_witness :
    decomposed ⟨VTK_QUAD, [0, 1, 2, 3]⟩
        = [⟨VTK_TRIANGLE, [0, 1, 2]⟩, ⟨VTK_TRIANGLE, [0, 2, 3]⟩]
      ∧ polyArea ⟨0, 0, 1⟩ exQuad [0, 1, 2] = 1 / 2
      ∧ polyArea ⟨0, 0, 1⟩ exQuad [0, 2, 3] = 1 / 2
      ∧ polyArea ⟨0, 0, 1⟩ exQuad [0, 1, 2, 3] = 1
      ∧ polyArea ⟨0, 0, 1⟩ exQuad [0, 1, 2] + polyArea ⟨0, 0, 1⟩ exQuad [0, 2, 3]
        = polyArea ⟨0, 0, 1⟩ exQuad [0, 1, 2, 3] := by
  have h := decomposed_quad_area (⟨0, 0, 1⟩ : Vec3 ℚ) exQuad 0 1 2 3 (by decide!) (by decide!)
    (by decide!) (by decide!)
  exact ⟨h.1, by decide!, by decide!, by decide!, h.2.2.2.2.2.mpr (by decide!)⟩

/-- The areas do not add up for the dart: `PreparePolyData` cuts the quad of `exDart`, which lies
in the plane `z = 0`, into the triangles `[0, 1, 2]` and `[0, 2, 3]` of the areas 1 and 3, the
first of them clockwise and outside the quad, while the quad has the area 2. -/
theorem decomposed_dart_counterexample :
    (PreparePolyData exDart []).1.cells = [⟨VTK_TRIANGLE, [0, 1, 2]⟩, ⟨VTK_TRIANGLE, [0, 2, 3]⟩]
      ∧ exDart.points.map (fun p => Dot (⟨0, 0, 1⟩ : Vec3 ℚ) p) = [0, 0, 0, 0]
      ∧ signedArea ⟨0, 0, 1⟩ exDart [0, 1, 2] = -1
      ∧ signedArea ⟨0, 0, 1⟩ exDart [0, 2, 3] = 3
      ∧ polyArea ⟨0, 0, 1⟩ exDart [0, 1, 2] = 1
      ∧ polyArea ⟨0, 0, 1⟩ exDart [0, 2, 3] = 3
      ∧ polyArea ⟨0, 0, 1⟩ exDart [0, 1, 2, 3] = 2 := by
  decide!
/-! ### Two unit cubes -/

theorem option_map_some {α β : Type} (x : Option α) (f : α → β) (v : β)
    (h : x.map f = some v) : ∃ a, x = some a ∧ f a = v := by
  cases x with
  | none => cases h
  | some a => exact ⟨a, rfl, Option.some.inj h⟩

/-- The pass over all pairs of faces of the two prepared cubes, evaluated. -/
theorem two_cubes_run :
    (InterOBBNodes qsqrt Merge (newellNormal qsqrt)
        (prepared (exCube VTK_POLYGON 0) (exCube VTK_POLYGON (1 / 2)))
        [0, 1, 2, 3, 4, 5] [0, 1, 2, 3, 4, 5]).map
      (fun s => (contSegments s, (s.contA, s.contB), (s.invalidA, s.invalidB)))
      = some ([(⟨1, 1 / 2, 1⟩, ⟨1, 1 / 2, 1 / 2⟩), (⟨1, 1 / 2, 1 / 2⟩, ⟨1, 1, 1 / 2⟩),
            (⟨1 / 2, 1, 1 / 2⟩, ⟨1 / 2, 1, 1⟩), (⟨1, 1, 1 / 2⟩, ⟨1 / 2, 1, 1 / 2⟩),
            (⟨1 / 2, 1, 1⟩, ⟨1 / 2, 1 / 2, 1⟩), (⟨1 / 2, 1 / 2, 1⟩, ⟨1, 1 / 2, 1⟩)],
          ([1, 1, 3, 3, 5, 5], [2, 4, 0, 4, 0, 2]), (false, false)) := by
  decide!

/-- C24, amended: the cubes `[0, 1]^3` and `[1/2, 3/2]^3`, each given by its eight corners
and its six square faces as single polygon cells, which the preparation keeps as they are
(no face is cut into several cells). The pass over all 36 pairs
of faces of the prepared meshes is not aborted, sets no flag and accumulates exactly six
segments. They are the six sides of the closed intersection loop through the corners
`(1, 1/2, 1/2)`, `(1, 1, 1/2)`, `(1/2, 1, 1/2)`, `(1/2, 1, 1)`, `(1/2, 1/2, 1)` and
`(1, 1/2, 1)`: every corner is an end point of exactly two segments. -/
theorem InterOBBNodes_two_cubes :
    ∃ s, InterOBBNodes qsqrt Merge (newellNormal qsqrt)
          (prepared (exCube VTK_POLYGON 0) (exCube VTK_POLYGON (1 / 2)))
          [0, 1, 2, 3, 4, 5] [0, 1, 2, 3, 4, 5] = some s
      ∧ s.contLines.length = 6
      ∧ contSegments s
        = [(⟨1, 1 / 2, 1⟩, ⟨1, 1 / 2, 1 / 2⟩), (⟨1, 1 / 2, 1 / 2⟩, ⟨1, 1, 1 / 2⟩),
            (⟨1 / 2, 1, 1 / 2⟩, ⟨1 / 2, 1, 1⟩), (⟨1, 1, 1 / 2⟩, ⟨1 / 2, 1, 1 / 2⟩),
            (⟨1 / 2, 1, 1⟩, ⟨1 / 2, 1 / 2, 1⟩), (⟨1 / 2, 1 / 2, 1⟩, ⟨1, 1 / 2, 1⟩)]
      ∧ (s.contA, s.contB) = ([1, 1, 3, 3, 5, 5], [2, 4, 0, 4, 0, 2])
      ∧ (s.invalidA, s.invalidB) = (false, false)
      ∧ (hexagonCorners.map fun p =>
          ((contSegments s).filter fun pq => pq.1 = p ∨ pq.2 = p).length) = [2, 2, 2, 2, 2, 2]
      ∧ (prepared (exCube VTK_POLYGON 0) (exCube VTK_POLYGON (1 / 2))).pdA.cells
        = (exCube VTK_POLYGON 0).cells
      ∧ (prepared (exCube VTK_POLYGON 0) (exCube VTK_POLYGON (1 / 2))).pdB.cells
        = (exCube VTK_POLYGON (1 / 2)).cells := by
  obtain ⟨s, hs, hv⟩ := option_map_some _ _ _ two_cubes_run
  simp only [Prod.mk.injEq] at hv
  obtain ⟨h2, h3, h4⟩ := hv
  have h1 : s.contLines.length = 6 := by
    have := congrArg List.length h2
    simpa [contSegments] using this
  refine ⟨s, hs, h1, h2, ?_, ?_, ?_, ?_, ?_⟩
  · rw [h3.1, h3.2]
  · rw [h4.1, h4.2]
  · rw [h2]
    decide!
  · decide!
  · decide!

/-! ### GetArea -/

section Theorems

variable {K : Type} [LinearOrderedField K]

theorem foldl_add_range (f : Nat → K) (m : Nat) :
    (List.range m).foldl (fun sum i => sum + f i) 0 = Finset.sum (Finset.range m) f := by
  induction m with
  | zero => rfl
  | succ m ih =>
    rw [List.range_succ, List.foldl_append, ih, Finset.sum_range_succ]
    rfl

/-- The sum that `GetArea` returns in exact arithmetic, over the index set. -/
theorem GetArea_sum (poly : List (Point K)) :
    GetArea id poly = Finset.sum (Finset.range poly.length) fun i =>
      (pointAt poly i).x * (pointAt poly ((i + 1) % poly.length)).y
        - (pointAt poly ((i + 1) % poly.length)).x * (pointAt poly i).y := by
  unfold GetArea
  simp only [id_eq]
  exact foldl_add_range _ _

/-- A sum over the cyclically shifted indices. -/
theorem sum_cyclic_shift (h : Nat → K) (n : Nat) :
    Finset.sum (Finset.range n) (fun i => h ((i + 1) % n)) = Finset.sum (Finset.range n) h := by
  cases n with
  | zero => rfl
  | succ m =>
    rw [Finset.sum_range_succ, Finset.sum_range_succ', Nat.mod_self]
    congr 1
    apply Finset.sum_congr rfl
    intro i hi
    rw [Finset.mem_range] at hi
    rw [Nat.mod_eq_of_lt (by omega)]

/-- A sum over the indices mirrored and shifted, `n - 1 - (i + 1) % n`. -/
theorem sum_cyclic_mirror (h : Nat → K) (n : Nat) :
    Finset.sum (Finset.range n) (fun i => h (n - 1 - (i + 1) % n))
      = Finset.sum (Finset.range n) h := by
  cases n with
  | zero => rfl
  | succ m =>
    rw [Finset.sum_range_succ, Nat.mod_self, Finset.sum_range_succ h m,
      ← Finset.sum_range_reflect h m]
    congr 1
    apply Finset.sum_congr rfl
    intro i hi
    rw [Finset.mem_range] at hi
    rw [Nat.mod_eq_of_lt (by omega)]
    congr 1
    omega

theorem pointAt_rotate_one (poly : List (Point K)) (i : Nat) (hi : i < poly.length) :
    pointAt (poly.rotate 1) i = pointAt poly ((i + 1) % poly.length) := by
  unfold pointAt
  rw [List.getD_eq_getElem?_getD, List.getD_eq_getElem?_getD, List.getElem?_rotate hi]

theorem pointAt_reverse (poly : List (Point K)) (i : Nat) (hi : i < poly.length) :
    pointAt poly.reverse i = pointAt poly (poly.length - 1 - i) := by
  unfold pointAt
  rw [List.getD_eq_getElem?_getD, List.getD_eq_getElem?_getD, List.getElem?_reverse hi]

theorem GetArea_rotate_one (poly : List (Point K)) :
    GetArea id (poly.rotate 1) = GetArea id poly := by
  rw [GetArea_sum, GetArea_sum, List.length_rotate,
    ← sum_cyclic_shift (fun i => (pointAt poly i).x * (pointAt poly ((i + 1) % poly.length)).y
      - (pointAt poly ((i + 1) % poly.length)).x * (pointAt poly i).y) poly.length]
  apply Finset.sum_congr rfl
  intro i hi
  rw [Finset.mem_range] at hi
  have hpos : 0 < poly.length := by omega
  rw [pointAt_rotate_one poly i hi,
    pointAt_rotate_one poly ((i + 1) % poly.length) (Nat.mod_lt _ hpos)]

theorem GetArea_reverse (poly : List (Point K)) :
    GetArea id poly.reverse = - GetArea id poly := by
  rw [GetArea_sum, GetArea_sum, List.length_reverse,
    ← sum_cyclic_mirror (fun i => (pointAt poly i).x * (pointAt poly ((i + 1) % poly.length)).y
      - (pointAt poly ((i + 1) % poly.length)).x * (pointAt poly i).y) poly.length,
    ← Finset.sum_neg_distrib]
  apply Finset.sum_congr rfl
  intro i hi
  rw [Finset.mem_range] at hi
  have hpos : 0 < poly.length := by omega
  have hidx : (poly.length - 1 - (i + 1) % poly.length + 1) % poly.length
      = poly.length - 1 - i := by
    by_cases hl : i + 1 = poly.length
    · rw [hl, Nat.mod_self, Nat.sub_zero, Nat.sub_add_cancel hpos, Nat.mod_self]
      omega
    · have h1 : (i + 1) % poly.length = i + 1 := Nat.mod_eq_of_lt (by omega)
      have h2 : poly.length - 1 - (i + 1) + 1 < poly.length := by omega
      rw [h1, Nat.mod_eq_of_lt h2]
      omega
  rw [pointAt_reverse poly i hi, pointAt_reverse poly ((i + 1) % poly.length)
    (Nat.mod_lt _ hpos), hidx]
  ring

theorem foldl_Add_z (F : Nat → Vec3 K) (m : Nat) :
    ((List.range m).foldl (fun acc i => Add acc (F i)) ⟨0, 0, 0⟩).z
      = Finset.sum (Finset.range m) fun i => (F i).z := by
  induction m with
  | zero => rfl
  | succ m ih =>
    rw [List.range_succ, List.foldl_append, Finset.sum_range_succ, ← ih]
    rfl

/-- The sum that `GetArea` returns in exact arithmetic is the component along the z axis of the sum of the cross
products of consecutive corners, the corners taken in the plane `z = 0`: twice the signed
area of the polygon. -/
theorem GetArea_crossSum (poly : List (Point K)) :
    Dot ⟨0, 0, 1⟩ (crossSum (poly.map fun p => (⟨p.x, p.y, 0⟩ : Vec3 K))) = GetArea id poly := by
  have hd : ∀ v : Vec3 K, Dot ⟨0, 0, 1⟩ v = v.z := by
    intro v
    simp [Dot]
  have hg : ∀ i, (poly.map fun p => (⟨p.x, p.y, 0⟩ : Vec3 K)).getD i ⟨0, 0, 0⟩
      = ⟨(pointAt poly i).x, (pointAt poly i).y, 0⟩ := by
    intro i
    exact List.getD_map poly ⟨0, 0⟩ (fun p => (⟨p.x, p.y, 0⟩ : Vec3 K))
  rw [hd, GetArea_sum]
  unfold crossSum
  rw [foldl_Add_z, List.length_map]
  apply Finset.sum_congr rfl
  intro i _
  rw [hg, hg]
  simp only [Cross]
  ring

/-- With fewer than three points the loop of `GetArea` adds nothing or a term and its
negative: the result is 0 under every rounding that maps 0 to 0, commutes with the negation
and leaves its own results unchanged. -/
theorem GetArea_small (fl : K → K) (h0 : fl 0 = 0) (hodd : ∀ x, fl (-x) = -fl x)
    (hidem : ∀ x, fl (fl x) = fl x) (poly : List (Point K)) (h : poly.length < 3) :
    GetArea fl poly = 0 := by
  match poly, h with
  | [], _ => rfl
  | [a], _ =>
    simp only [GetArea, pointAt, List.length_cons, List.length_nil, List.range_succ,
      List.range_zero, List.nil_append, List.foldl_cons, List.foldl_nil]
    norm_num [List.getD, h0]
  | [a, b], _ =>
    simp only [GetArea, pointAt, List.length_cons, List.length_nil, List.range_succ,
      List.range_zero, List.nil_append, List.cons_append, List.foldl_cons, List.foldl_nil]
    norm_num [List.getD]
    have e : fl (fl (b.x * a.y) - fl (a.x * b.y)) = -fl (fl (a.x * b.y) - fl (b.x * a.y)) := by
      rw [← hodd, neg_sub]
    rw [e, hidem, add_neg_cancel, h0]

/-- C31, amended: in exact arithmetic (`fl = id`) `GetArea` returns the shoelace sum of the
polygon, the sum over `i` of `x_i * y_(i+1) - x_(i+1) * y_i` with the indices taken
cyclically, which is twice the signed area, the component along the z axis of the sum of
the cross products of consecutive corners; in exact arithmetic it does not change when the
vertex list is rotated cyclically, and it changes its sign when the vertex order is
reversed. It is 0 for a polygon with fewer than three points, also when the operations are
rounded, for every rounding `fl` that maps 0 to 0, commutes with the negation and leaves its
own results unchanged, as the rounding to the nearest double does. -/
theorem GetArea_shoelace (fl : K → K) (h0 : fl 0 = 0) (hodd : ∀ x, fl (-x) = -fl x)
    (hidem : ∀ x, fl (fl x) = fl x) (poly : List (Point K)) :
    GetArea id poly = Finset.sum (Finset.range poly.length) (fun i =>
        (pointAt poly i).x * (pointAt poly ((i + 1) % poly.length)).y
          - (pointAt poly ((i + 1) % poly.length)).x * (pointAt poly i).y)
      ∧ Dot ⟨0, 0, 1⟩ (crossSum (poly.map fun p => (⟨p.x, p.y, 0⟩ : Vec3 K)))
        = GetArea id poly
      ∧ (poly.length < 3 → GetArea fl poly = 0)
      ∧ (∀ k, GetArea id (poly.rotate k) = GetArea id poly)
      ∧ GetArea id poly.reverse = - GetArea id poly := by
  refine ⟨GetArea_sum poly, GetArea_crossSum poly, GetArea_small fl h0 hodd hidem poly, ?_,
    GetArea_reverse poly⟩
  intro k
  induction k with
  | zero => rw [List.rotate_zero]
  | succ k ih =>
    rw [← List.rotate_rotate, GetArea_rotate_one, ih]

end Theorems

/-! ### The rounding to double -/

theorem log2Bits_spec (b n : Nat) (hb : n < 2 ^ b) (hn : 0 < n) :
    2 ^ log2Bits b n ≤ n ∧ n < 2 ^ (log2Bits b n + 1) := by
  induction b generalizing n with
  | zero =>
    simp at hb
    omega
  | succ b ih =>
    unfold log2Bits
    by_cases h2 : n < 2
    · rw [if_pos h2]
      simp
      omega
    · rw [if_neg h2]
      have hb2 : n / 2 < 2 ^ b := by
        rw [pow_succ] at hb
        omega
      obtain ⟨i1, i2⟩ := ih (n / 2) hb2 (by omega)
      rw [pow_succ, pow_succ]
      rw [pow_succ] at i2
      constructor <;> omega

theorem log2Bits_self (n : Nat) (hn : 0 < n) :
    2 ^ log2Bits n n ≤ n ∧ n < 2 ^ (log2Bits n n + 1) :=
  log2Bits_spec n n (Nat.lt_two_pow n) hn

theorem binExp_spec (y : ℚ) (hy : 0 < y) :
    (2 : ℚ) ^ binExp y ≤ y ∧ y < (2 : ℚ) ^ (binExp y + 1) := by
  have hnum : 0 < y.num := Rat.num_pos.mpr hy
  have hp : 0 < y.num.toNat := by omega
  have hq : 0 < y.den := y.den_pos
  obtain ⟨p1, p2⟩ := log2Bits_self y.num.toNat hp
  obtain ⟨q1, q2⟩ := log2Bits_self y.den hq
  have hyq : y = (y.num.toNat : ℚ) / (y.den : ℚ) := by
    have h1 : ((y.num.toNat : Int) : ℚ) = (y.num : ℚ) := by
      rw [Int.toNat_of_nonneg hnum.le]
    rw [← Int.cast_natCast y.num.toNat, h1]
    exact (Rat.num_div_den y).symm
  have hp1 : (2 : ℚ) ^ (log2Bits y.num.toNat y.num.toNat) ≤ (y.num.toNat : ℚ) := by
    exact_mod_cast p1
  have hp2 : (y.num.toNat : ℚ) < (2 : ℚ) ^ (log2Bits y.num.toNat y.num.toNat + 1) := by
    exact_mod_cast p2
  have hq1 : (2 : ℚ) ^ (log2Bits y.den y.den) ≤ (y.den : ℚ) := by
    exact_mod_cast q1
  have hq2 : (y.den : ℚ) < (2 : ℚ) ^ (log2Bits y.den y.den + 1) := by
    exact_mod_cast q2
  have hqpos : (0 : ℚ) < (y.den : ℚ) := by exact_mod_cast hq
  have h2 : (2 : ℚ) ≠ 0 := by norm_num
  unfold binExp
  generalize log2Bits y.num.toNat y.num.toNat = lp at *
  generalize log2Bits y.den y.den = lq at *
  have hlow : (2 : ℚ) ^ ((lp : Int) - (lq : Int) - 1) ≤ y := by
    rw [sub_sub, zpow_sub₀ h2, hyq, div_le_div_iff₀ (by positivity) hqpos]
    have : (2 : ℚ) ^ ((lq : Int) + 1) = (2 : ℚ) ^ (lq + 1) := by
      rw [← zpow_natCast]
      norm_cast
    rw [this, zpow_natCast]
    calc (2 : ℚ) ^ lp * (y.den : ℚ) ≤ (y.num.toNat : ℚ) * (y.den : ℚ) :=
          mul_le_mul_of_nonneg_right hp1 hqpos.le
      _ ≤ (y.num.toNat : ℚ) * (2 : ℚ) ^ (lq + 1) :=
          mul_le_mul_of_nonneg_left hq2.le (by positivity)
  have hhigh : y < (2 : ℚ) ^ ((lp : Int) - (lq : Int) + 1) := by
    have e : (lp : Int) - (lq : Int) + 1 = ((lp + 1 : Nat) : Int) - (lq : Int) := by
      push_cast
      ring
    rw [e, zpow_sub₀ h2, zpow_natCast, zpow_natCast]
    conv_lhs => rw [hyq]
    rw [div_lt_div_iff₀ hqpos (by positivity)]
    calc (y.num.toNat : ℚ) * (2 : ℚ) ^ lq ≤ (y.num.toNat : ℚ) * (y.den : ℚ) :=
          mul_le_mul_of_nonneg_left hq1 (by positivity)
      _ < (2 : ℚ) ^ (lp + 1) * (y.den : ℚ) := mul_lt_mul_of_pos_right hp2 hqpos
  split_ifs with hc
  · exact ⟨hc, hhigh⟩
  · refine ⟨hlow, ?_⟩
    rw [sub_add_cancel]
    exact not_le.mp hc

theorem binExp_unique (y : ℚ) (k : Int) (h1 : (2 : ℚ) ^ k ≤ y) (h2 : y < (2 : ℚ) ^ (k + 1)) :
    binExp y = k := by
  have hy : 0 < y := lt_of_lt_of_le (by positivity) h1
  obtain ⟨s1, s2⟩ := binExp_spec y hy
  have a : k < binExp y + 1 :=
    (zpow_lt_zpow_iff_right₀ (by norm_num : (1 : ℚ) < 2)).mp (lt_of_le_of_lt h1 s2)
  have b : binExp y < k + 1 :=
    (zpow_lt_zpow_iff_right₀ (by norm_num : (1 : ℚ) < 2)).mp (lt_of_le_of_lt s1 h2)
  omega

theorem roundEven_intCast (n : Int) : roundEven (n : ℚ) = n := by
  unfold roundEven
  rw [Int.floor_intCast, sub_self, if_pos (by norm_num)]

theorem roundEven_ge (q : ℚ) (a : Int) (h : (a : ℚ) ≤ q) : a ≤ roundEven q := by
  have hf : a ≤ ⌊q⌋ := Int.le_floor.mpr h
  unfold roundEven
  split_ifs <;> omega

theorem roundEven_le (q : ℚ) (b : Int) (h : q < (b : ℚ)) : roundEven q ≤ b := by
  have hf : ⌊q⌋ < b := Int.floor_lt.mpr h
  unfold roundEven
  split_ifs <;> omega

theorem roundPos_pos (y : ℚ) (hy : 0 < y) : 0 < roundPos y := by
  obtain ⟨s1, s2⟩ := binExp_spec y hy
  unfold roundPos
  have hs : (0 : ℚ) < (2 : ℚ) ^ (binExp y - 52) := by positivity
  have hq : ((4503599627370496 : Int) : ℚ) ≤ y / (2 : ℚ) ^ (binExp y - 52) := by
    rw [le_div_iff₀ hs]
    have : ((4503599627370496 : Int) : ℚ) * (2 : ℚ) ^ (binExp y - 52) = (2 : ℚ) ^ binExp y := by
      rw [zpow_sub₀ (by norm_num : (2 : ℚ) ≠ 0)]
      norm_num
      ring
    rw [this]
    exact s1
  have hn := roundEven_ge _ _ hq
  have : (0 : ℚ) < (roundEven (y / (2 : ℚ) ^ (binExp y - 52)) : ℚ) := by
    have : (0 : Int) < roundEven (y / (2 : ℚ) ^ (binExp y - 52)) := by omega
    exact_mod_cast this
  positivity

theorem roundPos_idem (y : ℚ) (hy : 0 < y) : roundPos (roundPos y) = roundPos y := by
  obtain ⟨s1, s2⟩ := binExp_spec y hy
  have h2 : (2 : ℚ) ≠ 0 := by norm_num
  have hs : (0 : ℚ) < (2 : ℚ) ^ (binExp y - 52) := by positivity
  have e52 : ((4503599627370496 : Int) : ℚ) * (2 : ℚ) ^ (binExp y - 52) = (2 : ℚ) ^ binExp y := by
    rw [zpow_sub₀ h2]
    norm_num
    ring
  have e53 : ((9007199254740992 : Int) : ℚ) * (2 : ℚ) ^ (binExp y - 52)
      = (2 : ℚ) ^ (binExp y + 1) := by
    rw [zpow_sub₀ h2, zpow_add₀ h2]
    norm_num
    ring
  have hq1 : ((4503599627370496 : Int) : ℚ) ≤ y / (2 : ℚ) ^ (binExp y - 52) := by
    rw [le_div_iff₀ hs, e52]
    exact s1
  have hq2 : y / (2 : ℚ) ^ (binExp y - 52) < ((9007199254740992 : Int) : ℚ) := by
    rw [div_lt_iff₀ hs, e53]
    exact s2
  have n1 := roundEven_ge _ _ hq1
  have n2 := roundEven_le _ _ hq2
  have hdef : roundPos y
      = (roundEven (y / (2 : ℚ) ^ (binExp y - 52)) : ℚ) * (2 : ℚ) ^ (binExp y - 52) := rfl
  generalize roundEven (y / (2 : ℚ) ^ (binExp y - 52)) = n at n1 n2 hdef
  rw [hdef]
  generalize binExp y = e at *
  by_cases hn : n < 9007199254740992
  · have hb : binExp ((n : ℚ) * (2 : ℚ) ^ (e - 52)) = e := by
      apply binExp_unique
      · rw [← e52]
        exact mul_le_mul_of_nonneg_right (by exact_mod_cast n1) hs.le
      · rw [← e53]
        exact mul_lt_mul_of_pos_right (by exact_mod_cast hn) hs
    unfold roundPos
    rw [hb, mul_div_assoc, div_self hs.ne', mul_one, roundEven_intCast]
  · have hn2 : n = 9007199254740992 := by omega
    subst hn2
    rw [e53]
    have hb : binExp ((2 : ℚ) ^ (e + 1)) = e + 1 := by
      apply binExp_unique
      · exact le_refl _
      · exact (zpow_lt_zpow_iff_right₀ (by norm_num : (1 : ℚ) < 2)).mpr (by omega)
    unfold roundPos
    rw [hb]
    have hdiv : (2 : ℚ) ^ (e + 1) / (2 : ℚ) ^ (e + 1 - 52) = ((4503599627370496 : Int) : ℚ) := by
      rw [← zpow_sub₀ h2]
      have : e + 1 - (e + 1 - 52) = 52 := by ring
      rw [this]
      norm_num
    rw [hdiv, roundEven_intCast, zpow_sub₀ h2]
    norm_num
    ring

theorem roundDouble_zero : roundDouble 0 = 0 := by
  unfold roundDouble
  rw [if_pos rfl]

theorem roundDouble_neg (x : ℚ) : roundDouble (-x) = -roundDouble x := by
  unfold roundDouble
  rcases lt_trichotomy x 0 with h | h | h
  · rw [if_neg (by linarith), if_pos (by linarith), if_neg h.ne, if_neg (by linarith), neg_neg]
  · subst h
    simp
  · rw [if_neg (by linarith), if_neg (by linarith), if_neg h.ne', if_pos h, neg_neg]

theorem roundDouble_idem (x : ℚ) : roundDouble (roundDouble x) = roundDouble x := by
  rcases lt_trichotomy x 0 with h | h | h
  · have hx : roundDouble x = -roundPos (-x) := by
      unfold roundDouble
      rw [if_neg h.ne, if_neg (by linarith)]
    have hp := roundPos_pos (-x) (by linarith)
    rw [hx]
    unfold roundDouble
    rw [if_neg (by linarith), if_neg (by linarith), neg_neg, roundPos_idem (-x) (by linarith)]
  · subst h
    rw [roundDouble_zero, roundDouble_zero]
  · have hx : roundDouble x = roundPos x := by
      unfold roundDouble
      rw [if_neg h.ne', if_pos h]
    have hp := roundPos_pos x h
    rw [hx]
    unfold roundDouble
    rw [if_neg hp.ne', if_pos hp, roundPos_idem x h]

/-- The triangle `exTri` has the shoelace sum 12, twice its area; the rotated list gives the
same sum, the reversed list its negative, and the list of its first two corners gives 0,
here with every operation rounded to double. -/
theorem GetArea_shoelace_witness :
    GetArea id exTri = 12
      ∧ GetArea roundDouble (exTri.take 2) = 0
      ∧ GetArea id (exTri.rotate 2) = 12
      ∧ GetArea id exTri.reverse = -12 := by
  have h := GetArea_shoelace roundDouble roundDouble_zero roundDouble_neg roundDouble_idem exTri
  have h2 := (GetArea_shoelace roundDouble roundDouble_zero roundDouble_neg roundDouble_idem
    (exTri.take 2)).2.2.1 (by decide)
  have e : GetArea id exTri = 12 := by decide!
  exact ⟨e, h2, (h.2.2.2.1 2).trans e, h.2.2.2.2.trans (by rw [e])⟩

/-- The triangle `exBigTri`, whose coordinates are doubles, with every operation rounded to
double: the sum `2^60` of the first step absorbs the term 1 of the second, and the
third step takes `2^60` away again, so that `GetArea` returns 0 where the shoelace sum is 1;
for the list rotated by two places the terms come in the order `-2^60`, `2^60`, `1`, and
`GetArea` returns 1. -/
theorem GetArea_rounding_counterexample :
    (exBigTri.map fun p => (roundDouble p.x, roundDouble p.y))
        = (exBigTri.map fun p => (p.x, p.y))
      ∧ GetArea id exBigTri = 1
      ∧ GetArea roundDouble exBigTri = 0
      ∧ GetArea roundDouble (exBigTri.rotate 2) = 1 := by
  refine ⟨by decide!, by decide!, by decide!, by decide!⟩

/-! ### The non-manifold edge set of `PreparePolyData` -/

theorem cellEdges_usesEdge (c : Cell) (e : Int × Int) (h : e ∈ cellEdges c) :
    usesEdge c e.1 e.2 = true := by
  unfold usesEdge
  rw [Bool.or_eq_true, decide_eq_true_eq]
  exact Or.inl h

theorem simpleAt_symm (cells : List Cell) (u v : Int) (h : simpleAt cells u v) :
    simpleAt cells v u :=
  ⟨h.1, fun c hc hv hu => (usesEdge_symm c v u).trans (h.2 c hc hu hv)⟩

section Theorems

variable {K : Type} [LinearOrderedField K]

/-- A line of the feature edges is an edge of a cell that has more than one neighbour at the
edge, none of them with a smaller id than the cell. -/
theorem mem_featureEdges (pd : PolyData K) (ab : Vec3 K × Vec3 K) :
    ab ∈ nonManifoldFeatureEdges pd
      ↔ ∃ k, k < pd.cells.length
          ∧ ∃ e, e ∈ cellEdges (pd.cells.getD k ⟨VTK_EMPTY_CELL, []⟩)
            ∧ 1 < (pd.GetCellEdgeNeighbors (k : Int) e.1 e.2).length
            ∧ (∀ n ∈ pd.GetCellEdgeNeighbors (k : Int) e.1 e.2, ¬ n < (k : Int))
            ∧ ab = (pd.GetPoint e.1, pd.GetPoint e.2) := by
  unfold nonManifoldFeatureEdges
  simp only [List.mem_flatMap, List.mem_range, List.mem_map, List.mem_filter,
    Bool.and_eq_true, decide_eq_true_eq, List.all_eq_true]
  constructor
  · rintro ⟨k, hk, e, ⟨he, h1, h2⟩, rfl⟩
    exact ⟨k, hk, e, he, h1, h2, rfl⟩
  · rintro ⟨k, hk, e, he, h1, h2, rfl⟩
    exact ⟨k, hk, e, ⟨he, h1, h2⟩, rfl⟩

/-- On cells that are simple at an edge with three or more incident faces, the first cell
that has the edge contributes its line to the feature edges. -/
theorem featureEdges_of_first (pd : PolyData K) (k : Nat) (e : Int × Int)
    (hk : k < pd.cells.length) (he : e ∈ cellEdges (pd.cells.getD k ⟨VTK_EMPTY_CELL, []⟩))
    (hs : simpleAt pd.cells e.1 e.2) (h3 : 3 ≤ edgeUse pd.cells e.1 e.2)
    (hmin : ∀ m, m < k → ¬ (m < pd.cells.length
      ∧ usesEdge (pd.cells.getD m ⟨VTK_EMPTY_CELL, []⟩) e.1 e.2 = true)) :
    (pd.GetPoint e.1, pd.GetPoint e.2) ∈ nonManifoldFeatureEdges pd := by
  rw [mem_featureEdges]
  have hcount := edgeNeighbors_count pd k e.1 e.2 hk (cellEdges_usesEdge _ e he) hs
  refine ⟨k, hk, e, he, by omega, ?_, rfl⟩
  intro n hn hlt
  rw [edgeNeighbors_simple pd k e.1 e.2 hs, List.mem_map] at hn
  obtain ⟨c, hc, rfl⟩ := hn
  rw [List.mem_filter, List.mem_range, Bool.and_eq_true] at hc
  have hck : c < k := by exact_mod_cast hlt
  exact hmin c hck ⟨hc.1, hc.2.1⟩

theorem nonManifold_fold_mem (pd1 : PolyData K) (hn : pd1.points.Nodup)
    (hvalid : ∀ c ∈ pd1.cells, ∀ p ∈ c.pts, 0 ≤ p ∧ p < (pd1.points.length : Int))
    (hsimple : ∀ c ∈ pd1.cells, ∀ e ∈ cellEdges c, simpleAt pd1.cells e.1 e.2)
    (u v : Int) :
    (u, v) ∈ (nonManifoldFeatureEdges pd1).foldl
        (fun es ab => emplaceEdge es (pd1.FindPoint ab.1) (pd1.FindPoint ab.2)) []
      ↔ 3 ≤ edgeUse pd1.cells u v := by
  rw [emplace_fold_mem]
  have hround : ∀ c ∈ pd1.cells, ∀ e ∈ cellEdges c,
      pd1.FindPoint (pd1.GetPoint e.1) = e.1 ∧ pd1.FindPoint (pd1.GetPoint e.2) = e.2 := by
    intro c hc e he
    obtain ⟨m1, m2⟩ := cellEdges_mem_pts c e he
    exact ⟨FindPoint_GetPoint pd1 hn e.1 (hvalid c hc e.1 m1).1 (hvalid c hc e.1 m1).2,
      FindPoint_GetPoint pd1 hn e.2 (hvalid c hc e.2 m2).1 (hvalid c hc e.2 m2).2⟩
  constructor
  · rintro (h | ⟨ab, hab, h⟩)
    · cases h
    · obtain ⟨k, hk, e, he, h1, _, rfl⟩ := (mem_featureEdges pd1 ab).mp hab
      have hc := getD_mem_of_lt pd1.cells k ⟨VTK_EMPTY_CELL, []⟩ hk
      obtain ⟨r1, r2⟩ := hround _ hc e he
      have hcount := edgeNeighbors_count pd1 k e.1 e.2 hk (cellEdges_usesEdge _ e he)
        (hsimple _ hc e he)
      have h3 : 3 ≤ edgeUse pd1.cells e.1 e.2 := by omega
      dsimp only at h
      rw [r1, r2] at h
      rcases h with h | h
      · simp only [Prod.mk.injEq] at h
        rw [h.1, h.2]
        exact h3
      · simp only [Prod.mk.injEq] at h
        rw [h.1, h.2, edgeUse_symm]
        exact h3
  · intro h3
    right
    have hex : ∃ k, k < pd1.cells.length
        ∧ usesEdge (pd1.cells.getD k ⟨VTK_EMPTY_CELL, []⟩) u v = true := by
      rw [edgeUse_range] at h3
      obtain ⟨k, hk⟩ := List.exists_mem_of_length_pos (Nat.lt_of_lt_of_le (by decide) h3)
      rw [List.mem_filter, List.mem_range] at hk
      exact ⟨k, hk⟩
    obtain ⟨hk, hface⟩ := Nat.find_spec hex
    have hmin : ∀ m, m < Nat.find hex → ¬ (m < pd1.cells.length
        ∧ usesEdge (pd1.cells.getD m ⟨VTK_EMPTY_CELL, []⟩) u v = true) :=
      fun m hm => Nat.find_min hex hm
    have hc := getD_mem_of_lt pd1.cells (Nat.find hex) ⟨VTK_EMPTY_CELL, []⟩ hk
    unfold usesEdge at hface
    rw [Bool.or_eq_true, decide_eq_true_eq, decide_eq_true_eq] at hface
    rcases hface with he | he
    · obtain ⟨r1, r2⟩ := hround _ hc (u, v) he
      refine ⟨(pd1.GetPoint u, pd1.GetPoint v),
        featureEdges_of_first pd1 (Nat.find hex) (u, v) hk he (hsimple _ hc (u, v) he) h3 hmin,
        Or.inl ?_⟩
      dsimp only at r1 r2 ⊢
      rw [r1, r2]
    · obtain ⟨r1, r2⟩ := hround _ hc (v, u) he
      refine ⟨(pd1.GetPoint v, pd1.GetPoint u),
        featureEdges_of_first pd1 (Nat.find hex) (v, u) hk he (hsimple _ hc (v, u) he)
          (by rw [edgeUse_symm]; exact h3)
          (fun m hm => by rw [usesEdge_symm]; exact hmin m hm),
        Or.inr ?_⟩
      dsimp only at r1 r2 ⊢
      rw [r1, r2]

/-- C9, amended: after `PreparePolyData` on a mesh whose points have pairwise different
coordinates and whose prepared cells use valid point ids, list no point twice and have the
edge between two points whenever they hold both points of an edge of some cell, an ordered
vertex pair `(u, v)` is in the non-manifold edge set, which starts empty, if and only if the
edge between `u` and `v` has three or more incident faces in the prepared mesh; in
particular `(u, v)` is in the set iff `(v, u)` is. -/
theorem PreparePolyData_nonManifold_edges (pd : PolyData K) (hn : pd.points.Nodup)
    (hvalid : ∀ c ∈ (PreparePolyData pd []).1.cells, ∀ p ∈ c.pts,
      0 ≤ p ∧ p < (pd.points.length : Int))
    (hsimple : ∀ c ∈ (PreparePolyData pd []).1.cells, ∀ e ∈ cellEdges c,
      simpleAt (PreparePolyData pd []).1.cells e.1 e.2) (u v : Int) :
    ((u, v) ∈ (PreparePolyData pd []).2 ↔ 3 ≤ edgeUse (PreparePolyData pd []).1.cells u v)
      ∧ ((u, v) ∈ (PreparePolyData pd []).2 ↔ (v, u) ∈ (PreparePolyData pd []).2) := by
  have key : ∀ a b : Int, (a, b) ∈ (PreparePolyData pd []).2
      ↔ 3 ≤ edgeUse (PreparePolyData pd []).1.cells a b := by
    intro a b
    exact nonManifold_fold_mem (PreparePolyData pd []).1 hn hvalid hsimple a b
  refine ⟨key u v, ?_⟩
  rw [key u v, key v u, edgeUse_symm]

end Theorems

/-- The single triangle of `exBy`: its edge `(0, 1)` has one incident face, a count that
differs from two, and is not in the non-manifold edge set, which is empty. The mesh `exDiag`:
the edge `(0, 1)` has two incident faces, and it is in the set, because the polygon holds
both of its points without having the edge. -/
theorem PreparePolyData_boundary_edge_counterexample :
    ((PreparePolyData exBy []).1.cells = [⟨VTK_TRIANGLE, [0, 1, 2]⟩]
        ∧ ((0 : Int), (1 : Int)) ∈ cellEdges ⟨VTK_TRIANGLE, [0, 1, 2]⟩
        ∧ edgeUse (PreparePolyData exBy []).1.cells 0 1 = 1
        ∧ (PreparePolyData exBy []).2 = [])
      ∧ ((PreparePolyData exDiag []).1.cells = exDiag.cells
        ∧ edgeUse (PreparePolyData exDiag []).1.cells 0 1 = 2
        ∧ (PreparePolyData exDiag []).2 = [(0, 1), (1, 0)]) := by
  refine ⟨⟨by decide!, by decide!, by decide!, by decide!⟩, by decide!, by decide!, by decide!⟩

/-- The mesh `exA`: the edge `(0, 1)` has three incident faces and is in the set in both
orders; the edge `(1, 2)` has one and is not. -/
theorem PreparePolyData_nonManifold_edges_witness :
    (PreparePolyData exA []).2 = [(0, 1), (1, 0)]
      ∧ (((0 : Int), (1 : Int)) ∈ (PreparePolyData exA []).2
          ↔ 3 ≤ edgeUse (PreparePolyData exA []).1.cells 0 1)
      ∧ (((1 : Int), (2 : Int)) ∈ (PreparePolyData exA []).2
          ↔ 3 ≤ edgeUse (PreparePolyData exA []).1.cells 1 2)
      ∧ edgeUse (PreparePolyData exA []).1.cells 0 1 = 3
      ∧ edgeUse (PreparePolyData exA []).1.cells 1 2 = 1 :=
  ⟨by decide!,
    (PreparePolyData_nonManifold_edges exA (by decide!) (by decide!) (by decide!) 0 1).1,
    (PreparePolyData_nonManifold_edges exA (by decide!) (by decide!) (by decide!) 1 2).1,
    by decide!, by decide!⟩

/-! ### The neighbour ids of `OverlapLines`, on simple cells -/

theorem map_eq_singleton {α β : Type} (f : α → β) (l : List α) (b : β)
    (h : l.map f = [b]) : ∃ a, l = [a] ∧ f a = b := by
  cases l with
  | nil => simp at h
  | cons a l =>
    cases l with
    | nil => exact ⟨a, rfl, by simpa using h⟩
    | cons c l => simp at h

section Theorems

variable {K : Type} [LinearOrderedField K]

/-- C20, amended: for every segment produced by `OverlapLines`, in the order of the loops
over the pairs of an interval of `A` and an interval of `B` that overlap, the neighbour id
recorded for side A is the result of the lookup `GetNeig` for the two bounding points of the
contributing interval of `A`, and likewise for side B. The lookup gives the sentinel `NOTSET`
when the two points do not carry the same edge (`edge[0]` and `edge[1]`). When they do, it
gives the one cell other than the face itself that holds both points of the edge; on cells
that are simple at the edge (no cell lists a point twice, and a cell that holds both points
has the edge between them) this is the unique other face incident to the edge, which then
has two incident faces. `Merge` is any function that keeps `t` and `edge`. -/
theorem OverlapLines_neighbour_faces (merge : InterPt K → InterPt K → InterPt K)
    (ht : ∀ a c, (merge a c).t = a.t) (he : ∀ a c, (merge a c).edge = a.edge)
    (pdA pdB : PolyData K) (A B : List (InterPt K)) (polyA polyB : List Int) (idA idB : Int)
    (st : OverlapState K)
    (h : OverlapLines merge pdA pdB A B polyA polyB idA idB = some st) :
    st.ols.map (fun o => (some o.neigA, some o.neigB)) =
        (List.range (A.length / 2)).flatMap (fun i =>
          (List.range (B.length / 2)).flatMap fun j =>
            if ((ptAt A (2 * i)).t ≤ (ptAt B (2 * j)).t
                  ∧ (ptAt A (2 * i + 1)).t > (ptAt B (2 * j)).t)
                ∨ ((ptAt B (2 * j)).t ≤ (ptAt A (2 * i)).t
                  ∧ (ptAt B (2 * j + 1)).t > (ptAt A (2 * i)).t) then
              [(GetNeig (ptAt A (2 * i)) (ptAt A (2 * i + 1)) pdA polyA idA,
                GetNeig (ptAt B (2 * j)) (ptAt B (2 * j + 1)) pdB polyB idB)]
            else [])
      ∧ ∀ (pA pB : InterPt K) (pd : PolyData K) (poly : List Int) (k : Nat) (n : Int),
          GetNeig pA pB pd poly (k : Int) = some n →
          ((pA.edge.1 = pB.edge.1 ∧ pA.edge.2 = pB.edge.2) →
              n ≠ (k : Int) ∧ n ∈ cellLinks pd.cells (polyAt poly pA.edge.1)
                ∧ n ∈ cellLinks pd.cells (polyAt poly pA.edge.2)
                ∧ ∀ c, c ≠ (k : Int) → c ∈ cellLinks pd.cells (polyAt poly pA.edge.1) →
                    c ∈ cellLinks pd.cells (polyAt poly pA.edge.2) → c = n)
            ∧ ((pA.edge.1 = pB.edge.1 ∧ pA.edge.2 = pB.edge.2) →
                k < pd.cells.length →
                usesEdge (pd.cells.getD k ⟨VTK_EMPTY_CELL, []⟩)
                  (polyAt poly pA.edge.1) (polyAt poly pA.edge.2) = true →
                simpleAt pd.cells (polyAt poly pA.edge.1) (polyAt poly pA.edge.2) →
                edgeUse pd.cells (polyAt poly pA.edge.1) (polyAt poly pA.edge.2) = 2
                  ∧ ∃ m : Nat, n = (m : Int) ∧ m ≠ k ∧ m < pd.cells.length
                    ∧ usesEdge (pd.cells.getD m ⟨VTK_EMPTY_CELL, []⟩)
                        (polyAt poly pA.edge.1) (polyAt poly pA.edge.2) = true
                    ∧ ∀ c, c < pd.cells.length → c ≠ k →
                        usesEdge (pd.cells.getD c ⟨VTK_EMPTY_CELL, []⟩)
                          (polyAt poly pA.edge.1) (polyAt poly pA.edge.2) = true → c = m)
            ∧ (¬ (pA.edge.1 = pB.edge.1 ∧ pA.edge.2 = pB.edge.2) → n = NOTSET) := by
  refine ⟨(OverlapLines_neighbour_ids merge ht he pdA pdB A B polyA polyB idA idB st h).1, ?_⟩
  intro pA pB pd poly k n hn
  obtain ⟨h1, h2⟩ := GetNeig_some pA pB pd poly (k : Int) n hn
  refine ⟨fun hsame => edgeNeighbors_single pd _ _ _ n (h1 hsame), ?_, h2⟩
  intro hsame hk hface hs
  have hl := h1 hsame
  have hcount := edgeNeighbors_count pd k _ _ hk hface hs
  rw [hl] at hcount
  rw [edgeNeighbors_simple pd k _ _ hs] at hl
  obtain ⟨m, hm, hmn⟩ := map_eq_singleton _ _ _ hl
  have hmem : ∀ c, c ∈ (List.range pd.cells.length).filter (fun c =>
      usesEdge (pd.cells.getD c ⟨VTK_EMPTY_CELL, []⟩) (polyAt poly pA.edge.1)
        (polyAt poly pA.edge.2) && decide (c ≠ k)) ↔ c = m := by
    intro c
    rw [hm, List.mem_singleton]
  have hmm := (hmem m).mpr rfl
  rw [List.mem_filter, List.mem_range, Bool.and_eq_true, decide_eq_true_eq] at hmm
  refine ⟨by simpa using hcount.symm, m, hmn.symm, hmm.2.2, hmm.1, hmm.2.1, ?_⟩
  intro c hc hck hcu
  apply (hmem c).mp
  rw [List.mem_filter, List.mem_range, Bool.and_eq_true, decide_eq_true_eq]
  exact ⟨hc, hcu, hck⟩

end Theorems

/-- The first triangle of `exTwo`, whose edge `(0, 1)` lies on the cutting line with the
triangle `exBz`: both points of its interval carry the edge `(0, 1)`, which has two incident
faces, and the one segment has the other triangle of `exTwo`, cell 1, as neighbour on side A
and the sentinel on side B, where the two points lie on different edges. -/
theorem OverlapLines_neighbour_faces_witness :
    (exIntersA exTwo exBz).map (fun p => p.edge) = [(0, 1), (0, 1)]
      ∧ (exIntersB exTwo exBz).map (fun p => p.edge) = [(1, 2), (0, 1)]
      ∧ (polyAt [0, 1, 2] (ptAt (exIntersA exTwo exBz) 0).edge.1,
          polyAt [0, 1, 2] (ptAt (exIntersA exTwo exBz) 0).edge.2) = (0, 1)
      ∧ GetNeig (ptAt (exIntersA exTwo exBz) 0) (ptAt (exIntersA exTwo exBz) 1)
          (prepared exTwo exBz).pdA [0, 1, 2] ((0 : Nat) : Int) = some 1
      ∧ (∃ st, OverlapLines Merge (prepared exTwo exBz).pdA (prepared exTwo exBz).pdB
            (exIntersA exTwo exBz) (exIntersB exTwo exBz) [0, 1, 2] [0, 1, 2] 0 0 = some st
          ∧ st.ols.map (fun o => (some o.neigA, some o.neigB)) = [(some 1, some NOTSET)])
      ∧ edgeUse (prepared exTwo exBz).pdA.cells
          (polyAt [0, 1, 2] (ptAt (exIntersA exTwo exBz) 0).edge.1)
          (polyAt [0, 1, 2] (ptAt (exIntersA exTwo exBz) 0).edge.2) = 2
      ∧ ∃ m : Nat, (1 : Int) = (m : Int) ∧ m ≠ 0 ∧ m < (prepared exTwo exBz).pdA.cells.length
          ∧ usesEdge ((prepared exTwo exBz).pdA.cells.getD m ⟨VTK_EMPTY_CELL, []⟩)
              (polyAt [0, 1, 2] (ptAt (exIntersA exTwo exBz) 0).edge.1)
              (polyAt [0, 1, 2] (ptAt (exIntersA exTwo exBz) 0).edge.2) = true
          ∧ ∀ c, c < (prepared exTwo exBz).pdA.cells.length → c ≠ 0 →
              usesEdge ((prepared exTwo exBz).pdA.cells.getD c ⟨VTK_EMPTY_CELL, []⟩)
                (polyAt [0, 1, 2] (ptAt (exIntersA exTwo exBz) 0).edge.1)
                (polyAt [0, 1, 2] (ptAt (exIntersA exTwo exBz) 0).edge.2) = true → c = m := by
  obtain ⟨st, hst⟩ := OverlapLines_returns Merge Merge_edge (prepared exTwo exBz).pdA
    (prepared exTwo exBz).pdB (exIntersA exTwo exBz) (exIntersB exTwo exBz) [0, 1, 2] [0, 1, 2]
    0 0 (by decide!) (by decide!)
  have h := OverlapLines_neighbour_faces Merge Merge_t Merge_edge (prepared exTwo exBz).pdA
    (prepared exTwo exBz).pdB (exIntersA exTwo exBz) (exIntersB exTwo exBz) [0, 1, 2] [0, 1, 2]
    0 0 st hst
  have hg : GetNeig (ptAt (exIntersA exTwo exBz) 0) (ptAt (exIntersA exTwo exBz) 1)
      (prepared exTwo exBz).pdA [0, 1, 2] ((0 : Nat) : Int) = some 1 := by decide!
  have h2 := (h.2 (ptAt (exIntersA exTwo exBz) 0) (ptAt (exIntersA exTwo exBz) 1)
    (prepared exTwo exBz).pdA [0, 1, 2] 0 1 hg).2.1 (by decide!) (by decide!) (by decide!)
    (by decide!)
  exact ⟨by decide!, by decide!, by decide!, hg, ⟨st, hst, h.1.trans (by decide!)⟩, h2.1, h2.2⟩

/-- The triangle of `exDiag5`, whose edge `(0, 1)` lies on the cutting line with the triangle
`exBz`: both points of its interval carry the edge `(0, 1)`, which has the triangle as its
only incident face. The segment has cell 1, the pentagon, as neighbour on side A: the
pentagon holds the points 0 and 1 but has no edge between them, so the recorded id is not
a face incident to the edge. -/
theorem OverlapLines_diagonal_neighbour_counterexample :
    (prepared exDiag5 exBz).pdA.cells = exDiag5.cells
      ∧ (exIntersA exDiag5 exBz).map (fun p => p.edge) = [(0, 1), (0, 1)]
      ∧ (OverlapLines Merge (prepared exDiag5 exBz).pdA (prepared exDiag5 exBz).pdB
            (exIntersA exDiag5 exBz) (exIntersB exDiag5 exBz) [0, 1, 2] [0, 1, 2] 0 0).map
          (fun st => st.ols.map fun o => (o.neigA, o.neigB)) = some [(1, NOTSET)]
      ∧ (exDiag5.cells.map fun c => usesEdge c 0 1) = [true, false]
      ∧ edgeUse exDiag5.cells 0 1 = 1 := by
  refine ⟨by decide!, by decide!, by decide!, by decide!, by decide!⟩

/-! ### The flag of `AddContactLines` when the end points of both meshes coincide -/

/-- C7: the first triangle of `exA`, whose edge `(0, 1)` from `(0, 0, 0)` to `(4, 0, 0)` is
non-manifold, against the triangle `exTie`, in both point orders of that triangle. The
contact segment is the same, between `(1, 0, 0)` and `(1, 5/6, 0)`, and its end `(1, 0, 0)`
lies on the non-manifold edge of A, where the intervals of both triangles on the cutting
line end together. With the order `[0, 1, 2]` the stored end point is the point of A, with
the edge `(0, 1)` of A, and `invalidA` is set; with the order `[0, 2, 1]` both stored end
points are points of B, the guards `f.src == Src::A` and `s.src == Src::A` hide the edge of
A, and `invalidA` stays false. -/
theorem AddContactLines_tie_flag :
    (prepared exA (exTie [0, 1, 2])).edgesA = [(0, 1), (1, 0)]
      ∧ (prepared exA (exTie [0, 2, 1])).edgesA = [(0, 1), (1, 0)]
      ∧ (prepared exA (exTie [0, 2, 1])).pdA.points.take 2 = [⟨0, 0, 0⟩, ⟨4, 0, 0⟩]
      ∧ (exIntersA exA (exTie [0, 1, 2])).map (fun p => (p.pt, p.edge))
          = [(⟨1, 9 / 4, 0⟩, (1, 2)), (⟨1, 0, 0⟩, (0, 1))]
      ∧ (exIntersA exA (exTie [0, 2, 1])).map (fun p => (p.pt, p.edge))
          = [(⟨1, 0, 0⟩, (0, 1)), (⟨1, 9 / 4, 0⟩, (1, 2))]
      ∧ (OverlapLines Merge (prepared exA (exTie [0, 1, 2])).pdA
            (prepared exA (exTie [0, 1, 2])).pdB (exIntersA exA (exTie [0, 1, 2]))
            (exIntersB exA (exTie [0, 1, 2])) [0, 1, 2] [0, 1, 2] 0 0).map
          (fun st => st.ols.map fun o => (o.f.src, o.f.pt, o.s.src, o.s.pt))
          = some [(Src.B, ⟨1, 5 / 6, 0⟩, Src.A, ⟨1, 0, 0⟩)]
      ∧ (OverlapLines Merge (prepared exA (exTie [0, 1, 2])).pdA
            (prepared exA (exTie [0, 1, 2])).pdB (exIntersA exA (exTie [0, 1, 2]))
            (exIntersB exA (exTie [0, 1, 2])) [0, 1, 2] [0, 1, 2] 0 0).map
          (fun st => st.ols.map fun o => (o.s.src, o.s.edge)) = some [(Src.A, (0, 1))]
      ∧ (OverlapLines Merge (prepared exA (exTie [0, 2, 1])).pdA
            (prepared exA (exTie [0, 2, 1])).pdB (exIntersA exA (exTie [0, 2, 1]))
            (exIntersB exA (exTie [0, 2, 1])) [0, 1, 2] [0, 2, 1] 0 0).map
          (fun st => st.ols.map fun o => (o.f.src, o.f.pt, o.s.src, o.s.pt))
          = some [(Src.B, ⟨1, 0, 0⟩, Src.B, ⟨1, 5 / 6, 0⟩)]
      ∧ (AddContactLines Merge (prepared exA (exTie [0, 1, 2])) (exIntersA exA (exTie [0, 1, 2]))
            (exIntersB exA (exTie [0, 1, 2])) [0, 1, 2] [0, 1, 2] 0 0).map
          (fun s => (s.invalidA, contSegments s))
          = some (true, [(⟨1, 5 / 6, 0⟩, ⟨1, 0, 0⟩)])
      ∧ (AddContactLines Merge (prepared exA (exTie [0, 2, 1])) (exIntersA exA (exTie [0, 2, 1]))
            (exIntersB exA (exTie [0, 2, 1])) [0, 1, 2] [0, 2, 1] 0 0).map
          (fun s => (s.invalidA, contSegments s))
          = some (false, [(⟨1, 0, 0⟩, ⟨1, 5 / 6, 0⟩)]) := by
  refine ⟨by decide!, by decide!, by decide!, by decide!, by decide!, by decide!, by decide!,
    by decide!, by decide!, by decide!⟩

/-! ### Two cubes, one face given in two pieces -/

/-- The pass over all pairs of faces of the cube with a split face and the shifted cube,
evaluated. -/
theorem split_cube_run :
    (InterOBBNodes qsqrt Merge (newellNormal qsqrt)
        (prepared exCubeSplit (exCube VTK_POLYGON (1 / 2)))
        [0, 1, 2, 3, 4, 5, 6] [0, 1, 2, 3, 4, 5]).map
      (fun s => (contSegments s, (s.contA, s.contB), (s.invalidA, s.invalidB)))
      = some ([(⟨1, 1 / 2, 1⟩, ⟨1, 1 / 2, 1 / 2⟩), (⟨1, 1 / 2, 1 / 2⟩, ⟨1, 3 / 4, 1 / 2⟩),
            (⟨1, 3 / 4, 1 / 2⟩, ⟨1, 1, 1 / 2⟩), (⟨1 / 2, 1, 1 / 2⟩, ⟨1 / 2, 1, 1⟩),
            (⟨1, 1, 1 / 2⟩, ⟨1 / 2, 1, 1 / 2⟩), (⟨1 / 2, 1, 1⟩, ⟨1 / 2, 1 / 2, 1⟩),
            (⟨1 / 2, 1 / 2, 1⟩, ⟨1, 1 / 2, 1⟩)],
          ([1, 1, 2, 4, 4, 6, 6], [2, 4, 4, 0, 4, 0, 2]), (false, false)) := by
  decide!

/-- The cube `[0, 1]^3` with its face `x = 1` given as two rectangles that meet at `y = 3/4`,
against the cube `[1/2, 3/2]^3`: the pass over all pairs of faces is not aborted, sets no
flag and accumulates seven segments, because the side of the intersection loop from
`(1, 1/2, 1/2)` to `(1, 1, 1/2)` is produced once for each of the two rectangles. -/
theorem InterOBBNodes_split_face_counterexample :
    (prepared exCubeSplit (exCube VTK_POLYGON (1 / 2))).pdA.cells = exCubeSplit.cells
      ∧ ∃ s, InterOBBNodes qsqrt Merge (newellNormal qsqrt)
            (prepared exCubeSplit (exCube VTK_POLYGON (1 / 2)))
            [0, 1, 2, 3, 4, 5, 6] [0, 1, 2, 3, 4, 5] = some s
        ∧ s.contLines.length = 7
        ∧ (contSegments s).take 3
          = [(⟨1, 1 / 2, 1⟩, ⟨1, 1 / 2, 1 / 2⟩), (⟨1, 1 / 2, 1 / 2⟩, ⟨1, 3 / 4, 1 / 2⟩),
            (⟨1, 3 / 4, 1 / 2⟩, ⟨1, 1, 1 / 2⟩)]
        ∧ (s.invalidA, s.invalidB) = (false, false) := by
  refine ⟨by decide!, ?_⟩
  obtain ⟨s, hs, hv⟩ := option_map_some _ _ _ split_cube_run
  simp only [Prod.mk.injEq] at hv
  obtain ⟨h2, _, h4⟩ := hv
  have h1 : s.contLines.length = 7 := by
    have := congrArg List.length h2
    simpa [contSegments] using this
  refine ⟨s, hs, h1, ?_, ?_⟩
  · rw [h2]
    rfl
  · exact Prod.ext h4.1 h4.2
end ContactFilter
